import Mathlib

/-!
# simple_http_server: routing, dispatch and the message codec

A shallow embedding of `src/uri.h`, `src/http_message.{h,cc}` and the
request-handling part of `src/http_server.{h,cc}`: `HandleHttpRequest`,
`HandleHttpData` and `HandleEpollEvent`.

Modelling conventions
* `std::string` is `List Char`; a C++ `char` is a `Char` (the byte values 0..255
  are the code points 0..255).  `tolower`, `toupper` and `isspace` are the
  "C" locale functions.
* `std::map<K, V>` is an association list that is kept in strictly ascending
  key order (the in-order traversal of the tree); `map_find`, `map_assign`
  and `map_insert` are `find`, `operator[] =` and `insert`.
* A request handler is a `std::function`: it may have effects and it may
  throw.  Effects are explicit state passing over a world `σ`, a thrown
  exception is an `Exn`.
* `char buffer[kMaxBufferSize]` is the list of its bytes.  The two places where
  the code reads memory without regard to the size of the object, the
  constructor `std::string(const char*)` and `memcpy`, take the bytes that lie
  behind the object as an argument.
* `HandleEpollEvent` runs on a `Kernel`, the interest list of the epoll
  instance of the worker and the descriptors closed so far; what `recv` and
  `send` return is an argument.
-/

namespace simple_http_server

/-! ## Strings -/

abbrev Str := List Char

/-- The NUL byte that ends a C string. -/
def NUL : Char := Char.ofNat 0

/-- The `tolower` of the "C" locale. -/
def tolower (c : Char) : Char :=
  if 65 ≤ c.toNat ∧ c.toNat ≤ 90 then Char.ofNat (c.toNat + 32) else c

/-- The `toupper` of the "C" locale. -/
def toupper (c : Char) : Char :=
  if 97 ≤ c.toNat ∧ c.toNat ≤ 122 then Char.ofNat (c.toNat - 32) else c

/-- The `isspace` of the "C" locale: space, `\t`, `\n`, `\v`, `\f`, `\r`. -/
def isspace (c : Char) : Bool :=
  c.toNat = 32 || (9 ≤ c.toNat && c.toNat ≤ 13)

/-- The `operator<` of `std::string`: lexicographic on the character values. -/
def str_lt : Str → Str → Bool
  | [], [] => false
  | [], _ :: _ => true
  | _ :: _, [] => false
  | a :: as, b :: bs =>
    if a.toNat < b.toNat then true
    else if b.toNat < a.toNat then false
    else str_lt as bs

/-- Search of `needle` in the text `s`, whose first character has index `i`. -/
def find_at (needle : Str) : Str → Nat → Option Nat
  | [], i => if needle = [] then some i else none
  | c :: cs, i =>
    if needle.isPrefixOf (c :: cs) then some i else find_at needle cs (i + 1)

/-- The call `s.find(needle, pos)` of `std::string`; `none` is `npos`. -/
def find (s needle : Str) (pos : Nat) : Option Nat :=
  if s.length < pos then none else find_at needle (s.drop pos) pos

/-- The call `s.substr(pos, n)` of `std::string`, for `pos ≤ s.size()`. -/
def substr (s : Str) (pos n : Nat) : Str := (s.drop pos).take n

/-! ## Ordered maps -/

/-- The call `m.find(k)`: the value stored under a key equivalent to `k`. -/
def map_find {κ ν : Type} (lt : κ → κ → Bool) : List (κ × ν) → κ → Option ν
  | [], _ => none
  | (k', v') :: rest, k =>
    if !lt k k' && !lt k' k then some v' else map_find lt rest k

/-- The statement `m[k] = v`: the value under `k` is replaced, or the entry is
created at its place in the key order. -/
def map_assign {κ ν : Type} (lt : κ → κ → Bool) (k : κ) (v : ν) :
    List (κ × ν) → List (κ × ν)
  | [] => [(k, v)]
  | (k', v') :: rest =>
    if lt k k' then (k, v) :: (k', v') :: rest
    else if lt k' k then (k', v') :: map_assign lt k v rest
    else (k', v) :: rest

/-- The call `m.insert(std::make_pair(k, v))`: the entry is created at its place
in the key order; when the key is already present the map is left as it is. -/
def map_insert {κ ν : Type} (lt : κ → κ → Bool) (k : κ) (v : ν) :
    List (κ × ν) → List (κ × ν)
  | [] => [(k, v)]
  | (k', v') :: rest =>
    if lt k k' then (k, v) :: (k', v') :: rest
    else if lt k' k then (k', v') :: map_insert lt k v rest
    else (k', v') :: rest

/-- The call `m.erase(k)`. -/
def map_erase {κ ν : Type} (lt : κ → κ → Bool) (k : κ) :
    List (κ × ν) → List (κ × ν)
  | [] => []
  | (k', v') :: rest =>
    if !lt k k' && !lt k' k then rest else (k', v') :: map_erase lt k rest

/-- The class invariant of `std::map`: the keys are strictly ascending. -/
def map_sorted {κ ν : Type} (lt : κ → κ → Bool) (m : List (κ × ν)) : Prop :=
  m.Pairwise (fun a b => lt a.1 b.1 = true)

/-- A comparison that is a strict total order. -/
structure StrictTotal {κ : Type} (lt : κ → κ → Bool) : Prop where
  irrefl : ∀ a, lt a a = false
  trans : ∀ a b c, lt a b = true → lt b c = true → lt a c = true
  tri : ∀ a b, lt a b = false → lt b a = false → a = b

/-! ## uri.h -/

/-- The class `Uri`.  Only `path_` is modelled: `scheme_`, `host_` and `port_`
are never assigned, and `operator<` and `operator==` compare `path_` alone. -/
structure Uri where
  path_ : Str
  deriving DecidableEq, Repr

namespace Uri

/-- The member `SetPathToLowercase`. -/
def SetPathToLowercase (u : Uri) : Uri := { u with path_ := u.path_.map tolower }

/-- The constructor `Uri()`. -/
def default : Uri := { path_ := [] }

/-- The constructor `Uri(path)`. -/
def ofPath (path : Str) : Uri := SetPathToLowercase { path_ := path }

/-- The member `SetPath`. -/
def SetPath (_u : Uri) (path : Str) : Uri := SetPathToLowercase { path_ := path }

/-- The member `path()`. -/
def path (u : Uri) : Str := u.path_

/-- The member `operator<`. -/
def lt (a b : Uri) : Bool := str_lt a.path_ b.path_

end Uri

/-! ## http_message.h -/

inductive HttpMethod where
  | GET | HEAD | POST | PUT | DELETE | CONNECT | OPTIONS | TRACE | PATCH
  deriving DecidableEq, Repr

namespace HttpMethod

/-- The value of the enumerator. -/
def toNat : HttpMethod → Nat
  | GET => 0 | HEAD => 1 | POST => 2 | PUT => 3 | DELETE => 4
  | CONNECT => 5 | OPTIONS => 6 | TRACE => 7 | PATCH => 8

/-- The `std::less<HttpMethod>` that orders the inner routing map. -/
def lt (a b : HttpMethod) : Bool := decide (a.toNat < b.toNat)

end HttpMethod

inductive HttpVersion where
  | HTTP_0_9 | HTTP_1_0 | HTTP_1_1 | HTTP_2_0
  deriving DecidableEq, Repr

inductive HttpStatusCode where
  | Continue | SwitchingProtocols | EarlyHints
  | Ok | Created | Accepted | NonAuthoritativeInformation | NoContent
  | ResetContent | PartialContent
  | MultipleChoices | MovedPermanently | Found | NotModified
  | BadRequest | Unauthorized | Forbidden | NotFound | MethodNotAllowed
  | RequestTimeout | ImATeapot
  | InternalServerError | NotImplemented | BadGateway | ServiceUnvailable
  | GatewayTimeout | HttpVersionNotSupported
  deriving DecidableEq, Repr

namespace HttpStatusCode

/-- The value of the enumerator, `static_cast<int>(status_code)`. -/
def toNat : HttpStatusCode → Nat
  | Continue => 100 | SwitchingProtocols => 101 | EarlyHints => 103
  | Ok => 200 | Created => 201 | Accepted => 202
  | NonAuthoritativeInformation => 203 | NoContent => 204
  | ResetContent => 205 | PartialContent => 206
  | MultipleChoices => 300 | MovedPermanently => 301 | Found => 302
  | NotModified => 304
  | BadRequest => 400 | Unauthorized => 401 | Forbidden => 403
  | NotFound => 404 | MethodNotAllowed => 405 | RequestTimeout => 408
  | ImATeapot => 418
  | InternalServerError => 500 | NotImplemented => 501 | BadGateway => 502
  | ServiceUnvailable => 503 | GatewayTimeout => 504
  | HttpVersionNotSupported => 505

end HttpStatusCode

/-- The decimal text of a number: `std::to_string(size_t)` and `oss << int`. -/
def decimal (n : Nat) : Str := (Nat.toDigits 10 n)

/-- The members shared through `HttpMessageInterface`, and those of `HttpRequest`. -/
structure HttpRequest where
  version_ : HttpVersion
  headers_ : List (Str × Str)
  content_ : Str
  method_ : HttpMethod
  uri_ : Uri
  deriving DecidableEq, Repr

/-- The members shared through `HttpMessageInterface`, and that of `HttpResponse`. -/
structure HttpResponse where
  version_ : HttpVersion
  headers_ : List (Str × Str)
  content_ : Str
  status_code_ : HttpStatusCode
  deriving DecidableEq, Repr

namespace HttpRequest

/-- The constructor `HttpRequest()`. -/
def default : HttpRequest :=
  { version_ := .HTTP_1_1, headers_ := [], content_ := [], method_ := .GET,
    uri_ := Uri.default }

def SetHeader (r : HttpRequest) (key value : Str) : HttpRequest :=
  { r with headers_ := map_assign str_lt key value r.headers_ }

def RemoveHeader (r : HttpRequest) (key : Str) : HttpRequest :=
  { r with headers_ := map_erase str_lt key r.headers_ }

def ClearHeader (r : HttpRequest) : HttpRequest := { r with headers_ := [] }

def SetContentLength (r : HttpRequest) : HttpRequest :=
  r.SetHeader "Content-Length".toList (decimal r.content_.length)

def SetContent (r : HttpRequest) (content : Str) : HttpRequest :=
  SetContentLength { r with content_ := content }

def ClearContent (r : HttpRequest) (_content : Str) : HttpRequest :=
  SetContentLength { r with content_ := [] }

def SetMethod (r : HttpRequest) (method : HttpMethod) : HttpRequest :=
  { r with method_ := method }

def SetUri (r : HttpRequest) (uri : Uri) : HttpRequest := { r with uri_ := uri }

def version (r : HttpRequest) : HttpVersion := r.version_

def header (r : HttpRequest) (key : Str) : Str :=
  (map_find str_lt r.headers_ key).getD []

def headers (r : HttpRequest) : List (Str × Str) := r.headers_

def content (r : HttpRequest) : Str := r.content_

def content_length (r : HttpRequest) : Nat := r.content_.length

def method (r : HttpRequest) : HttpMethod := r.method_

def uri (r : HttpRequest) : Uri := r.uri_

end HttpRequest

namespace HttpResponse

/-- The constructor `HttpResponse(status_code)`. -/
def ofStatus (status_code : HttpStatusCode) : HttpResponse :=
  { version_ := .HTTP_1_1, headers_ := [], content_ := [],
    status_code_ := status_code }

/-- The constructor `HttpResponse()`. -/
def default : HttpResponse := ofStatus .Ok

def SetHeader (r : HttpResponse) (key value : Str) : HttpResponse :=
  { r with headers_ := map_assign str_lt key value r.headers_ }

def RemoveHeader (r : HttpResponse) (key : Str) : HttpResponse :=
  { r with headers_ := map_erase str_lt key r.headers_ }

def ClearHeader (r : HttpResponse) : HttpResponse := { r with headers_ := [] }

def SetContentLength (r : HttpResponse) : HttpResponse :=
  r.SetHeader "Content-Length".toList (decimal r.content_.length)

def SetContent (r : HttpResponse) (content : Str) : HttpResponse :=
  SetContentLength { r with content_ := content }

def ClearContent (r : HttpResponse) (_content : Str) : HttpResponse :=
  SetContentLength { r with content_ := [] }

def SetStatusCode (r : HttpResponse) (status_code : HttpStatusCode) : HttpResponse :=
  { r with status_code_ := status_code }

def version (r : HttpResponse) : HttpVersion := r.version_

def header (r : HttpResponse) (key : Str) : Str :=
  (map_find str_lt r.headers_ key).getD []

def headers (r : HttpResponse) : List (Str × Str) := r.headers_

def content (r : HttpResponse) : Str := r.content_

def content_length (r : HttpResponse) : Nat := r.content_.length

def status_code (r : HttpResponse) : HttpStatusCode := r.status_code_

end HttpResponse

/-! ## Exceptions -/

/-- A thrown C++ exception, classified the way the `catch` clauses of
`HandleHttpData` tell exceptions apart. -/
inductive Exn where
  /-- A `std::invalid_argument`. -/
  | invalid_argument (what : Str)
  /-- A `std::logic_error` that is not a `std::invalid_argument`, for example a
  `std::out_of_range`. -/
  | logic_error (what : Str)
  /-- A `std::exception` that is not a `std::logic_error`. -/
  | exception (what : Str)
  /-- A thrown object whose type does not derive from `std::exception`. -/
  | other
  deriving DecidableEq, Repr

/-! ## http_message.cc -/

namespace HttpMethod

def to_string : HttpMethod → Str
  | GET => "GET".toList
  | HEAD => "HEAD".toList
  | POST => "POST".toList
  | PUT => "PUT".toList
  | DELETE => "DELETE".toList
  | CONNECT => "CONNECT".toList
  | OPTIONS => "OPTIONS".toList
  | TRACE => "TRACE".toList
  | PATCH => "PATCH".toList

end HttpMethod

namespace HttpVersion

def to_string : HttpVersion → Str
  | HTTP_0_9 => "HTTP/0.9".toList
  | HTTP_1_0 => "HTTP/1.0".toList
  | HTTP_1_1 => "HTTP/1.1".toList
  | HTTP_2_0 => "HTTP/2.0".toList

end HttpVersion

namespace HttpStatusCode

def to_string : HttpStatusCode → Str
  | Continue => "Continue".toList
  | Ok => "OK".toList
  | Accepted => "Accepted".toList
  | MovedPermanently => "Moved Permanently".toList
  | Found => "Found".toList
  | BadRequest => "Bad Request".toList
  | Forbidden => "Forbidden".toList
  | NotFound => "Not Found".toList
  | MethodNotAllowed => "Method Not Allowed".toList
  | ImATeapot => "I'm a Teapot".toList
  | InternalServerError => "Internal Server Error".toList
  | NotImplemented => "Not Implemented".toList
  | BadGateway => "Bad Gateway".toList
  | _ => []

end HttpStatusCode

def string_to_method (method_string : Str) : Except Exn HttpMethod :=
  let method_string_uppercase := method_string.map toupper
  if method_string_uppercase = "GET".toList then .ok .GET
  else if method_string_uppercase = "HEAD".toList then .ok .HEAD
  else if method_string_uppercase = "POST".toList then .ok .POST
  else if method_string_uppercase = "PUT".toList then .ok .PUT
  else if method_string_uppercase = "DELETE".toList then .ok .DELETE
  else if method_string_uppercase = "CONNECT".toList then .ok .CONNECT
  else if method_string_uppercase = "OPTIONS".toList then .ok .OPTIONS
  else if method_string_uppercase = "TRACE".toList then .ok .TRACE
  else if method_string_uppercase = "PATCH".toList then .ok .PATCH
  else .error (.invalid_argument "Unexpected HTTP method".toList)

def string_to_version (version_string : Str) : Except Exn HttpVersion :=
  let version_string_uppercase := version_string.map toupper
  if version_string_uppercase = "HTTP/0.9".toList then .ok .HTTP_0_9
  else if version_string_uppercase = "HTTP/1.0".toList then .ok .HTTP_1_0
  else if version_string_uppercase = "HTTP/1.1".toList then .ok .HTTP_1_1
  else if version_string_uppercase = "HTTP/2".toList ∨
      version_string_uppercase = "HTTP/2.0".toList then .ok .HTTP_2_0
  else .error (.invalid_argument "Unexpected HTTP version".toList)

/-- The text `key: value\r\n` of every header, in the iteration order of the map. -/
def header_block : List (Str × Str) → Str
  | [] => []
  | p :: rest => p.1 ++ ": ".toList ++ p.2 ++ "\r\n".toList ++ header_block rest

namespace HttpRequest

def to_string (request : HttpRequest) : Str :=
  request.method.to_string ++ [' '] ++
  request.uri.path ++ [' '] ++
  request.version.to_string ++ "\r\n".toList ++
  header_block request.headers ++
  "\r\n".toList ++
  request.content

end HttpRequest

namespace HttpResponse

def to_string (response : HttpResponse) (send_content : Bool) : Str :=
  response.version.to_string ++ [' '] ++
  decimal response.status_code.toNat ++ [' '] ++
  response.status_code.to_string ++ "\r\n".toList ++
  header_block response.headers ++
  "\r\n".toList ++
  (if send_content then response.content else [])

end HttpResponse

/-- A `std::istringstream`: the characters not yet read and the state bits. -/
structure istringstream where
  buf : Str
  eofbit : Bool
  failbit : Bool
  deriving DecidableEq, Repr

namespace istringstream

/-- The calls `iss.clear(); iss.str(s)`, and the constructor from a string. -/
def str (s : Str) : istringstream := { buf := s, eofbit := false, failbit := false }

def good (s : istringstream) : Bool := !s.eofbit && !s.failbit

def eof (s : istringstream) : Bool := s.eofbit

/-- The extraction `iss >> str`.  A stream that is not good fails and leaves
`str` as it is; so does one that holds only white space.  Otherwise the white
space is skipped and `str` becomes the characters up to the next white space
or the end, the end setting `eofbit`. -/
def extract (s : istringstream) (str : Str) : istringstream × Str :=
  if !s.good then ({ s with failbit := true }, str)
  else
    match s.buf.dropWhile isspace with
    | [] => ({ buf := [], eofbit := true, failbit := true }, str)
    | c :: cs =>
      let rest := (c :: cs).dropWhile (fun x => !isspace x)
      ({ buf := rest, eofbit := rest.isEmpty, failbit := false },
        (c :: cs).takeWhile (fun x => !isspace x))

/-- The call `std::getline(s, str, delim)`.  A stream that is not good fails
and leaves `str` as it is.  Otherwise `str` becomes the characters up to the
delimiter, which is consumed, or up to the end, which sets `eofbit`, and
`failbit` too when nothing at all was extracted. -/
def getline (s : istringstream) (str : Str) (delim : Char) : istringstream × Str :=
  if !s.good then ({ s with failbit := true }, str)
  else
    let line := s.buf.takeWhile (fun x => x != delim)
    match s.buf.dropWhile (fun x => x != delim) with
    | [] => ({ buf := [], eofbit := true, failbit := line.isEmpty }, line)
    | _ :: rest => ({ buf := rest, eofbit := false, failbit := false }, line)

end istringstream

/-- The lines that the loop `while (std::getline(iss, line))` goes through for
a stream holding `s`: the pieces between the `\n`, a last piece without `\n`
included when it is not empty. -/
def getlines : Str → List Str
  | [] => []
  | c :: cs =>
    if c = '\n' then [] :: getlines cs
    else
      match getlines cs with
      | [] => [[c]]
      | l :: ls => (c :: l) :: ls

/-- The body of the header loop of `string_to_request` for one `line`.  The
variables `key` and `value` live outside the loop, so they come in with what
the previous round left in them. -/
def parse_header_line (request : HttpRequest) (key value line : Str) :
    HttpRequest × Str × Str :=
  let header_stream := istringstream.str line
  let (header_stream, key) := header_stream.getline key ':'
  let (_, value) := header_stream.getline value '\n'
  let key := key.filter (fun c => !isspace c)
  let value := value.filter (fun c => !isspace c)
  (request.SetHeader key value, key, value)

/-- The header loop of `string_to_request`. -/
def parse_header_lines (request : HttpRequest) (key value : Str) :
    List Str → HttpRequest
  | [] => request
  | line :: lines =>
    let (request, key, value) := parse_header_line request key value line
    parse_header_lines request key value lines

/-- The statements `iss >> method >> path >> version` of `string_to_request` on
the start line: the stream afterwards and the three strings. -/
def read_start_line (start_line : Str) : istringstream × Str × Str × Str :=
  let iss := istringstream.str start_line
  let (iss, method) := iss.extract []
  let (iss, path) := iss.extract []
  let (iss, version) := iss.extract []
  (iss, method, path, version)

/-- The second search of `string_to_request`, for the empty line, from `lpos`
on: `header_lines` and `message_body`, both empty when there is none. -/
def split_header_body (request_string : Str) (lpos : Nat) : Str × Str :=
  match find request_string "\r\n\r\n".toList lpos with
  | some rpos =>
    let header_lines := substr request_string lpos (rpos - lpos)
    let lpos := rpos + 4
    let rpos := request_string.length
    (header_lines,
      if lpos < rpos then substr request_string lpos (rpos - lpos) else [])
  | none => ([], [])

def string_to_request (request_string : Str) : Except Exn HttpRequest :=
  let lpos := 0
  match find request_string "\r\n".toList lpos with
  | none => .error (.invalid_argument "Could not find request start line".toList)
  | some rpos =>
    let start_line := substr request_string lpos (rpos - lpos)
    let lpos := rpos + 2
    let (header_lines, message_body) := split_header_body request_string lpos
    let (iss, method, path, version) := read_start_line start_line
    if !iss.good && !iss.eof then
      .error (.invalid_argument "Invalid start line format".toList)
    else
      match string_to_method method with
      | .error e => .error e
      | .ok m =>
        let request := (HttpRequest.default.SetMethod m).SetUri (Uri.ofPath path)
        match string_to_version version with
        | .error e => .error e
        | .ok v =>
          if v ≠ request.version then
            .error (.logic_error "HTTP version not supported".toList)
          else
            let request := parse_header_lines request [] [] (getlines header_lines)
            .ok (request.SetContent message_body)

/-- The function `string_to_response`, which only throws. -/
def string_to_response (_response_string : Str) : Except Exn HttpResponse :=
  .error (.logic_error "Method not implemented".toList)

/-! ## http_server.h, http_server.cc -/

def kMaxBufferSize : Nat := 4096

def kThreadPoolSize : Nat := 5

/-- The struct `EventData`; `buffer` is the array `char buffer[kMaxBufferSize]`. -/
structure EventData where
  fd : Int
  length : Nat
  cursor : Nat
  buffer : Str
  deriving DecidableEq, Repr

namespace EventData

/-- The constructor `EventData()`: all members zero, the buffer zero-filled. -/
def default : EventData :=
  { fd := 0, length := 0, cursor := 0, buffer := List.replicate kMaxBufferSize NUL }

end EventData

/-- The type `HttpRequestHandler_t`, a `std::function<HttpResponse(const
HttpRequest&)>`: called in the world `w` it returns a response or throws, and
leaves a world behind. -/
abbrev HttpRequestHandler_t (σ : Type) := HttpRequest → σ → Except Exn HttpResponse × σ

/-- The member `request_handlers_`, a
`std::map<Uri, std::map<HttpMethod, HttpRequestHandler_t>>`. -/
abbrev RequestHandlers (σ : Type) := List (Uri × List (HttpMethod × HttpRequestHandler_t σ))

/-- The overload `RegisterHttpRequestHandler(const Uri&, ...)`:
`request_handlers_[uri]` is the inner map of `uri`, created empty when there is
none, and the pair is `insert`ed into it. -/
def RegisterHttpRequestHandler_uri {σ : Type} (request_handlers_ : RequestHandlers σ)
    (uri : Uri) (method : HttpMethod) (callback : HttpRequestHandler_t σ) :
    RequestHandlers σ :=
  let inner := (map_find Uri.lt request_handlers_ uri).getD []
  map_assign Uri.lt uri (map_insert HttpMethod.lt method callback inner) request_handlers_

/-- The overload `RegisterHttpRequestHandler(const std::string& path, ...)`. -/
def RegisterHttpRequestHandler {σ : Type} (request_handlers_ : RequestHandlers σ)
    (path : Str) (method : HttpMethod) (callback : HttpRequestHandler_t σ) :
    RequestHandlers σ :=
  let uri := Uri.ofPath path
  RegisterHttpRequestHandler_uri request_handlers_ uri method callback

def HandleHttpRequest {σ : Type} (request_handlers_ : RequestHandlers σ)
    (request : HttpRequest) (w : σ) : Except Exn HttpResponse × σ :=
  match map_find Uri.lt request_handlers_ request.uri with
  | none => (.ok (HttpResponse.ofStatus .NotFound), w)
  | some methods =>
    match map_find HttpMethod.lt methods request.method with
    | none => (.ok (HttpResponse.ofStatus .MethodNotAllowed), w)
    | some callback => callback request w

/-- The constructor `std::string(const char*)` applied to the memory `mem` at
the pointer: the bytes before the first NUL. -/
def c_string (mem : Str) : Str := mem.takeWhile (fun c => c != NUL)

/-- The call `memcpy(dst, src, n)` into an array of `n` bytes: the `n` bytes
found in the memory `mem` at `src`; behind `mem` the memory reads as NUL. -/
def memcpy (mem : Str) (n : Nat) : Str := (mem ++ List.replicate n NUL).take n

/-- The `try` statement of `HandleHttpData` with its three `catch` clauses:
the request as it stands afterwards (the default one when decoding threw) and
the response.  An exception that no clause catches leaves the function. -/
def HandleHttpData_try {σ : Type} (request_handlers_ : RequestHandlers σ)
    (request_string : Str) (w : σ) : Except Exn (HttpRequest × HttpResponse) × σ :=
  let http_request := HttpRequest.default
  let (http_request, thrown, w) :=
    match string_to_request request_string with
    | .error e => (http_request, Except.error e, w)
    | .ok decoded =>
      let (r, w) := HandleHttpRequest request_handlers_ decoded w
      (decoded, r, w)
  match thrown with
  | .ok http_response => (.ok (http_request, http_response), w)
  | .error (.invalid_argument what) =>
    (.ok (http_request, (HttpResponse.ofStatus .BadRequest).SetContent what), w)
  | .error (.logic_error what) =>
    (.ok (http_request,
      (HttpResponse.ofStatus .HttpVersionNotSupported).SetContent what), w)
  | .error (.exception what) =>
    (.ok (http_request, (HttpResponse.ofStatus .InternalServerError).SetContent what), w)
  | .error .other => (.error .other, w)

/-- The string `response_string` that `HandleHttpData` encodes. -/
def HandleHttpData_response_string (http_request : HttpRequest)
    (http_response : HttpResponse) : Str :=
  http_response.to_string (http_request.method != HttpMethod.HEAD)

/-- The last two statements of `HandleHttpData`:
`memcpy(raw_response->buffer, response_string.c_str(), kMaxBufferSize)` and
`raw_response->length = response_string.length()`.  `behind_response` is the
memory that follows the terminator of `response_string.c_str()`. -/
def write_response (raw_response : EventData) (behind_response response_string : Str) :
    EventData :=
  { raw_response with
    buffer := memcpy (response_string ++ NUL :: behind_response) kMaxBufferSize
    length := response_string.length }

/-- The member `HandleHttpData`.  `behind_request` is the memory that follows
the array `raw_request.buffer`, `behind_response` the memory that follows the
terminator of `response_string.c_str()`: the constructor of `request_string`
reads up to the first NUL and `memcpy` always reads `kMaxBufferSize` bytes,
wherever the array and the string end. -/
def HandleHttpData {σ : Type} (request_handlers_ : RequestHandlers σ)
    (behind_request behind_response : Str)
    (raw_request : EventData) (raw_response : EventData) (w : σ) :
    Except Exn EventData × σ :=
  let request_string := c_string (raw_request.buffer ++ behind_request)
  match HandleHttpData_try request_handlers_ request_string w with
  | (.error e, w) => (.error e, w)
  | (.ok (http_request, http_response), w) =>
    let response_string := HandleHttpData_response_string http_request http_response
    (.ok (write_response raw_response behind_response response_string), w)

/-- The bytes `recv(fd, request->buffer, kMaxBufferSize, 0)` leaves in the
buffer when `data` arrives: at most `kMaxBufferSize` of them, written from
index 0 on. -/
def recv_into (request : EventData) (data : Str) : EventData × Nat :=
  let received := data.take kMaxBufferSize
  ({ request with buffer := received ++ request.buffer.drop received.length },
    received.length)

/-! ## Registration sequences -/

/-- One call of `RegisterHttpRequestHandler`. -/
structure Registration (σ : Type) where
  path : Str
  method : HttpMethod
  callback : HttpRequestHandler_t σ

/-- The routing table after the calls `regs`, made in order on the table `t`. -/
def register_all {σ : Type} (regs : List (Registration σ)) (t : RequestHandlers σ) :
    RequestHandlers σ :=
  regs.foldl (fun t r => RegisterHttpRequestHandler t r.path r.method r.callback) t

/-- The callback of the first call in `regs` made for the key `(uri, method)`. -/
def first_registered {σ : Type} (uri : Uri) (method : HttpMethod) :
    List (Registration σ) → Option (HttpRequestHandler_t σ)
  | [] => none
  | r :: rest =>
    if Uri.ofPath r.path = uri ∧ r.method = method then some r.callback
    else first_registered uri method rest

/-- The handler that a routing table holds for the key `(uri, method)`. -/
def lookup {σ : Type} (t : RequestHandlers σ) (uri : Uri) (method : HttpMethod) :
    Option (HttpRequestHandler_t σ) :=
  (map_find Uri.lt t uri).bind (fun methods => map_find HttpMethod.lt methods method)

/-- The inner maps of a routing table satisfy the class invariant of `std::map`. -/
def handlers_wf {σ : Type} (t : RequestHandlers σ) : Prop :=
  ∀ e ∈ t, map_sorted HttpMethod.lt e.2

/-! ## main.cc: the handlers and the routes of the demo server -/

def say_hello {σ : Type} : HttpRequestHandler_t σ := fun _request w =>
  let response := HttpResponse.ofStatus .Ok
  let response := response.SetHeader "Content-Type".toList "text/plain".toList
  let response := response.SetContent "Hello, world\n".toList
  (.ok response, w)

def send_html {σ : Type} : HttpRequestHandler_t σ := fun _request w =>
  let response := HttpResponse.ofStatus .Ok
  let content : Str := []
  let content := content ++ "<!doctype html>\n".toList
  let content := content ++ "<html>\n<body>\n\n".toList
  let content := content ++ "<h1>Hello, world in an Html page</h1>\n".toList
  let content := content ++ "<p>A Paragraph</p>\n\n".toList
  let content := content ++ "</body>\n</html>\n".toList
  let response := response.SetHeader "Content-Type".toList "text/html".toList
  let response := response.SetContent content
  (.ok response, w)

/-- The four calls of `RegisterHttpRequestHandler` in `main`. -/
def main_registrations (σ : Type) : List (Registration σ) :=
  [ ⟨"/".toList, .HEAD, say_hello⟩,
    ⟨"/".toList, .GET, say_hello⟩,
    ⟨"/hello.html".toList, .HEAD, send_html⟩,
    ⟨"/hello.html".toList, .GET, send_html⟩ ]

/-- A request as `string_to_request` builds it, before headers and content. -/
def request_for (method : HttpMethod) (path : Str) : HttpRequest :=
  (HttpRequest.default.SetMethod method).SetUri (Uri.ofPath path)

/-- A handler that fails with the exception `e`. -/
def throwing {σ : Type} (e : Exn) : HttpRequestHandler_t σ := fun _request w => (.error e, w)

/-- A handler whose response has a body of `n` bytes. -/
def big_body {σ : Type} (n : Nat) : HttpRequestHandler_t σ := fun _request w =>
  (.ok ((HttpResponse.ofStatus .Ok).SetContent (List.replicate n 'a')), w)

/-- A fresh read context after `data` has been received into it. -/
def received (data : Str) : EventData := (recv_into EventData.default data).1

/-- The names `to_string` gives to the nine methods. -/
def method_names : List Str :=
  [HttpMethod.GET, .HEAD, .POST, .PUT, .DELETE, .CONNECT, .OPTIONS, .TRACE, .PATCH].map
    HttpMethod.to_string

instance instDecidableEqExcept {ε α : Type} [DecidableEq ε] [DecidableEq α] :
    DecidableEq (Except ε α) := fun a b =>
  match a, b with
  | .ok x, .ok y =>
    if h : x = y then isTrue (by rw [h]) else isFalse (fun e => h (by cases e; rfl))
  | .error x, .error y =>
    if h : x = y then isTrue (by rw [h]) else isFalse (fun e => h (by cases e; rfl))
  | .ok _, .error _ => isFalse (fun e => by cases e)
  | .error _, .ok _ => isFalse (fun e => by cases e)

/-- The version names, other than HTTP/1.1, that `string_to_version` accepts. -/
def other_version_names : List Str :=
  ["HTTP/0.9".toList, "HTTP/1.0".toList, "HTTP/2".toList, "HTTP/2.0".toList]

/-- The first white-space separated token of a line, empty when there is none. -/
def first_token (line : Str) : Str :=
  (line.dropWhile isspace).takeWhile (fun c => !isspace c)

/-- A request of exactly `kMaxBufferSize` bytes, none of them NUL. -/
def full_request : Str :=
  "POST / HTTP/1.1\r\nA: b\r\n\r\n".toList ++ List.replicate 4071 'a'

/-! ## Class invariants of the messages -/

/-- The text `key: value\r\n` of one header. -/
def header_line (p : Str × Str) : Str := p.1 ++ ": ".toList ++ p.2 ++ "\r\n".toList

namespace HttpResponse

/-- The invariants of every `HttpResponse` object: `version_` is what the
constructor of `HttpMessageInterface` sets, nothing assigns it afterwards, and
`headers_` is a `std::map`. -/
def wf (r : HttpResponse) : Prop :=
  r.version_ = .HTTP_1_1 ∧ map_sorted str_lt r.headers_

end HttpResponse

namespace HttpRequest

/-- The invariants of every `HttpRequest` object: `version_` is what the
constructor of `HttpMessageInterface` sets, nothing assigns it afterwards, and
`headers_` is a `std::map`. -/
def wf (r : HttpRequest) : Prop :=
  r.version_ = .HTTP_1_1 ∧ map_sorted str_lt r.headers_

end HttpRequest

/-- The response `say_hello` builds. -/
def hello_response : HttpResponse :=
  ((HttpResponse.ofStatus .Ok).SetHeader "Content-Type".toList "text/plain".toList).SetContent
    "Hello, world\n".toList

/-- The request of `test_request_to_string`. -/
def test_request : HttpRequest :=
  (((HttpRequest.default.SetMethod .GET).SetUri (Uri.ofPath "/".toList)).SetHeader
    "Connection".toList "Keep-Alive".toList).SetContent "hello, world\n".toList

/-! ## Tables the encoders and decoders are compared with -/

/-- The lowercase counterpart of an uppercase ASCII letter, and every other
character itself. -/
def lowercase_counterpart (c : Char) : Char :=
  (("ABCDEFGHIJKLMNOPQRSTUVWXYZ".toList.zip "abcdefghijklmnopqrstuvwxyz".toList).lookup c).getD c

/-- The version names `string_to_version` accepts, uppercased. -/
def version_names : List Str :=
  ["HTTP/0.9".toList, "HTTP/1.0".toList, "HTTP/1.1".toList, "HTTP/2".toList,
    "HTTP/2.0".toList]

/-- The thirteen status codes that have a reason phrase, with the phrase. -/
def reason_phrases : List (Nat × Str) :=
  [ (100, "Continue".toList), (200, "OK".toList), (202, "Accepted".toList),
    (301, "Moved Permanently".toList), (302, "Found".toList),
    (400, "Bad Request".toList), (403, "Forbidden".toList), (404, "Not Found".toList),
    (405, "Method Not Allowed".toList), (418, "I'm a Teapot".toList),
    (500, "Internal Server Error".toList), (501, "Not Implemented".toList),
    (502, "Bad Gateway".toList) ]

/-- What is left of a line behind its first white-space separated token. -/
def skip_token (line : Str) : Str :=
  (line.dropWhile isspace).dropWhile (fun c => !isspace c)

/-- The white-space separated token number `n` of a line, counted from 0, and
the empty string when the line has no such token. -/
def nth_token : Nat → Str → Str
  | 0, line => first_token line
  | n + 1, line => nth_token n (skip_token line)

/-! ## The event loop: one readiness event of one connection -/

/-- The event bits of `<sys/epoll.h>`. -/
def EPOLLIN : Nat := 1

def EPOLLOUT : Nat := 4

def EPOLLERR : Nat := 8

def EPOLLHUP : Nat := 16

/-- The operations of `epoll_ctl`. -/
inductive EpollCtl where
  | EPOLL_CTL_ADD | EPOLL_CTL_MOD | EPOLL_CTL_DEL
  deriving DecidableEq, Repr

/-- What the operating system holds for one worker: the interest list of its
epoll instance, every registered descriptor with its event mask and the
`EventData` that `data.ptr` points to, and the descriptors closed so far. -/
structure Kernel where
  interest : List (Int × Nat × Option EventData)
  closed : List Int
  deriving DecidableEq, Repr

namespace Kernel

/-- The registration of `fd` in the interest list. -/
def lookup (k : Kernel) (fd : Int) : Option (Nat × Option EventData) :=
  k.interest.lookup fd

/-- The call `close(fd)`: the descriptor is closed, which also takes it off the
interest list. -/
def close (k : Kernel) (fd : Int) : Kernel :=
  { interest := k.interest.filter (fun e => e.1 != fd), closed := fd :: k.closed }

end Kernel

/-- The system call `epoll_ctl`; `none` is the return value -1.  `ADD` fails
on a descriptor that is registered already (`EEXIST`), `MOD` and `DEL` fail on
one that is not (`ENOENT`). -/
def epoll_ctl (k : Kernel) (op : EpollCtl) (fd : Int) (events : Nat)
    (data : Option EventData) : Option Kernel :=
  match op with
  | .EPOLL_CTL_ADD =>
    if (k.lookup fd).isSome then none
    else some { k with interest := (fd, events, data) :: k.interest }
  | .EPOLL_CTL_MOD =>
    if (k.lookup fd).isSome then
      some { k with
        interest := k.interest.map (fun e => if e.1 = fd then (fd, events, data) else e) }
    else none
  | .EPOLL_CTL_DEL =>
    if (k.lookup fd).isSome then
      some { k with interest := k.interest.filter (fun e => e.1 != fd) }
    else none

/-- The member `control_epoll_event`; the parameters `events` and `data`
default to `0` and `nullptr`. -/
def control_epoll_event (k : Kernel) (op : EpollCtl) (fd : Int) (events : Nat)
    (data : Option EventData) : Except Exn Kernel :=
  if op = .EPOLL_CTL_DEL then
    match epoll_ctl k op fd 0 none with
    | none => .error (.exception "Failed to remove file descriptor".toList)
    | some k => .ok k
  else
    match epoll_ctl k op fd events data with
    | none => .error (.exception "Failed to add file descriptor".toList)
    | some k => .ok k

/-- The outcome of `recv`: the bytes that arrived, none of them when the peer
has closed the connection, or -1 with `errno` saying that the call would block,
or -1 with another `errno`. -/
inductive RecvResult where
  | count (data : Str)
  | would_block
  | failed
  deriving DecidableEq, Repr

/-- The outcome of `send`: the number of bytes taken, or -1 with `errno` saying
that the call would block, or -1 with another `errno`. -/
inductive SendResult where
  | sent (byte_count : Nat)
  | would_block
  | failed
  deriving DecidableEq, Repr

/-- The member `HandleEpollEvent` for the context `data` and the event mask
`events`, given what `recv` or `send` returns.  The result is the exception
that leaves the function, if any, and the state of the kernel and of the
world afterwards. -/
def HandleEpollEvent {σ : Type} (request_handlers_ : RequestHandlers σ)
    (behind_request behind_response : Str) (k : Kernel) (data : EventData)
    (events : Nat) (recv_result : RecvResult) (send_result : SendResult) (w : σ) :
    Except Exn Unit × Kernel × σ :=
  let fd := data.fd
  if events = EPOLLIN then
    let request := data
    match recv_result with
    | .count (b :: bs) =>
      let request := (recv_into request (b :: bs)).1
      let response := { EventData.default with fd := fd }
      match HandleHttpData request_handlers_ behind_request behind_response
          request response w with
      | (.error e, w) => (.error e, k, w)
      | (.ok response, w) =>
        match control_epoll_event k .EPOLL_CTL_MOD fd EPOLLOUT (some response) with
        | .error e => (.error e, k, w)
        | .ok k => (.ok (), k, w)
    | .count [] =>
      match control_epoll_event k .EPOLL_CTL_DEL fd 0 none with
      | .error e => (.error e, k, w)
      | .ok k => (.ok (), k.close fd, w)
    | .would_block =>
      let request := { request with fd := fd }
      match control_epoll_event k .EPOLL_CTL_MOD fd EPOLLIN (some request) with
      | .error e => (.error e, k, w)
      | .ok k => (.ok (), k, w)
    | .failed =>
      match control_epoll_event k .EPOLL_CTL_DEL fd 0 none with
      | .error e => (.error e, k, w)
      | .ok k => (.ok (), k.close fd, w)
  else
    let response := data
    match send_result with
    | .sent byte_count =>
      if byte_count < response.length then
        let response :=
          { response with
            cursor := response.cursor + byte_count
            length := response.length - byte_count }
        match control_epoll_event k .EPOLL_CTL_MOD fd EPOLLOUT (some response) with
        | .error e => (.error e, k, w)
        | .ok k => (.ok (), k, w)
      else
        let request := { EventData.default with fd := fd }
        match control_epoll_event k .EPOLL_CTL_MOD fd EPOLLIN (some request) with
        | .error e => (.error e, k, w)
        | .ok k => (.ok (), k, w)
    | .would_block =>
      match control_epoll_event k .EPOLL_CTL_ADD fd EPOLLOUT (some response) with
      | .error e => (.error e, k, w)
      | .ok k => (.ok (), k, w)
    | .failed =>
      match control_epoll_event k .EPOLL_CTL_DEL fd 0 none with
      | .error e => (.error e, k, w)
      | .ok k => (.ok (), k.close fd, w)

/-- The bytes `send(fd, response->buffer + response->cursor, response->length,
0)` is given to take from: `length` bytes of memory from the address
`buffer + cursor` on, wherever the array `buffer` ends.  `behind_buffer` is
the memory that follows the array, as it is while the response is written. -/
def send_window (behind_buffer : Str) (response : EventData) : Str :=
  ((response.buffer ++ behind_buffer).drop response.cursor).take response.length

/-- The string has no white-space character. -/
def no_space (s : Str) : Prop := ∀ c ∈ s, isspace c = false

/-- The bytes that `send(fd, response->buffer + response->cursor,
response->length, 0)` takes when it returns `byte_count`. -/
def sent_bytes (behind_buffer : Str) (response : EventData) (byte_count : Nat) : Str :=
  (send_window behind_buffer response).take byte_count

/-- A run of writable events on the connection `fd`, one for every result of
`send` in the list: as `ProcessEvents` does, each event hands the context that
is registered for `fd` to `HandleEpollEvent`.  The result is the bytes each
call of `send` took, and the kernel and the world at the end. -/
def writable_events {σ : Type} (request_handlers_ : RequestHandlers σ)
    (behind_request behind_response behind_buffer : Str) (fd : Int) :
    List Nat → Kernel → σ → List Str × Kernel × σ
  | [], k, w => ([], k, w)
  | byte_count :: rest, k, w =>
    match k.lookup fd with
    | some (_, some response) =>
      match HandleEpollEvent request_handlers_ behind_request behind_response k response
          EPOLLOUT .would_block (.sent byte_count) w with
      | (_, k, w) =>
        match writable_events request_handlers_ behind_request behind_response behind_buffer
            fd rest k w with
        | (chunks, k, w) => (sent_bytes behind_buffer response byte_count :: chunks, k, w)
    | _ => ([], k, w)

/-- The variables of `Listen` and the epoll instances of the workers. -/
structure ListenState where
  worker_epoll_fd_ : Nat → Kernel
  current_worker : Nat
  active : Bool

/-- One turn of the loop of `Listen`, given what `accept4` returns; the sleep
of an idle turn is not modelled. -/
def Listen_turn (s : ListenState) (client_fd : Int) : Except Exn Unit × ListenState :=
  if client_fd < 0 then (.ok (), { s with active := false })
  else
    let client_data := { EventData.default with fd := client_fd }
    match control_epoll_event (s.worker_epoll_fd_ s.current_worker) .EPOLL_CTL_ADD
        client_fd EPOLLIN (some client_data) with
    | .error e => (.error e, { s with active := true })
    | .ok k =>
      let current_worker := s.current_worker + 1
      (.ok (),
        { worker_epoll_fd_ := Function.update s.worker_epoll_fd_ s.current_worker k
          current_worker := if current_worker = kThreadPoolSize then 0 else current_worker
          active := true })

/-- What happens, in order, while `Listen` runs: `accept4` returns in the thread
of `Listen`, or the worker thread `worker_id` has run in between
(`ProcessEvents` with its calls of `control_epoll_event` and `close`) and
has left its epoll instance as `k`. -/
inductive ListenEvent where
  | accept4 (client_fd : Int)
  | worker (worker_id : Nat) (k : Kernel)
  deriving DecidableEq, Repr

/-- The loop of `Listen` over the successive results of `accept4`, for as long
as `running_` holds, with the worker threads running at the same time on the
epoll instances they share with `Listen`. -/
def Listen_loop : List ListenEvent → ListenState → Except Exn Unit × ListenState
  | [], s => (.ok (), s)
  | .accept4 client_fd :: rest, s =>
    match Listen_turn s client_fd with
    | (.error e, s) => (.error e, s)
    | (.ok _, s) => Listen_loop rest s
  | .worker worker_id k :: rest, s =>
    Listen_loop rest { s with worker_epoll_fd_ := Function.update s.worker_epoll_fd_ worker_id k }

/-- The member `Listen`: the loop, entered with `current_worker = 0` and
`active = true`. -/
def Listen (worker_epoll_fd_ : Nat → Kernel) (events : List ListenEvent) :
    Except Exn Unit × ListenState :=
  Listen_loop events { worker_epoll_fd_ := worker_epoll_fd_, current_worker := 0, active := true }

/-- The descriptors of the connections that were accepted, in order. -/
def accepted : List ListenEvent → List Int
  | [] => []
  | .accept4 client_fd :: rest =>
    if client_fd < 0 then accepted rest else client_fd :: accepted rest
  | .worker _ _ :: rest => accepted rest

/-- What the kernel guarantees of `accept4` along a run: the descriptor it
returns was not open before the call, so at that moment it is in the interest
list of no worker.  A descriptor that a worker has closed has left the
interest lists, and `accept4` may return its number again. -/
def accept4_fresh : List ListenEvent → ListenState → Prop
  | [], _ => True
  | .accept4 client_fd :: rest, s =>
    (0 ≤ client_fd → ∀ j, (s.worker_epoll_fd_ j).lookup client_fd = none) ∧
      accept4_fresh rest (Listen_turn s client_fd).2
  | .worker worker_id k :: rest, s =>
    accept4_fresh rest
      { s with worker_epoll_fd_ := Function.update s.worker_epoll_fd_ worker_id k }

/-- A kernel with the descriptor 7 registered for writing the response of
`say_hello`. -/
def writing_kernel : Kernel :=
  { interest := [(7, EPOLLOUT,
      some (write_response { EventData.default with fd := 7 } []
        (hello_response.to_string true)))],
    closed := [] }

/-- The epoll instances as `SetUpEpoll` creates them: nothing is registered. -/
def fresh_workers : Nat → Kernel := fun _ => { interest := [], closed := [] }

/-- The text `key: value` of one header, without the CRLF. -/
def header_text (p : Str × Str) : Str := p.1 ++ ':' :: ' ' :: p.2

/-- The header lines of an encoded message as `string_to_request` cuts them
out: joined by CRLF, without the CRLF of the last one. -/
def header_lines_text : List (Str × Str) → Str
  | [] => []
  | [p] => header_text p
  | p :: q :: rest => header_text p ++ '\r' :: '\n' :: header_lines_text (q :: rest)

/-- No header key and no header value has white space, and no key has a colon. -/
def clean_headers (hs : List (Str × Str)) : Prop :=
  ∀ e ∈ hs, no_space e.1 ∧ no_space e.2 ∧ ':' ∉ e.1

/-- The lines that `std::getline` cuts out of the header lines of an encoded
message: each with its `\r`, the last one without. -/
def header_getlines : List (Str × Str) → List Str
  | [] => []
  | [p] => [header_text p]
  | p :: q :: rest => (header_text p ++ ['\r']) :: header_getlines (q :: rest)

/-! # Properties -/

/-! ## The string order and the method order are strict total orders -/

theorem char_eq_of_toNat_eq {a b : Char} (h : a.toNat = b.toNat) : a = b := by
  apply Char.ext
  apply UInt32.ext
  exact h

theorem str_lt_irrefl (a : Str) : str_lt a a = false := by
  induction a with
  | nil => rfl
  | cons x xs ih => simp [str_lt, ih]

theorem str_lt_tri : ∀ a b : Str, str_lt a b = false → str_lt b a = false → a = b
  | [], [], _, _ => rfl
  | [], _ :: _, h, _ => by simp [str_lt] at h
  | _ :: _, [], _, h => by simp [str_lt] at h
  | x :: xs, y :: ys, h1, h2 => by
    simp only [str_lt] at h1 h2
    by_cases hxy : x.toNat < y.toNat
    · simp [hxy] at h1
    · by_cases hyx : y.toNat < x.toNat
      · simp [hyx] at h2
      · simp only [hxy, hyx, if_false] at h1 h2
        have hc : x = y := char_eq_of_toNat_eq (by omega)
        rw [hc, str_lt_tri xs ys h1 h2]

theorem str_lt_trans : ∀ a b c : Str, str_lt a b = true → str_lt b c = true →
    str_lt a c = true
  | [], _, [], _, h2 => by cases ‹Str› <;> simp [str_lt] at h2
  | [], _, _ :: _, _, _ => by simp [str_lt]
  | _ :: _, [], _, h1, _ => by simp [str_lt] at h1
  | _ :: _, _ :: _, [], _, h2 => by simp [str_lt] at h2
  | x :: xs, y :: ys, z :: zs, h1, h2 => by
    simp only [str_lt] at h1 h2 ⊢
    by_cases hxy : x.toNat < y.toNat
    · by_cases hyz : y.toNat < z.toNat
      · have : x.toNat < z.toNat := by omega
        simp [this]
      · by_cases hzy : z.toNat < y.toNat
        · simp [hyz, hzy] at h2
        · have : x.toNat < z.toNat := by omega
          simp [this]
    · by_cases hyx : y.toNat < x.toNat
      · simp [hxy, hyx] at h1
      · simp only [hxy, hyx, if_false] at h1
        by_cases hyz : y.toNat < z.toNat
        · have : x.toNat < z.toNat := by omega
          simp [this]
        · by_cases hzy : z.toNat < y.toNat
          · simp [hyz, hzy] at h2
          · simp only [hyz, hzy, if_false] at h2
            have h3 : ¬ x.toNat < z.toNat := by omega
            have h4 : ¬ z.toNat < x.toNat := by omega
            simp only [h3, h4, if_false]
            exact str_lt_trans xs ys zs h1 h2

theorem str_lt_strictTotal : StrictTotal str_lt :=
  ⟨str_lt_irrefl, str_lt_trans, str_lt_tri⟩

theorem uri_lt_strictTotal : StrictTotal Uri.lt where
  irrefl a := str_lt_irrefl a.path_
  trans a b c := str_lt_trans a.path_ b.path_ c.path_
  tri a b h1 h2 := by
    cases a; cases b
    simp only [Uri.lt] at h1 h2
    rw [str_lt_tri _ _ h1 h2]

theorem method_lt_strictTotal : StrictTotal HttpMethod.lt where
  irrefl a := by simp [HttpMethod.lt]
  trans a b c := by
    simp only [HttpMethod.lt, decide_eq_true_eq]
    omega
  tri a b := by
    cases a <;> cases b <;> simp [HttpMethod.lt, HttpMethod.toNat]

/-! ## Ordered maps: what `find` returns after `operator[] =` and `insert` -/

theorem StrictTotal.equiv_iff {κ : Type} {lt : κ → κ → Bool} (h : StrictTotal lt)
    (a b : κ) : (!lt a b && !lt b a) = true ↔ a = b := by
  constructor
  · intro hab
    simp only [Bool.and_eq_true, Bool.not_eq_true'] at hab
    exact h.tri a b hab.1 hab.2
  · rintro rfl
    simp [h.irrefl]

theorem map_find_cons {κ ν : Type} [DecidableEq κ] {lt : κ → κ → Bool}
    (h : StrictTotal lt) (k' : κ) (v' : ν) (rest : List (κ × ν)) (k : κ) :
    map_find lt ((k', v') :: rest) k = if k = k' then some v' else map_find lt rest k := by
  simp only [map_find]
  by_cases hk : k = k'
  · simp [hk, h.irrefl]
  · have : ¬ ((!lt k k' && !lt k' k) = true) := fun hc => hk ((h.equiv_iff k k').1 hc)
    simp [hk, this]

theorem map_find_nil {κ ν : Type} (lt : κ → κ → Bool) (k : κ) :
    map_find lt ([] : List (κ × ν)) k = none := rfl

theorem map_find_assign {κ ν : Type} [DecidableEq κ] {lt : κ → κ → Bool}
    (h : StrictTotal lt) (k : κ) (v : ν) (m : List (κ × ν)) (q : κ) :
    map_find lt (map_assign lt k v m) q = if q = k then some v else map_find lt m q := by
  induction m with
  | nil => rw [map_assign, map_find_cons h, map_find_nil]
  | cons e rest ih =>
    obtain ⟨k', v'⟩ := e
    simp only [map_assign]
    by_cases h1 : lt k k' = true
    · rw [if_pos h1, map_find_cons h]
    · by_cases h2 : lt k' k = true
      · have hne : k ≠ k' := by
          rintro rfl
          simp [h.irrefl] at h2
        rw [if_neg h1, if_pos h2, map_find_cons h, map_find_cons h, ih]
        by_cases hq : q = k
        · simp [hq, hne]
        · simp [hq]
      · have hkk : k = k' := h.tri k k' (by simpa using h1) (by simpa using h2)
        subst hkk
        rw [if_neg h1, if_neg h2, map_find_cons h, map_find_cons h]
        by_cases hq : q = k <;> simp [hq]

theorem map_find_none_of_lt {κ ν : Type} [DecidableEq κ] {lt : κ → κ → Bool}
    (h : StrictTotal lt) (k : κ) (m : List (κ × ν))
    (hm : ∀ e ∈ m, lt k e.1 = true) : map_find lt m k = none := by
  induction m with
  | nil => rfl
  | cons e rest ih =>
    obtain ⟨k', v'⟩ := e
    have h1 : lt k k' = true := hm (k', v') (List.mem_cons_self _ _)
    have hne : k ≠ k' := by
      rintro rfl
      simp [h.irrefl] at h1
    rw [map_find_cons h, if_neg hne]
    exact ih (fun e he => hm e (List.mem_cons_of_mem _ he))

theorem map_find_insert {κ ν : Type} [DecidableEq κ] {lt : κ → κ → Bool}
    (h : StrictTotal lt) (k : κ) (v : ν) (m : List (κ × ν)) (hs : map_sorted lt m)
    (q : κ) :
    map_find lt (map_insert lt k v m) q =
      match map_find lt m q with
      | some x => some x
      | none => if q = k then some v else none := by
  induction m with
  | nil => rw [map_insert, map_find_cons h, map_find_nil]
  | cons e rest ih =>
    obtain ⟨k', v'⟩ := e
    have hs' := List.pairwise_cons.1 hs
    simp only [map_insert]
    by_cases h1 : lt k k' = true
    · rw [if_pos h1]
      by_cases hq : q = k
      · subst hq
        have hnone : map_find lt ((k', v') :: rest) q = none := by
          apply map_find_none_of_lt h
          intro e he
          rcases List.mem_cons.1 he with rfl | he
          · exact h1
          · exact h.trans _ _ _ h1 (hs'.1 e he)
        rw [hnone, map_find_cons h]
        simp
      · rw [map_find_cons h, if_neg hq]
        cases map_find lt ((k', v') :: rest) q <;> simp [hq]
    · by_cases h2 : lt k' k = true
      · have hne : k ≠ k' := by
          rintro rfl
          simp [h.irrefl] at h2
        rw [if_neg h1, if_pos h2, map_find_cons h, map_find_cons h, ih hs'.2]
        by_cases hq : q = k'
        · simp [hq]
        · simp [hq]
      · have hkk : k = k' := h.tri k k' (by simpa using h1) (by simpa using h2)
        subst hkk
        rw [if_neg h1, if_neg h2]
        by_cases hq : q = k
        · rw [map_find_cons h]
          simp [hq]
        · cases hf : map_find lt ((k, v') :: rest) q <;> simp [hq]

theorem map_sorted_insert {κ ν : Type} {lt : κ → κ → Bool}
    (h : StrictTotal lt) (k : κ) (v : ν) (m : List (κ × ν)) (hs : map_sorted lt m) :
    map_sorted lt (map_insert lt k v m) ∧
      ∀ e ∈ map_insert lt k v m, e ∈ m ∨ e = (k, v) := by
  induction m with
  | nil => simp [map_insert, map_sorted]
  | cons e rest ih =>
    obtain ⟨k', v'⟩ := e
    have hs' := List.pairwise_cons.1 hs
    simp only [map_insert]
    by_cases h1 : lt k k' = true
    · simp only [h1, if_true]
      refine ⟨List.pairwise_cons.2 ⟨?_, hs⟩, ?_⟩
      · intro e he
        rcases List.mem_cons.1 he with rfl | he
        · exact h1
        · exact h.trans _ _ _ h1 (hs'.1 e he)
      · intro e he
        rcases List.mem_cons.1 he with rfl | he
        · exact Or.inr rfl
        · exact Or.inl he
    · by_cases h2 : lt k' k = true
      · simp only [h1, h2, if_true, if_false]
        obtain ⟨ih1, ih2⟩ := ih hs'.2
        refine ⟨List.pairwise_cons.2 ⟨?_, ih1⟩, ?_⟩
        · intro e he
          rcases ih2 e he with he | rfl
          · exact hs'.1 e he
          · exact h2
        · intro e he
          rcases List.mem_cons.1 he with rfl | he
          · exact Or.inl (List.mem_cons_self _ _)
          · rcases ih2 e he with he | rfl
            · exact Or.inl (List.mem_cons_of_mem _ he)
            · exact Or.inr rfl
      · simp only [h1, h2, if_false]
        exact ⟨hs, fun e he => Or.inl he⟩

theorem mem_map_assign {κ ν : Type} {lt : κ → κ → Bool} (k : κ) (v : ν)
    (m : List (κ × ν)) : ∀ e ∈ map_assign lt k v m, e ∈ m ∨ e.2 = v := by
  induction m with
  | nil => simp [map_assign]
  | cons e rest ih =>
    obtain ⟨k', v'⟩ := e
    simp only [map_assign]
    by_cases h1 : lt k k' = true
    · simp only [h1, if_true]
      intro e he
      rcases List.mem_cons.1 he with rfl | he
      · exact Or.inr rfl
      · exact Or.inl he
    · by_cases h2 : lt k' k = true
      · simp only [h1, h2, if_true, if_false]
        intro e he
        rcases List.mem_cons.1 he with rfl | he
        · exact Or.inl (List.mem_cons_self _ _)
        · rcases ih e he with he | he
          · exact Or.inl (List.mem_cons_of_mem _ he)
          · exact Or.inr he
      · simp only [h1, h2, if_false]
        intro e he
        rcases List.mem_cons.1 he with rfl | he
        · exact Or.inr rfl
        · exact Or.inl (List.mem_cons_of_mem _ he)

theorem mem_of_map_find {κ ν : Type} {lt : κ → κ → Bool} (m : List (κ × ν)) (k : κ)
    (v : ν) (hf : map_find lt m k = some v) : ∃ k', (k', v) ∈ m := by
  induction m with
  | nil => simp [map_find] at hf
  | cons e rest ih =>
    obtain ⟨k', v'⟩ := e
    simp only [map_find] at hf
    split_ifs at hf with hc
    · cases hf
      exact ⟨k', List.mem_cons_self _ _⟩
    · obtain ⟨k'', hk⟩ := ih hf
      exact ⟨k'', List.mem_cons_of_mem _ hk⟩

/-! ## The routing table after a sequence of registrations -/

theorem handlers_wf_nil {σ : Type} : handlers_wf ([] : RequestHandlers σ) := by
  intro e he
  cases he

theorem inner_sorted {σ : Type} (t : RequestHandlers σ) (hwf : handlers_wf t) (uri : Uri) :
    map_sorted HttpMethod.lt ((map_find Uri.lt t uri).getD []) := by
  cases hf : map_find Uri.lt t uri with
  | none => exact List.Pairwise.nil
  | some inner =>
    obtain ⟨k', hk⟩ := mem_of_map_find t uri inner hf
    exact hwf _ hk

theorem handlers_wf_register {σ : Type} (t : RequestHandlers σ) (hwf : handlers_wf t)
    (path : Str) (method : HttpMethod) (callback : HttpRequestHandler_t σ) :
    handlers_wf (RegisterHttpRequestHandler t path method callback) := by
  intro e he
  rcases mem_map_assign _ _ _ e he with he | he
  · exact hwf e he
  · rw [he]
    exact (map_sorted_insert method_lt_strictTotal _ _ _ (inner_sorted t hwf _)).1

theorem handlers_wf_register_all {σ : Type} (regs : List (Registration σ))
    (t : RequestHandlers σ) (hwf : handlers_wf t) : handlers_wf (register_all regs t) := by
  induction regs generalizing t with
  | nil => exact hwf
  | cons r rest ih => exact ih _ (handlers_wf_register t hwf _ _ _)

theorem map_find_register {σ : Type} (t : RequestHandlers σ)
    (path : Str) (method : HttpMethod) (callback : HttpRequestHandler_t σ) (uri : Uri) :
    (map_find Uri.lt (RegisterHttpRequestHandler t path method callback) uri).isSome =
      (decide (uri = Uri.ofPath path) || (map_find Uri.lt t uri).isSome) := by
  unfold RegisterHttpRequestHandler RegisterHttpRequestHandler_uri
  simp only []
  rw [map_find_assign uri_lt_strictTotal]
  by_cases hu : uri = Uri.ofPath path <;> simp [hu]

theorem lookup_register {σ : Type} (t : RequestHandlers σ) (hwf : handlers_wf t)
    (path : Str) (method : HttpMethod) (callback : HttpRequestHandler_t σ)
    (uri : Uri) (m : HttpMethod) :
    lookup (RegisterHttpRequestHandler t path method callback) uri m =
      match lookup t uri m with
      | some x => some x
      | none => if Uri.ofPath path = uri ∧ method = m then some callback else none := by
  unfold lookup RegisterHttpRequestHandler RegisterHttpRequestHandler_uri
  simp only []
  rw [map_find_assign uri_lt_strictTotal]
  by_cases hu : uri = Uri.ofPath path
  · subst hu
    rw [if_pos rfl, Option.some_bind,
      map_find_insert method_lt_strictTotal _ _ _ (inner_sorted t hwf _)]
    cases hf : map_find Uri.lt t (Uri.ofPath path) with
    | none =>
      simp only [Option.getD_none, map_find_nil, Option.none_bind, true_and]
      by_cases hm : m = method
      · simp [hm]
      · have hm' : ¬ method = m := fun hc => hm hc.symm
        simp [hm, hm']
    | some inner =>
      simp only [Option.getD_some, Option.some_bind, true_and]
      cases map_find HttpMethod.lt inner m with
      | some x => rfl
      | none =>
        by_cases hm : m = method
        · simp [hm]
        · have hm' : ¬ method = m := fun hc => hm hc.symm
          simp [hm, hm']
  · have hu' : ¬ Uri.ofPath path = uri := fun hc => hu hc.symm
    rw [if_neg hu]
    cases (map_find Uri.lt t uri).bind fun methods => map_find HttpMethod.lt methods m <;>
      simp [hu']

theorem lookup_register_all {σ : Type} (regs : List (Registration σ))
    (t : RequestHandlers σ) (hwf : handlers_wf t) (uri : Uri) (m : HttpMethod) :
    lookup (register_all regs t) uri m =
      match lookup t uri m with
      | some x => some x
      | none => first_registered uri m regs := by
  induction regs generalizing t with
  | nil =>
    show lookup t uri m = _
    cases lookup t uri m <;> rfl
  | cons r rest ih =>
    show lookup (register_all rest (RegisterHttpRequestHandler t r.path r.method r.callback))
      uri m = _
    rw [ih _ (handlers_wf_register t hwf _ _ _), lookup_register t hwf]
    cases lookup t uri m with
    | some x => rfl
    | none =>
      simp only [first_registered]
      by_cases hc : Uri.ofPath r.path = uri ∧ r.method = m <;> simp [hc]

theorem map_find_register_all {σ : Type} (regs : List (Registration σ))
    (t : RequestHandlers σ) (uri : Uri) :
    (map_find Uri.lt (register_all regs t) uri).isSome =
      ((map_find Uri.lt t uri).isSome || regs.any (fun r => decide (Uri.ofPath r.path = uri))) := by
  induction regs generalizing t with
  | nil => simp [register_all]
  | cons r rest ih =>
    show (map_find Uri.lt
      (register_all rest (RegisterHttpRequestHandler t r.path r.method r.callback)) uri).isSome = _
    rw [ih, map_find_register, List.any_cons]
    by_cases hu : uri = Uri.ofPath r.path
    · simp [hu]
    · have hu' : ¬ Uri.ofPath r.path = uri := fun hc => hu hc.symm
      simp [hu, hu']

theorem HandleHttpRequest_eq {σ : Type} (t : RequestHandlers σ) (request : HttpRequest)
    (w : σ) :
    HandleHttpRequest t request w =
      if (map_find Uri.lt t request.uri).isSome then
        match lookup t request.uri request.method with
        | some callback => callback request w
        | none => (.ok (HttpResponse.ofStatus .MethodNotAllowed), w)
      else (.ok (HttpResponse.ofStatus .NotFound), w) := by
  unfold HandleHttpRequest lookup
  cases map_find Uri.lt t request.uri with
  | none => rfl
  | some methods =>
    simp only [Option.isSome_some, if_true, Option.some_bind]
    cases map_find HttpMethod.lt methods request.method <;> rfl

theorem first_registered_append {σ : Type} (uri : Uri) (m : HttpMethod)
    (before : List (Registration σ)) (rest : List (Registration σ))
    (hbefore : ∀ r ∈ before, ¬ (Uri.ofPath r.path = uri ∧ r.method = m)) :
    first_registered uri m (before ++ rest) = first_registered uri m rest := by
  induction before with
  | nil => rfl
  | cons r rs ih =>
    have h1 := hbefore r (List.mem_cons_self _ _)
    simp only [List.cons_append, first_registered, if_neg h1]
    exact ih (fun r hr => hbefore r (List.mem_cons_of_mem _ hr))

theorem first_registered_isSome {σ : Type} (uri : Uri) (m : HttpMethod)
    (regs : List (Registration σ)) (h : (first_registered uri m regs).isSome) :
    regs.any (fun r => decide (Uri.ofPath r.path = uri)) = true := by
  induction regs with
  | nil => simp [first_registered] at h
  | cons r rs ih =>
    simp only [first_registered] at h
    rw [List.any_cons]
    by_cases hc : Uri.ofPath r.path = uri ∧ r.method = m
    · simp [hc.1]
    · rw [if_neg hc] at h
      simp [ih h]

theorem first_registered_none {σ : Type} (uri : Uri) (m : HttpMethod)
    (regs : List (Registration σ))
    (h : ∀ r ∈ regs, ¬ (Uri.ofPath r.path = uri ∧ r.method = m)) :
    first_registered uri m regs = none := by
  induction regs with
  | nil => rfl
  | cons r rs ih =>
    simp only [first_registered, if_neg (h r (List.mem_cons_self _ _))]
    exact ih (fun r hr => h r (List.mem_cons_of_mem _ hr))

theorem ofPath_eq_iff (path : Str) (uri : Uri) :
    Uri.ofPath path = uri ↔ path.map tolower = uri.path := by
  cases uri
  simp [Uri.ofPath, Uri.SetPathToLowercase, Uri.path]

/-- The dispatch on a table built from the empty one: the first registration
made for the key decides. -/
theorem HandleHttpRequest_register_all {σ : Type} (regs : List (Registration σ))
    (request : HttpRequest) (w : σ) :
    HandleHttpRequest (register_all regs []) request w =
      match first_registered request.uri request.method regs with
      | some callback => callback request w
      | none =>
        if regs.any (fun r => decide (Uri.ofPath r.path = request.uri)) then
          (.ok (HttpResponse.ofStatus .MethodNotAllowed), w)
        else (.ok (HttpResponse.ofStatus .NotFound), w) := by
  rw [HandleHttpRequest_eq, lookup_register_all regs [] handlers_wf_nil,
    map_find_register_all]
  have hl : lookup ([] : RequestHandlers σ) request.uri request.method = none := rfl
  rw [hl]
  simp only [map_find_nil, Option.isSome_none, Bool.false_or]
  cases hf : first_registered request.uri request.method regs with
  | some callback =>
    have := first_registered_isSome request.uri request.method regs (by simp [hf])
    simp [this]
  | none => rfl

/-! ## Dispatch: registered pairs, unroutable requests, registering twice -/

/-- C1: in a routing table built by calls of `RegisterHttpRequestHandler` among
which exactly one is made for the pair `(path, method)`, with handler `h`, a
request with that method whose Uri path is the registered path, both
lowercased, gets exactly what `h` does on it: the result of `h` and the world
`h` leaves, so no other handler has run. -/
theorem HandleHttpRequest_registered_once {σ : Type}
    (before after : List (Registration σ)) (path : Str) (method : HttpMethod)
    (h : HttpRequestHandler_t σ) (request : HttpRequest) (w : σ)
    (hbefore : ∀ r ∈ before,
      ¬ (r.path.map tolower = path.map tolower ∧ r.method = method))
    (hafter : ∀ r ∈ after,
      ¬ (r.path.map tolower = path.map tolower ∧ r.method = method))
    (hmethod : request.method = method)
    (hlower : request.uri.path.map tolower = request.uri.path)
    (hpath : request.uri.path.map tolower = path.map tolower) :
    HandleHttpRequest (register_all (before ++ ⟨path, method, h⟩ :: after) []) request w =
      h request w := by
  have _ := hafter
  have hp : path.map tolower = request.uri.path := by rw [← hpath, hlower]
  rw [HandleHttpRequest_register_all, first_registered_append]
  · have hc : Uri.ofPath path = request.uri ∧ method = request.method :=
      ⟨(ofPath_eq_iff _ _).2 hp, hmethod.symm⟩
    simp only [first_registered, if_pos hc]
  · intro r hr hc
    apply hbefore r hr
    exact ⟨by rw [(ofPath_eq_iff _ _).1 hc.1, hp], by rw [hc.2, hmethod]⟩

theorem HandleHttpRequest_registered_once_witness :
    (∀ r ∈ [(⟨"/".toList, .HEAD, say_hello⟩ : Registration Unit)],
      ¬ (r.path.map tolower = "/Hello.HTML".toList.map tolower ∧ r.method = .GET)) ∧
    (∀ r ∈ [(⟨"/".toList, .GET, say_hello⟩ : Registration Unit)],
      ¬ (r.path.map tolower = "/Hello.HTML".toList.map tolower ∧ r.method = .GET)) ∧
    HandleHttpRequest
      (register_all ([(⟨"/".toList, .HEAD, say_hello⟩ : Registration Unit)] ++
        ⟨"/Hello.HTML".toList, .GET, send_html⟩ :: [⟨"/".toList, .GET, say_hello⟩]) [])
      (request_for .GET "/HELLO.html".toList) () =
      send_html (request_for .GET "/HELLO.html".toList) () :=
  ⟨by decide, by decide,
    HandleHttpRequest_registered_once _ _ _ _ _ _ _ (by decide) (by decide) rfl
      (by decide) (by decide)⟩

theorem HandleHttpRequest_not_registered {σ : Type} (regs : List (Registration σ))
    (request : HttpRequest) (w : σ)
    (hnone : ∀ r ∈ regs, r.path.map tolower ≠ request.uri.path) :
    HandleHttpRequest (register_all regs []) request w =
      (.ok (HttpResponse.ofStatus .NotFound), w) := by
  rw [HandleHttpRequest_register_all, first_registered_none]
  · have hany : regs.any (fun r => decide (Uri.ofPath r.path = request.uri)) = false := by
      rw [List.any_eq_false]
      intro r hr
      simpa [ofPath_eq_iff] using hnone r hr
    simp [hany]
  · intro r hr hc
    exact hnone r hr ((ofPath_eq_iff _ _).1 hc.1)

theorem HandleHttpRequest_method_not_registered {σ : Type} (regs : List (Registration σ))
    (request : HttpRequest) (w : σ)
    (hsome : ∃ r ∈ regs, r.path.map tolower = request.uri.path)
    (hmeth : ∀ r ∈ regs, r.path.map tolower = request.uri.path →
      r.method ≠ request.method) :
    HandleHttpRequest (register_all regs []) request w =
      (.ok (HttpResponse.ofStatus .MethodNotAllowed), w) := by
  rw [HandleHttpRequest_register_all, first_registered_none]
  · have hany : regs.any (fun r => decide (Uri.ofPath r.path = request.uri)) = true := by
      rw [List.any_eq_true]
      obtain ⟨r, hr, hp⟩ := hsome
      exact ⟨r, hr, by simpa [ofPath_eq_iff] using hp⟩
    simp [hany]
  · intro r hr hc
    exact hmeth r hr ((ofPath_eq_iff _ _).1 hc.1) hc.2

/-- C2: on a routing table built by calls of `RegisterHttpRequestHandler`, a
request whose path no call registered is answered 404 (Not Found), and one
whose path was registered, but never with the method of the request, is
answered 405 (Method Not Allowed); in both cases the world is untouched, so no
handler has run. -/
theorem HandleHttpRequest_unroutable {σ : Type} (regs : List (Registration σ))
    (request : HttpRequest) (w : σ) :
    ((∀ r ∈ regs, r.path.map tolower ≠ request.uri.path) →
      HandleHttpRequest (register_all regs []) request w =
        (.ok (HttpResponse.ofStatus .NotFound), w)) ∧
    ((∃ r ∈ regs, r.path.map tolower = request.uri.path) →
      (∀ r ∈ regs, r.path.map tolower = request.uri.path → r.method ≠ request.method) →
      HandleHttpRequest (register_all regs []) request w =
        (.ok (HttpResponse.ofStatus .MethodNotAllowed), w)) ∧
    (HttpResponse.ofStatus .NotFound).status_code.toNat = 404 ∧
    (HttpResponse.ofStatus .NotFound).status_code.to_string = "Not Found".toList ∧
    (HttpResponse.ofStatus .MethodNotAllowed).status_code.toNat = 405 ∧
    (HttpResponse.ofStatus .MethodNotAllowed).status_code.to_string =
      "Method Not Allowed".toList :=
  ⟨HandleHttpRequest_not_registered regs request w,
    HandleHttpRequest_method_not_registered regs request w, rfl, rfl, rfl, rfl⟩

theorem HandleHttpRequest_unroutable_witness :
    HandleHttpRequest (register_all (main_registrations Unit) [])
        (request_for .GET "/nothing".toList) () =
      (.ok (HttpResponse.ofStatus .NotFound), ()) ∧
    HandleHttpRequest (register_all (main_registrations Unit) [])
        (request_for .POST "/hello.html".toList) () =
      (.ok (HttpResponse.ofStatus .MethodNotAllowed), ()) :=
  ⟨(HandleHttpRequest_unroutable (main_registrations Unit)
      (request_for .GET "/nothing".toList) ()).1 (by decide),
   (HandleHttpRequest_unroutable (main_registrations Unit)
      (request_for .POST "/hello.html".toList) ()).2.1
      ⟨⟨"/hello.html".toList, .GET, send_html⟩, by simp [main_registrations], by decide⟩
      (by decide)⟩

/-- C3, as the code has it: `insert` leaves a present key alone, so after
`RegisterHttpRequestHandler(p, m, h1)` followed by
`RegisterHttpRequestHandler(p, m, h2)`, on a table without a handler for
`(p, m)`, a request for `(p, m)` is dispatched to `h1`, the handler registered
first; the second call has no effect on it. -/
theorem HandleHttpRequest_registered_twice {σ : Type} (regs : List (Registration σ))
    (path : Str) (method : HttpMethod) (h1 h2 : HttpRequestHandler_t σ)
    (request : HttpRequest) (w : σ)
    (hfresh : ∀ r ∈ regs,
      ¬ (r.path.map tolower = path.map tolower ∧ r.method = method))
    (hmethod : request.method = method)
    (hlower : request.uri.path.map tolower = request.uri.path)
    (hpath : request.uri.path.map tolower = path.map tolower) :
    HandleHttpRequest
        (RegisterHttpRequestHandler
          (RegisterHttpRequestHandler (register_all regs []) path method h1)
          path method h2)
        request w = h1 request w := by
  have hp : path.map tolower = request.uri.path := by rw [← hpath, hlower]
  have hreg : RegisterHttpRequestHandler
      (RegisterHttpRequestHandler (register_all regs []) path method h1) path method h2 =
      register_all (regs ++ [⟨path, method, h1⟩, ⟨path, method, h2⟩]) [] := by
    simp [register_all, List.foldl_append]
  rw [hreg, HandleHttpRequest_register_all, first_registered_append]
  · have hc : Uri.ofPath path = request.uri ∧ method = request.method :=
      ⟨(ofPath_eq_iff _ _).2 hp, hmethod.symm⟩
    simp only [first_registered, if_pos hc]
  · intro r hr hc
    apply hfresh r hr
    exact ⟨by rw [(ofPath_eq_iff _ _).1 hc.1, hp], by rw [hc.2, hmethod]⟩

theorem HandleHttpRequest_registered_twice_witness :
    (∀ r ∈ main_registrations Unit,
      ¬ (r.path.map tolower = "/new".toList.map tolower ∧ r.method = .GET)) ∧
    HandleHttpRequest
        (RegisterHttpRequestHandler
          (RegisterHttpRequestHandler (register_all (main_registrations Unit) [])
            "/new".toList .GET say_hello)
          "/new".toList .GET send_html)
        (request_for .GET "/new".toList) () =
      say_hello (request_for .GET "/new".toList) () :=
  ⟨by decide,
    HandleHttpRequest_registered_twice _ _ _ _ _ _ _ (by decide) rfl (by decide) (by decide)⟩

/-- C3 fails as stated: after `say_hello` and then `send_html` are registered
for `GET /`, the request `GET /` is still answered by `say_hello`, whose
response is not the one of `send_html`. -/
theorem reregistration_does_not_replace :
    HandleHttpRequest
        (RegisterHttpRequestHandler
          (RegisterHttpRequestHandler ([] : RequestHandlers Unit) "/".toList .GET say_hello)
          "/".toList .GET send_html)
        (request_for .GET "/".toList) () =
      say_hello (request_for .GET "/".toList) () ∧
    HandleHttpRequest
        (RegisterHttpRequestHandler
          (RegisterHttpRequestHandler ([] : RequestHandlers Unit) "/".toList .GET say_hello)
          "/".toList .GET send_html)
        (request_for .GET "/".toList) () ≠
      send_html (request_for .GET "/".toList) () := by
  constructor
  · rfl
  · intro hc
    have h2 := congrArg (fun x => (x.1.toOption.map HttpResponse.content_length)) hc
    revert h2
    decide

/-! ## The decoder -/

theorem extract_fail_eof (s : istringstream) (str : Str)
    (h : s.failbit = true → s.eofbit = true) :
    (s.extract str).1.failbit = true → (s.extract str).1.eofbit = true := by
  unfold istringstream.extract
  by_cases hg : s.good = true
  · simp only [hg, Bool.not_true, Bool.false_eq_true, if_false]
    split <;> simp
  · simp only [hg, Bool.not_false, if_true]
    intro _
    simp only [istringstream.good, Bool.and_eq_true, Bool.not_eq_true', not_and,
      Bool.not_eq_false] at hg
    rcases Bool.eq_false_or_eq_true s.eofbit with he | he
    · exact he
    · exact h (hg he)

/-- The test `!iss.good() && !iss.eof()` after the start line is read never
holds: an extraction from a string stream fails only at the end of the text. -/
theorem read_start_line_stream (start_line : Str) :
    (!(read_start_line start_line).1.good && !(read_start_line start_line).1.eof) = false := by
  have h0 : (istringstream.str start_line).failbit = true →
      (istringstream.str start_line).eofbit = true := by
    intro h
    cases h
  have h3 := extract_fail_eof _ [] (extract_fail_eof _ [] (extract_fail_eof _ [] h0))
  show (!((((istringstream.str start_line).extract []).1.extract []).1.extract []).1.good &&
    !((((istringstream.str start_line).extract []).1.extract []).1.extract []).1.eof) = false
  generalize ((((istringstream.str start_line).extract []).1.extract []).1.extract []).1 = s at h3
  simp only [istringstream.good, istringstream.eof]
  rcases Bool.eq_false_or_eq_true s.eofbit with he | he
  · simp [he]
  · rcases Bool.eq_false_or_eq_true s.failbit with hf | hf
    · rw [h3 hf] at he
      cases he
    · simp [he, hf]

theorem string_to_request_no_crlf (text : Str) (h : find text "\r\n".toList 0 = none) :
    string_to_request text =
      .error (.invalid_argument "Could not find request start line".toList) := by
  unfold string_to_request
  simp only [h]

/-- The decoder on a text with a CRLF, the dead test on the stream left out. -/
theorem string_to_request_crlf (text : Str) (rpos : Nat)
    (h : find text "\r\n".toList 0 = some rpos) :
    string_to_request text =
      match string_to_method (read_start_line (substr text 0 rpos)).2.1 with
      | .error e => .error e
      | .ok m =>
        match string_to_version (read_start_line (substr text 0 rpos)).2.2.2 with
        | .error e => .error e
        | .ok v =>
          if v ≠ HttpVersion.HTTP_1_1 then
            .error (.logic_error "HTTP version not supported".toList)
          else
            .ok ((parse_header_lines
              ((HttpRequest.default.SetMethod m).SetUri
                (Uri.ofPath (read_start_line (substr text 0 rpos)).2.2.1))
              [] [] (getlines (split_header_body text (rpos + 2)).1)).SetContent
              (split_header_body text (rpos + 2)).2) := by
  unfold string_to_request
  simp only [h, Nat.sub_zero, read_start_line_stream, Bool.false_eq_true, if_false]
  rfl

/-! ## `HandleHttpData`: the `try` statement and the write context -/

theorem HandleHttpData_try_decode_error {σ : Type} (handlers : RequestHandlers σ)
    (text : Str) (w : σ) (e : Exn) (h : string_to_request text = .error e) :
    HandleHttpData_try handlers text w =
      match e with
      | .invalid_argument what =>
        (.ok (HttpRequest.default, (HttpResponse.ofStatus .BadRequest).SetContent what), w)
      | .logic_error what =>
        (.ok (HttpRequest.default,
          (HttpResponse.ofStatus .HttpVersionNotSupported).SetContent what), w)
      | .exception what =>
        (.ok (HttpRequest.default,
          (HttpResponse.ofStatus .InternalServerError).SetContent what), w)
      | .other => (.error .other, w) := by
  unfold HandleHttpData_try
  simp only [h]
  cases e <;> rfl

theorem HandleHttpData_try_routed {σ : Type} (handlers : RequestHandlers σ)
    (text : Str) (w w' : σ) (request : HttpRequest) (r : HttpResponse)
    (hdecode : string_to_request text = .ok request)
    (hroute : HandleHttpRequest handlers request w = (.ok r, w')) :
    HandleHttpData_try handlers text w = (.ok (request, r), w') := by
  unfold HandleHttpData_try
  simp only [hdecode, hroute]

theorem HandleHttpData_try_thrown {σ : Type} (handlers : RequestHandlers σ)
    (text : Str) (w w' : σ) (request : HttpRequest) (e : Exn)
    (hdecode : string_to_request text = .ok request)
    (hroute : HandleHttpRequest handlers request w = (.error e, w')) :
    HandleHttpData_try handlers text w =
      match e with
      | .invalid_argument what =>
        (.ok (request, (HttpResponse.ofStatus .BadRequest).SetContent what), w')
      | .logic_error what =>
        (.ok (request, (HttpResponse.ofStatus .HttpVersionNotSupported).SetContent what), w')
      | .exception what =>
        (.ok (request, (HttpResponse.ofStatus .InternalServerError).SetContent what), w')
      | .other => (.error .other, w') := by
  unfold HandleHttpData_try
  simp only [hdecode, hroute]
  cases e <;> rfl

theorem HandleHttpData_of_try {σ : Type} (handlers : RequestHandlers σ)
    (behind_request behind_response : Str) (raw_request raw_response : EventData)
    (w w' : σ) (http_request : HttpRequest) (http_response : HttpResponse)
    (h : HandleHttpData_try handlers (c_string (raw_request.buffer ++ behind_request)) w =
      (.ok (http_request, http_response), w')) :
    HandleHttpData handlers behind_request behind_response raw_request raw_response w =
      (.ok (write_response raw_response behind_response
        (http_response.to_string (http_request.method != HttpMethod.HEAD))), w') := by
  unfold HandleHttpData
  simp only [h]
  rfl

theorem write_response_buffer_length (raw_response : EventData)
    (behind_response response_string : Str) :
    (write_response raw_response behind_response response_string).buffer.length =
      kMaxBufferSize := by
  simp only [write_response, memcpy, List.length_take, List.length_append,
    List.length_cons, List.length_replicate]
  omega

/-- The bytes `buffer[0 .. length)` of the write context are the encoded
response as far as the buffer reaches. -/
theorem write_response_buffer_take (raw_response : EventData)
    (behind_response response_string : Str) :
    (write_response raw_response behind_response response_string).buffer.take
        (write_response raw_response behind_response response_string).length =
      response_string.take kMaxBufferSize := by
  simp only [write_response, memcpy, List.take_take, List.append_assoc]
  rw [List.take_append_of_le_length (Nat.min_le_left _ _)]
  rcases Nat.le_total response_string.length kMaxBufferSize with hle | hle
  · rw [Nat.min_eq_left hle, List.take_of_length_le (le_refl _), List.take_of_length_le hle]
  · rw [Nat.min_eq_right hle]

theorem write_response_buffer_fits (raw_response : EventData)
    (behind_response response_string : Str)
    (hfit : response_string.length ≤ kMaxBufferSize) :
    (write_response raw_response behind_response response_string).buffer.take
        (write_response raw_response behind_response response_string).length =
      response_string := by
  rw [write_response_buffer_take, List.take_of_length_le hfit]

theorem string_to_method_error (s : Str) (e : Exn) (h : string_to_method s = .error e) :
    e = .invalid_argument "Unexpected HTTP method".toList := by
  unfold string_to_method at h
  simp only [] at h
  split_ifs at h
  cases h
  rfl

theorem string_to_version_error (s : Str) (e : Exn) (h : string_to_version s = .error e) :
    e = .invalid_argument "Unexpected HTTP version".toList := by
  unfold string_to_version at h
  simp only [] at h
  split_ifs at h
  cases h
  rfl

theorem string_to_method_unknown (s : Str) (h : s.map toupper ∉ method_names) :
    string_to_method s = .error (.invalid_argument "Unexpected HTTP method".toList) := by
  simp only [method_names, List.map, HttpMethod.to_string, List.mem_cons, List.mem_singleton,
    List.not_mem_nil, or_false, not_or] at h
  obtain ⟨h1, h2, h3, h4, h5, h6, h7, h8, h9⟩ := h
  unfold string_to_method
  simp only [h1, h2, h3, h4, h5, h6, h7, h8, h9, if_false]

theorem string_to_method_known (s : Str) (h : s.map toupper ∈ method_names) :
    ∃ m, string_to_method s = .ok m := by
  unfold string_to_method
  simp only []
  split_ifs
  all_goals first
    | exact ⟨_, rfl⟩
    | (exfalso
       simp only [method_names, List.map, HttpMethod.to_string, List.mem_cons,
         List.mem_singleton, List.not_mem_nil, or_false] at h
       tauto)

/-- The exceptions that leave `string_to_request`. -/
theorem string_to_request_error (text : Str) (e : Exn)
    (h : string_to_request text = .error e) :
    e = .invalid_argument "Could not find request start line".toList ∨
    e = .invalid_argument "Unexpected HTTP method".toList ∨
    e = .invalid_argument "Unexpected HTTP version".toList ∨
    e = .logic_error "HTTP version not supported".toList := by
  cases hf : find text "\r\n".toList 0 with
  | none =>
    rw [string_to_request_no_crlf text hf] at h
    cases h
    exact Or.inl rfl
  | some rpos =>
    rw [string_to_request_crlf text rpos hf] at h
    cases hm : string_to_method (read_start_line (substr text 0 rpos)).2.1 with
    | error e1 =>
      rw [hm] at h
      cases h
      exact Or.inr (Or.inl (string_to_method_error _ _ hm))
    | ok m =>
      rw [hm] at h
      cases hv : string_to_version (read_start_line (substr text 0 rpos)).2.2.2 with
      | error e1 =>
        rw [hv] at h
        cases h
        exact Or.inr (Or.inr (Or.inl (string_to_version_error _ _ hv)))
      | ok v =>
        rw [hv] at h
        simp only [] at h
        split_ifs at h
        cases h
        exact Or.inr (Or.inr (Or.inr rfl))

/-! ## HEAD requests -/

theorem mem_map_assign_self {κ ν : Type} {lt : κ → κ → Bool} (h : StrictTotal lt)
    (k : κ) (v : ν) (m : List (κ × ν)) : (k, v) ∈ map_assign lt k v m := by
  induction m with
  | nil => simp [map_assign]
  | cons e rest ih =>
    obtain ⟨k', v'⟩ := e
    simp only [map_assign]
    by_cases h1 : lt k k' = true
    · rw [if_pos h1]
      exact List.mem_cons_self _ _
    · by_cases h2 : lt k' k = true
      · rw [if_neg h1, if_pos h2]
        exact List.mem_cons_of_mem _ ih
      · have hkk : k = k' := h.tri k k' (by simpa using h1) (by simpa using h2)
        subst hkk
        rw [if_neg h1, if_neg h2]
        exact List.mem_cons_self _ _

theorem read_start_line_method (start_line : Str) :
    (read_start_line start_line).2.1 = first_token start_line := by
  show ((istringstream.str start_line).extract []).2 = _
  unfold istringstream.extract first_token
  simp only [istringstream.str, istringstream.good, Bool.not_false, Bool.and_self,
    Bool.not_true, Bool.false_eq_true, if_false]
  split
  · rename_i hd
    rw [hd]
    rfl
  · rename_i c cs hd
    rw [hd]

theorem HandleHttpData_decode_error {σ : Type} (handlers : RequestHandlers σ)
    (behind_request behind_response : Str) (raw_request raw_response : EventData)
    (w : σ) (text : Str) (status : HttpStatusCode) (what : Str)
    (htext : c_string (raw_request.buffer ++ behind_request) = text)
    (htry : HandleHttpData_try handlers text w =
      (.ok (HttpRequest.default, (HttpResponse.ofStatus status).SetContent what), w)) :
    HandleHttpData handlers behind_request behind_response raw_request raw_response w =
      (.ok (write_response raw_response behind_response
        (((HttpResponse.ofStatus status).SetContent what).to_string true)), w) := by
  rw [← htext] at htry
  rw [HandleHttpData_of_try handlers _ _ _ _ w w _ _ htry]
  rfl

/-- C5: for a request text with a CRLF whose first start-line token,
uppercased, is none of the nine method names, `HandleHttpData` answers, whatever
the routing table holds, with status 400 and the body
`Unexpected HTTP method`; the write context holds exactly that response. -/
theorem HandleHttpData_unknown_method {σ : Type} (handlers : RequestHandlers σ)
    (behind_request behind_response : Str) (raw_request raw_response : EventData)
    (w : σ) (text : Str) (rpos : Nat)
    (htext : c_string (raw_request.buffer ++ behind_request) = text)
    (hcrlf : find text "\r\n".toList 0 = some rpos)
    (hmethod : (first_token (text.take rpos)).map toupper ∉ method_names) :
    HandleHttpData_try handlers text w =
      (.ok (HttpRequest.default,
        (HttpResponse.ofStatus .BadRequest).SetContent "Unexpected HTTP method".toList), w) ∧
    ((HttpResponse.ofStatus .BadRequest).SetContent
      "Unexpected HTTP method".toList).status_code.toNat = 400 ∧
    ((HttpResponse.ofStatus .BadRequest).SetContent
      "Unexpected HTTP method".toList).content = "Unexpected HTTP method".toList ∧
    HandleHttpData handlers behind_request behind_response raw_request raw_response w =
      (.ok (write_response raw_response behind_response
        "HTTP/1.1 400 Bad Request\r\nContent-Length: 22\r\n\r\nUnexpected HTTP method".toList),
        w) ∧
    (write_response raw_response behind_response
        "HTTP/1.1 400 Bad Request\r\nContent-Length: 22\r\n\r\nUnexpected HTTP method".toList
      ).buffer.take
        (write_response raw_response behind_response
          "HTTP/1.1 400 Bad Request\r\nContent-Length: 22\r\n\r\nUnexpected HTTP method".toList
        ).length =
      "HTTP/1.1 400 Bad Request\r\nContent-Length: 22\r\n\r\nUnexpected HTTP method".toList := by
  have hdec : string_to_request text =
      .error (.invalid_argument "Unexpected HTTP method".toList) := by
    rw [string_to_request_crlf text rpos hcrlf, string_to_method_unknown]
    rw [read_start_line_method]
    simpa [substr] using hmethod
  have htry := HandleHttpData_try_decode_error handlers text w _ hdec
  refine ⟨htry, rfl, rfl, ?_, ?_⟩
  · exact HandleHttpData_decode_error handlers _ _ _ _ w text _ _ htext htry
  · exact write_response_buffer_fits _ _ _ (by decide)

theorem HandleHttpData_unknown_method_witness :
    c_string ((received "FOO / HTTP/1.1\r\n\r\n".toList).buffer ++ []) =
      "FOO / HTTP/1.1\r\n\r\n".toList ∧
    find "FOO / HTTP/1.1\r\n\r\n".toList "\r\n".toList 0 = some 14 ∧
    (first_token ("FOO / HTTP/1.1\r\n\r\n".toList.take 14)).map toupper ∉ method_names ∧
    HandleHttpData (register_all (main_registrations Unit) []) [] []
        (received "FOO / HTTP/1.1\r\n\r\n".toList) EventData.default () =
      (.ok (write_response EventData.default []
        "HTTP/1.1 400 Bad Request\r\nContent-Length: 22\r\n\r\nUnexpected HTTP method".toList),
        ()) :=
  ⟨by decide, by decide, by decide,
    (HandleHttpData_unknown_method (register_all (main_registrations Unit) []) [] []
      (received "FOO / HTTP/1.1\r\n\r\n".toList) EventData.default ()
      "FOO / HTTP/1.1\r\n\r\n".toList 14 (by decide) (by decide) (by decide)).2.2.2.1⟩

theorem string_to_version_other (s : Str) (h : s.map toupper ∈ other_version_names) :
    ∃ v, string_to_version s = .ok v ∧ v ≠ HttpVersion.HTTP_1_1 := by
  simp only [other_version_names, List.mem_cons, List.mem_singleton, List.not_mem_nil,
    or_false] at h
  unfold string_to_version
  rcases h with h | h | h | h <;> rw [h] <;> simp

theorem string_to_version_unknown (s : Str)
    (h : s.map toupper ∉ "HTTP/1.1".toList :: other_version_names) :
    string_to_version s = .error (.invalid_argument "Unexpected HTTP version".toList) := by
  simp only [other_version_names, List.mem_cons, List.mem_singleton, List.not_mem_nil,
    or_false, not_or] at h
  obtain ⟨h1, h2, h3, h4, h5⟩ := h
  unfold string_to_version
  simp only [h1, h2, h3, h4, h5, if_false, or_self]

/-- C6, as the code has it: for a request text whose start line has a valid
method and a version token that, uppercased, names one of the other versions
`string_to_version` knows (HTTP/0.9, HTTP/1.0, HTTP/2, HTTP/2.0), decoding
fails with the `std::logic_error` of the unsupported version and the client
receives status 505; a version token that `string_to_version` does not know
(HTTP/3.0, say) fails with `std::invalid_argument` and the client receives
400 Bad Request. -/
theorem HandleHttpData_version {σ : Type} (handlers : RequestHandlers σ)
    (behind_request behind_response : Str) (raw_request raw_response : EventData)
    (w : σ) (text : Str) (rpos : Nat)
    (htext : c_string (raw_request.buffer ++ behind_request) = text)
    (hcrlf : find text "\r\n".toList 0 = some rpos)
    (hmethod : (read_start_line (text.take rpos)).2.1.map toupper ∈ method_names) :
    ((read_start_line (text.take rpos)).2.2.2.map toupper ∈ other_version_names →
      string_to_request text = .error (.logic_error "HTTP version not supported".toList) ∧
      HandleHttpData handlers behind_request behind_response raw_request raw_response w =
        (.ok (write_response raw_response behind_response
          "HTTP/1.1 505 \r\nContent-Length: 26\r\n\r\nHTTP version not supported".toList),
          w)) ∧
    ((read_start_line (text.take rpos)).2.2.2.map toupper ∉
        "HTTP/1.1".toList :: other_version_names →
      string_to_request text =
        .error (.invalid_argument "Unexpected HTTP version".toList) ∧
      HandleHttpData handlers behind_request behind_response raw_request raw_response w =
        (.ok (write_response raw_response behind_response
          "HTTP/1.1 400 Bad Request\r\nContent-Length: 23\r\n\r\nUnexpected HTTP version".toList),
          w)) := by
  obtain ⟨m, hm⟩ := string_to_method_known _ hmethod
  have hsub : substr text 0 rpos = text.take rpos := by simp [substr]
  constructor
  · intro hv
    obtain ⟨v, hv1, hv2⟩ := string_to_version_other _ hv
    have hdec : string_to_request text =
        .error (.logic_error "HTTP version not supported".toList) := by
      rw [string_to_request_crlf text rpos hcrlf, hsub, hm]
      simp only [hv1, hv2, ne_eq, not_false_eq_true, if_true]
    have htry := HandleHttpData_try_decode_error handlers text w _ hdec
    exact ⟨hdec, HandleHttpData_decode_error handlers _ _ _ _ w text _ _ htext htry⟩
  · intro hv
    have hdec : string_to_request text =
        .error (.invalid_argument "Unexpected HTTP version".toList) := by
      rw [string_to_request_crlf text rpos hcrlf, hsub, hm]
      simp only [string_to_version_unknown _ hv]
    have htry := HandleHttpData_try_decode_error handlers text w _ hdec
    exact ⟨hdec, HandleHttpData_decode_error handlers _ _ _ _ w text _ _ htext htry⟩

theorem HandleHttpData_version_witness :
    HandleHttpData (register_all (main_registrations Unit) []) [] []
        (received "GET / HTTP/1.0\r\n\r\n".toList) EventData.default () =
      (.ok (write_response EventData.default []
        "HTTP/1.1 505 \r\nContent-Length: 26\r\n\r\nHTTP version not supported".toList),
        ()) ∧
    HandleHttpData (register_all (main_registrations Unit) []) [] []
        (received "GET / http/2\r\n\r\n".toList) EventData.default () =
      (.ok (write_response EventData.default []
        "HTTP/1.1 505 \r\nContent-Length: 26\r\n\r\nHTTP version not supported".toList),
        ()) ∧
    HandleHttpData (register_all (main_registrations Unit) []) [] []
        (received "GET / HTTP/3.0\r\n\r\n".toList) EventData.default () =
      (.ok (write_response EventData.default []
        "HTTP/1.1 400 Bad Request\r\nContent-Length: 23\r\n\r\nUnexpected HTTP version".toList),
        ()) :=
  ⟨((HandleHttpData_version (register_all (main_registrations Unit) []) [] []
      (received "GET / HTTP/1.0\r\n\r\n".toList) EventData.default ()
      "GET / HTTP/1.0\r\n\r\n".toList 14 (by decide) (by decide) (by decide)).1
      (by decide)).2,
   ((HandleHttpData_version (register_all (main_registrations Unit) []) [] []
      (received "GET / http/2\r\n\r\n".toList) EventData.default ()
      "GET / http/2\r\n\r\n".toList 12 (by decide) (by decide) (by decide)).1
      (by decide)).2,
   ((HandleHttpData_version (register_all (main_registrations Unit) []) [] []
      (received "GET / HTTP/3.0\r\n\r\n".toList) EventData.default ()
      "GET / HTTP/3.0\r\n\r\n".toList 14 (by decide) (by decide) (by decide)).2
      (by decide)).2⟩

/-- C6 fails as stated: the start line `GET / HTTP/3.0` names a version other
than HTTP/1.1, yet decoding fails with `std::invalid_argument` and the client
receives 400 Bad Request, not 505. -/
theorem unknown_version_is_bad_request :
    string_to_request "GET / HTTP/3.0\r\n\r\n".toList =
      .error (.invalid_argument "Unexpected HTTP version".toList) ∧
    HandleHttpData (register_all (main_registrations Unit) []) [] []
        (received "GET / HTTP/3.0\r\n\r\n".toList) EventData.default () =
      (.ok (write_response EventData.default []
        "HTTP/1.1 400 Bad Request\r\nContent-Length: 23\r\n\r\nUnexpected HTTP version".toList),
        ()) :=
  ⟨by decide, by rfl⟩


/-- C7, as the code has it: a request text that fails to decode is answered
with status 400 or 505 and the message of the exception, which is not empty,
as the body; a request that decodes but has no route (path not registered, or
registered without the method of the request) is answered with the bare status
line 404 or 405 and the empty line: no header and an empty body. -/
theorem HandleHttpData_malformed_or_unroutable {σ : Type} (regs : List (Registration σ))
    (behind_request behind_response : Str) (raw_request raw_response : EventData)
    (w : σ) (text : Str)
    (htext : c_string (raw_request.buffer ++ behind_request) = text) :
    (∀ e, string_to_request text = .error e →
      ∃ status what,
        (status = HttpStatusCode.BadRequest ∨
          status = HttpStatusCode.HttpVersionNotSupported) ∧
        what ≠ [] ∧
        ((HttpResponse.ofStatus status).SetContent what).content = what ∧
        HandleHttpData_try (register_all regs []) text w =
          (.ok (HttpRequest.default, (HttpResponse.ofStatus status).SetContent what), w) ∧
        HandleHttpData (register_all regs []) behind_request behind_response
            raw_request raw_response w =
          (.ok (write_response raw_response behind_response
            (((HttpResponse.ofStatus status).SetContent what).to_string true)), w)) ∧
    (∀ request, string_to_request text = .ok request →
      (∀ r ∈ regs, r.path.map tolower ≠ request.uri.path) →
      HandleHttpData_try (register_all regs []) text w =
        (.ok (request, HttpResponse.ofStatus .NotFound), w) ∧
      (HttpResponse.ofStatus .NotFound).content = [] ∧
      HandleHttpData (register_all regs []) behind_request behind_response
          raw_request raw_response w =
        (.ok (write_response raw_response behind_response
          "HTTP/1.1 404 Not Found\r\n\r\n".toList), w)) ∧
    (∀ request, string_to_request text = .ok request →
      (∃ r ∈ regs, r.path.map tolower = request.uri.path) →
      (∀ r ∈ regs, r.path.map tolower = request.uri.path → r.method ≠ request.method) →
      HandleHttpData_try (register_all regs []) text w =
        (.ok (request, HttpResponse.ofStatus .MethodNotAllowed), w) ∧
      (HttpResponse.ofStatus .MethodNotAllowed).content = [] ∧
      HandleHttpData (register_all regs []) behind_request behind_response
          raw_request raw_response w =
        (.ok (write_response raw_response behind_response
          "HTTP/1.1 405 Method Not Allowed\r\n\r\n".toList), w)) := by
  refine ⟨?_, ?_, ?_⟩
  · intro e he
    have htry := HandleHttpData_try_decode_error (register_all regs []) text w e he
    rcases string_to_request_error text e he with rfl | rfl | rfl | rfl
    · exact ⟨.BadRequest, _, Or.inl rfl, by decide, rfl, htry,
        HandleHttpData_decode_error _ _ _ _ _ w text _ _ htext htry⟩
    · exact ⟨.BadRequest, _, Or.inl rfl, by decide, rfl, htry,
        HandleHttpData_decode_error _ _ _ _ _ w text _ _ htext htry⟩
    · exact ⟨.BadRequest, _, Or.inl rfl, by decide, rfl, htry,
        HandleHttpData_decode_error _ _ _ _ _ w text _ _ htext htry⟩
    · exact ⟨.HttpVersionNotSupported, _, Or.inr rfl, by decide, rfl, htry,
        HandleHttpData_decode_error _ _ _ _ _ w text _ _ htext htry⟩
  · intro request hdec hnone
    have hr := HandleHttpRequest_not_registered regs request w hnone
    have htry := HandleHttpData_try_routed _ text w w request _ hdec hr
    refine ⟨htry, rfl, ?_⟩
    rw [← htext] at htry
    rw [HandleHttpData_of_try _ _ _ _ _ w w _ _ htry]
    cases request.method != HttpMethod.HEAD <;> rfl
  · intro request hdec hsome hmeth
    have hr := HandleHttpRequest_method_not_registered regs request w hsome hmeth
    have htry := HandleHttpData_try_routed _ text w w request _ hdec hr
    refine ⟨htry, rfl, ?_⟩
    rw [← htext] at htry
    rw [HandleHttpData_of_try _ _ _ _ _ w w _ _ htry]
    cases request.method != HttpMethod.HEAD <;> rfl

theorem HandleHttpData_malformed_or_unroutable_witness :
    c_string ((received "GET /nothing HTTP/1.1\r\n\r\n".toList).buffer ++ []) =
      "GET /nothing HTTP/1.1\r\n\r\n".toList ∧
    HandleHttpData (register_all (main_registrations Unit) []) [] []
        (received "GET /nothing HTTP/1.1\r\n\r\n".toList) EventData.default () =
      (.ok (write_response EventData.default [] "HTTP/1.1 404 Not Found\r\n\r\n".toList),
        ()) :=
  ⟨by decide,
    ((HandleHttpData_malformed_or_unroutable (main_registrations Unit) [] []
      (received "GET /nothing HTTP/1.1\r\n\r\n".toList) EventData.default ()
      "GET /nothing HTTP/1.1\r\n\r\n".toList (by decide)).2.1
      (((HttpRequest.default.SetMethod .GET).SetUri
        (Uri.ofPath "/nothing".toList)).SetContent [])
      (by decide) (by decide)).2.2⟩

/-- C7 fails as stated: `POST /hello.html`, a path registered for GET and HEAD
alone, is unroutable, and its response has status 405 but an empty body: on
the wire it is the status line and the empty line. -/
theorem unroutable_response_has_no_body :
    HandleHttpData_try (register_all (main_registrations Unit) [])
        "POST /hello.html HTTP/1.1\r\n\r\n".toList () =
      (.ok (((HttpRequest.default.SetMethod .POST).SetUri
          (Uri.ofPath "/hello.html".toList)).SetContent [],
        HttpResponse.ofStatus .MethodNotAllowed), ()) ∧
    (HttpResponse.ofStatus .MethodNotAllowed).content = [] ∧
    HandleHttpData (register_all (main_registrations Unit) []) [] []
        (received "POST /hello.html HTTP/1.1\r\n\r\n".toList) EventData.default () =
      (.ok (write_response EventData.default []
        "HTTP/1.1 405 Method Not Allowed\r\n\r\n".toList), ()) :=
  ⟨by rfl, rfl, by rfl⟩

/-! ## Handlers that throw -/

/-- What `HandleHttpData` does with an exception that leaves the handler: the
`catch` clauses written for the decoder take it. -/
theorem HandleHttpData_handler_throws {σ : Type} (handlers : RequestHandlers σ)
    (behind_request behind_response : Str) (raw_request raw_response : EventData)
    (w w' : σ) (request : HttpRequest) (e : Exn)
    (hdecode : string_to_request (c_string (raw_request.buffer ++ behind_request)) =
      .ok request)
    (hroute : HandleHttpRequest handlers request w = (.error e, w')) :
    HandleHttpData handlers behind_request behind_response raw_request raw_response w =
      match e with
      | .invalid_argument what =>
        (.ok (write_response raw_response behind_response
          (((HttpResponse.ofStatus .BadRequest).SetContent what).to_string
            (request.method != HttpMethod.HEAD))), w')
      | .logic_error what =>
        (.ok (write_response raw_response behind_response
          (((HttpResponse.ofStatus .HttpVersionNotSupported).SetContent what).to_string
            (request.method != HttpMethod.HEAD))), w')
      | .exception what =>
        (.ok (write_response raw_response behind_response
          (((HttpResponse.ofStatus .InternalServerError).SetContent what).to_string
            (request.method != HttpMethod.HEAD))), w')
      | .other => (.error .other, w') := by
  have htry := HandleHttpData_try_thrown handlers _ w w' request e hdecode hroute
  cases e with
  | invalid_argument what => exact HandleHttpData_of_try handlers _ _ _ _ w w' _ _ htry
  | logic_error what => exact HandleHttpData_of_try handlers _ _ _ _ w w' _ _ htry
  | exception what => exact HandleHttpData_of_try handlers _ _ _ _ w w' _ _ htry
  | other =>
    unfold HandleHttpData
    simp only [htry]

/-- C8 fails on the code: the request `GET /` routed to a handler that throws a
`std::out_of_range` (a `std::logic_error`) is answered 505, one that throws a
`std::invalid_argument` is answered 400, and an exception that is no
`std::exception` leaves `HandleHttpData`; only the other `std::exception`s are
answered 500. -/
theorem handler_exception_is_not_always_500 :
    HandleHttpData
        (register_all [⟨"/".toList, .GET, throwing (.logic_error "map::at".toList)⟩] [])
        [] [] (received "GET / HTTP/1.1\r\n\r\n".toList) EventData.default () =
      (.ok (write_response EventData.default []
        "HTTP/1.1 505 \r\nContent-Length: 7\r\n\r\nmap::at".toList), ()) ∧
    HandleHttpData
        (register_all [⟨"/".toList, .GET, throwing (.invalid_argument "stoi".toList)⟩] [])
        [] [] (received "GET / HTTP/1.1\r\n\r\n".toList) EventData.default () =
      (.ok (write_response EventData.default []
        "HTTP/1.1 400 Bad Request\r\nContent-Length: 4\r\n\r\nstoi".toList), ()) ∧
    HandleHttpData
        (register_all [⟨"/".toList, .GET, throwing .other⟩] [])
        [] [] (received "GET / HTTP/1.1\r\n\r\n".toList) EventData.default () =
      (.error .other, ()) ∧
    HandleHttpData
        (register_all [⟨"/".toList, .GET, throwing (.exception "bad_alloc".toList)⟩] [])
        [] [] (received "GET / HTTP/1.1\r\n\r\n".toList) EventData.default () =
      (.ok (write_response EventData.default []
        "HTTP/1.1 500 Internal Server Error\r\nContent-Length: 9\r\n\r\nbad_alloc".toList),
        ()) :=
  ⟨by rfl, by rfl, by rfl, by rfl⟩

/-! ## The size of the buffers -/

theorem write_response_fields (raw_response : EventData)
    (behind_response response_string : Str) :
    (write_response raw_response behind_response response_string).length =
      response_string.length ∧
    (write_response raw_response behind_response response_string).cursor =
      raw_response.cursor ∧
    (write_response raw_response behind_response response_string).fd = raw_response.fd :=
  ⟨rfl, rfl, rfl⟩

theorem default_cursor : EventData.default.cursor = 0 := rfl

/-- C9 fails on the code: a handler whose response has a body of 5000 bytes
makes `HandleHttpData` return, without any error, a write context whose
`length` is 5041 while its buffer holds the first 4096 bytes of the encoded
response; `cursor + length` is beyond the capacity of the buffer. -/
theorem oversized_response_is_truncated :
    HandleHttpData (register_all [⟨"/".toList, .GET, big_body 5000⟩] []) [] []
        (received "GET / HTTP/1.1\r\n\r\n".toList) EventData.default () =
      (.ok (write_response EventData.default []
        (((HttpResponse.ofStatus .Ok).SetContent (List.replicate 5000 'a')).to_string true)),
        ()) ∧
    (write_response EventData.default []
      (((HttpResponse.ofStatus .Ok).SetContent (List.replicate 5000 'a')).to_string true)
      ).length = 5041 ∧
    (write_response EventData.default []
      (((HttpResponse.ofStatus .Ok).SetContent (List.replicate 5000 'a')).to_string true)
      ).buffer.length = kMaxBufferSize ∧
    (write_response EventData.default []
      (((HttpResponse.ofStatus .Ok).SetContent (List.replicate 5000 'a')).to_string true)
      ).buffer =
      (((HttpResponse.ofStatus .Ok).SetContent (List.replicate 5000 'a')).to_string true
        ).take kMaxBufferSize ∧
    ¬ ((write_response EventData.default []
      (((HttpResponse.ofStatus .Ok).SetContent (List.replicate 5000 'a')).to_string true)
      ).cursor +
      (write_response EventData.default []
      (((HttpResponse.ofStatus .Ok).SetContent (List.replicate 5000 'a')).to_string true)
      ).length ≤ kMaxBufferSize) := by
  have hlen : (((HttpResponse.ofStatus .Ok).SetContent
      (List.replicate 5000 'a')).to_string true).length = 5041 := by
    have hd : decimal 5000 = "5000".toList := by decide
    simp only [HttpResponse.to_string, HttpResponse.SetContent, HttpResponse.SetContentLength,
      HttpResponse.SetHeader, HttpResponse.ofStatus, HttpResponse.version,
      HttpResponse.status_code, HttpResponse.headers, HttpResponse.content, map_assign,
      header_block, List.length_replicate, hd, if_true, List.length_append,
      HttpVersion.to_string, HttpStatusCode.to_string, HttpStatusCode.toNat]
    decide
  have hk : kMaxBufferSize = 4096 := rfl
  generalize hs : ((HttpResponse.ofStatus .Ok).SetContent
    (List.replicate 5000 'a')).to_string true = s at hlen ⊢
  have hf := write_response_fields EventData.default [] s
  have hb := write_response_buffer_length EventData.default [] s
  have htake := write_response_buffer_take EventData.default [] s
  refine ⟨?_, ?_, hb, ?_, ?_⟩
  · rw [← hs]
    rfl
  · rw [hf.1, hlen]
  · rw [← htake, List.take_of_length_le]
    rw [hb, hf.1, hlen, hk]
    omega
  · rw [hf.1, hf.2.1, default_cursor, hlen, hk]
    omega

theorem isPrefixOf_append_of_le (needle s t : Str) (h : needle.length ≤ s.length) :
    needle.isPrefixOf (s ++ t) = needle.isPrefixOf s := by
  induction needle generalizing s with
  | nil => simp
  | cons a as ih =>
    cases s with
    | nil => simp at h
    | cons b bs =>
      show (a == b && as.isPrefixOf (bs ++ t)) = (a == b && as.isPrefixOf bs)
      rw [ih bs (by simpa using h)]

theorem find_at_length (needle s : Str) (i j : Nat) (h : find_at needle s i = some j) :
    needle.length ≤ s.length := by
  induction s generalizing i with
  | nil =>
    simp only [find_at] at h
    split_ifs at h with hn
    simp [hn]
  | cons c cs ih =>
    simp only [find_at] at h
    split_ifs at h with hp
    · exact (List.isPrefixOf_iff_prefix.1 hp).length_le
    · exact Nat.le_succ_of_le (ih _ h)

theorem find_at_append (needle s t : Str) (i j : Nat) (hn : needle ≠ [])
    (h : find_at needle s i = some j) : find_at needle (s ++ t) i = some j := by
  induction s generalizing i with
  | nil =>
    simp only [find_at] at h
    split_ifs at h with hn'
    exact absurd hn' hn
  | cons c cs ih =>
    have hlen := find_at_length needle (c :: cs) i j h
    simp only [find_at] at h
    show (if needle.isPrefixOf ((c :: cs) ++ t) then some i
      else find_at needle (cs ++ t) (i + 1)) = some j
    rw [isPrefixOf_append_of_le needle (c :: cs) t hlen]
    split_ifs at h ⊢ with hp
    · exact h
    · exact ih _ h

theorem find_append (s t needle : Str) (pos j : Nat) (hn : needle ≠ [])
    (h : find s needle pos = some j) : find (s ++ t) needle pos = some j := by
  unfold find at h ⊢
  split_ifs at h with hp
  have hp' : ¬ (s ++ t).length < pos := by
    rw [List.length_append]
    omega
  rw [if_neg hp', List.drop_append_of_le_length (by omega)]
  exact find_at_append _ _ _ _ _ hn h

/-- Whatever follows the empty line of this text is the content of the request
that is decoded from it. -/
theorem string_to_request_post (body : Str) :
    string_to_request ("POST / HTTP/1.1\r\nA: b\r\n\r\n".toList ++ body) =
      .ok ((((HttpRequest.default.SetMethod .POST).SetUri (Uri.ofPath "/".toList)).SetHeader
        "A".toList "b".toList).SetContent body) := by
  have h1 : find ("POST / HTTP/1.1\r\nA: b\r\n\r\n".toList ++ body) "\r\n".toList 0 = some 15 :=
    find_append _ _ _ _ _ (by decide) (by decide)
  have h2 : find ("POST / HTTP/1.1\r\nA: b\r\n\r\n".toList ++ body) "\r\n\r\n".toList 17 =
      some 21 :=
    find_append _ _ _ _ _ (by decide) (by decide)
  have hlen : ("POST / HTTP/1.1\r\nA: b\r\n\r\n".toList).length = 25 := by decide
  have h3 : substr ("POST / HTTP/1.1\r\nA: b\r\n\r\n".toList ++ body) 0 15 =
      "POST / HTTP/1.1".toList := by
    unfold substr
    rw [List.drop_zero, List.take_append_of_le_length (by rw [hlen]; omega)]
    decide
  have h4 : split_header_body ("POST / HTTP/1.1\r\nA: b\r\n\r\n".toList ++ body) (15 + 2) =
      ("A: b".toList, body) := by
    unfold split_header_body
    simp only [h2]
    have ha : substr ("POST / HTTP/1.1\r\nA: b\r\n\r\n".toList ++ body) 17 (21 - 17) =
        "A: b".toList := by
      unfold substr
      rw [List.drop_append_of_le_length (by rw [hlen]; omega),
        List.take_append_of_le_length (by decide)]
      decide
    have hb : (if 21 + 4 < ("POST / HTTP/1.1\r\nA: b\r\n\r\n".toList ++ body).length then
        substr ("POST / HTTP/1.1\r\nA: b\r\n\r\n".toList ++ body) (21 + 4)
          (("POST / HTTP/1.1\r\nA: b\r\n\r\n".toList ++ body).length - (21 + 4))
        else []) = body := by
      have hd : List.drop 25 ("POST / HTTP/1.1\r\nA: b\r\n\r\n".toList ++ body) = body := by
        rw [← hlen, List.drop_left]
      unfold substr
      rw [List.length_append, hlen, hd]
      cases body with
      | nil => simp
      | cons b bs => simp
    rw [ha, hb]
  rw [string_to_request_crlf _ 15 h1, h3, h4]
  rfl

theorem c_string_append (data rest : Str) (h : ∀ c ∈ data, c ≠ NUL) :
    c_string (data ++ rest) = data ++ c_string rest := by
  unfold c_string
  apply List.takeWhile_append_of_pos
  intro c hc
  simpa using h c hc

theorem received_full (data : Str) (h : data.length = kMaxBufferSize) :
    (received data).buffer = data := by
  simp only [received, recv_into, EventData.default]
  rw [List.take_of_length_le (le_of_eq h), h,
    List.drop_of_length_le (by rw [List.length_replicate]), List.append_nil]

/-- C10 fails on the code: `full_request` is 4096 bytes without a NUL; once it
is received the buffer holds nothing else, so the constructor of
`request_string` finds no terminator in it and reads on: with an `X` and a NUL
behind the array, the string that is decoded is `full_request` followed by
`X`, 4097 bytes long, and the decoded request, whose content ends in that `X`,
is not the one `string_to_request` returns for the 4096 bytes. -/
theorem full_buffer_is_read_past_its_end :
    full_request.length = kMaxBufferSize ∧
    (∀ c ∈ full_request, c ≠ NUL) ∧
    (received full_request).buffer = full_request ∧
    c_string ((received full_request).buffer ++ ['X', NUL]) = full_request ++ ['X'] ∧
    (c_string ((received full_request).buffer ++ ['X', NUL])).length = kMaxBufferSize + 1 ∧
    string_to_request (c_string ((received full_request).buffer ++ ['X', NUL])) =
      .ok ((((HttpRequest.default.SetMethod .POST).SetUri (Uri.ofPath "/".toList)).SetHeader
        "A".toList "b".toList).SetContent (List.replicate 4071 'a' ++ ['X'])) ∧
    string_to_request full_request =
      .ok ((((HttpRequest.default.SetMethod .POST).SetUri (Uri.ofPath "/".toList)).SetHeader
        "A".toList "b".toList).SetContent (List.replicate 4071 'a')) ∧
    string_to_request (c_string ((received full_request).buffer ++ ['X', NUL])) ≠
      string_to_request full_request := by
  have hlen : full_request.length = kMaxBufferSize := by
    have hk : kMaxBufferSize = 4096 := rfl
    rw [hk, full_request, List.length_append, List.length_replicate]
    rfl
  have hnul : ∀ c ∈ full_request, c ≠ NUL := by
    intro c hc
    simp only [full_request, List.mem_append, List.mem_replicate] at hc
    rcases hc with hc | hc
    · revert c
      decide
    · rw [hc.2]
      decide
  have hstr : c_string ((received full_request).buffer ++ ['X', NUL]) =
      full_request ++ ['X'] := by
    rw [received_full _ hlen, c_string_append _ _ hnul]
    rfl
  have hbehind : string_to_request (full_request ++ ['X']) =
      .ok ((((HttpRequest.default.SetMethod .POST).SetUri (Uri.ofPath "/".toList)).SetHeader
        "A".toList "b".toList).SetContent (List.replicate 4071 'a' ++ ['X'])) := by
    rw [full_request, List.append_assoc]
    exact string_to_request_post _
  have hexact : string_to_request full_request =
      .ok ((((HttpRequest.default.SetMethod .POST).SetUri (Uri.ofPath "/".toList)).SetHeader
        "A".toList "b".toList).SetContent (List.replicate 4071 'a')) :=
    string_to_request_post _
  refine ⟨hlen, hnul, received_full _ hlen, hstr, ?_, ?_, hexact, ?_⟩
  · rw [hstr, List.length_append, hlen]
    rfl
  · rw [hstr, hbehind]
  · rw [hstr, hbehind, hexact]
    intro hc
    have hcl := congrArg (fun x => x.toOption.map HttpRequest.content_length) hc
    simp only [Except.toOption, Option.map_some', HttpRequest.content_length,
      HttpRequest.SetContent, HttpRequest.SetContentLength, HttpRequest.SetHeader,
      List.length_append, List.length_replicate, List.length_singleton] at hcl
    simp at hcl

/-! ## The encoders -/

theorem map_sorted_assign {κ ν : Type} {lt : κ → κ → Bool}
    (h : StrictTotal lt) (k : κ) (v : ν) (m : List (κ × ν)) (hs : map_sorted lt m) :
    map_sorted lt (map_assign lt k v m) ∧
      ∀ e ∈ map_assign lt k v m, e.1 = k ∨ e ∈ m := by
  induction m with
  | nil => simp [map_assign, map_sorted]
  | cons e rest ih =>
    obtain ⟨k', v'⟩ := e
    have hs' := List.pairwise_cons.1 hs
    simp only [map_assign]
    by_cases h1 : lt k k' = true
    · rw [if_pos h1]
      refine ⟨List.pairwise_cons.2 ⟨?_, hs⟩, ?_⟩
      · intro e he
        rcases List.mem_cons.1 he with rfl | he
        · exact h1
        · exact h.trans _ _ _ h1 (hs'.1 e he)
      · intro e he
        rcases List.mem_cons.1 he with rfl | he
        · exact Or.inl rfl
        · exact Or.inr he
    · by_cases h2 : lt k' k = true
      · rw [if_neg h1, if_pos h2]
        obtain ⟨ih1, ih2⟩ := ih hs'.2
        refine ⟨List.pairwise_cons.2 ⟨?_, ih1⟩, ?_⟩
        · intro e he
          rcases ih2 e he with he | he
          · rw [he]
            exact h2
          · exact hs'.1 e he
        · intro e he
          rcases List.mem_cons.1 he with rfl | he
          · exact Or.inr (List.mem_cons_self _ _)
          · rcases ih2 e he with he | he
            · exact Or.inl he
            · exact Or.inr (List.mem_cons_of_mem _ he)
      · rw [if_neg h1, if_neg h2]
        have hkk : k = k' := h.tri k k' (by simpa using h1) (by simpa using h2)
        refine ⟨List.pairwise_cons.2 ⟨hs'.1, hs'.2⟩, ?_⟩
        intro e he
        rcases List.mem_cons.1 he with rfl | he
        · exact Or.inl hkk.symm
        · exact Or.inr (List.mem_cons_of_mem _ he)

theorem map_sorted_erase {κ ν : Type} {lt : κ → κ → Bool}
    (k : κ) (m : List (κ × ν)) (hs : map_sorted lt m) :
    map_sorted lt (map_erase lt k m) ∧ ∀ e ∈ map_erase lt k m, e ∈ m := by
  induction m with
  | nil => simp [map_erase, map_sorted]
  | cons e rest ih =>
    obtain ⟨k', v'⟩ := e
    have hs' := List.pairwise_cons.1 hs
    simp only [map_erase]
    split_ifs with hc
    · exact ⟨hs'.2, fun e he => List.mem_cons_of_mem _ he⟩
    · obtain ⟨ih1, ih2⟩ := ih hs'.2
      refine ⟨List.pairwise_cons.2 ⟨fun e he => hs'.1 e (ih2 e he), ih1⟩, ?_⟩
      intro e he
      rcases List.mem_cons.1 he with rfl | he
      · exact List.mem_cons_self _ _
      · exact List.mem_cons_of_mem _ (ih2 e he)

theorem header_block_eq (h : List (Str × Str)) :
    header_block h = (h.map header_line).flatten := by
  induction h with
  | nil => rfl
  | cons p rest ih =>
    simp only [header_block, List.map_cons, List.flatten_cons, header_line, ih]

theorem response_wf_ofStatus (s : HttpStatusCode) : (HttpResponse.ofStatus s).wf :=
  ⟨rfl, List.Pairwise.nil⟩

theorem response_wf_SetHeader (r : HttpResponse) (k v : Str) (h : r.wf) :
    (r.SetHeader k v).wf :=
  ⟨h.1, (map_sorted_assign str_lt_strictTotal k v _ h.2).1⟩

theorem response_wf_RemoveHeader (r : HttpResponse) (k : Str) (h : r.wf) :
    (r.RemoveHeader k).wf :=
  ⟨h.1, (map_sorted_erase k _ h.2).1⟩

theorem response_wf_ClearHeader (r : HttpResponse) (h : r.wf) : r.ClearHeader.wf :=
  ⟨h.1, List.Pairwise.nil⟩

theorem response_wf_SetContent (r : HttpResponse) (c : Str) (h : r.wf) :
    (r.SetContent c).wf :=
  ⟨h.1, (map_sorted_assign str_lt_strictTotal _ _ _ h.2).1⟩

theorem response_wf_ClearContent (r : HttpResponse) (c : Str) (h : r.wf) :
    (r.ClearContent c).wf :=
  ⟨h.1, (map_sorted_assign str_lt_strictTotal _ _ _ h.2).1⟩

theorem response_wf_SetStatusCode (r : HttpResponse) (s : HttpStatusCode) (h : r.wf) :
    (r.SetStatusCode s).wf := h

theorem request_wf_default : HttpRequest.default.wf := ⟨rfl, List.Pairwise.nil⟩

theorem request_wf_SetHeader (r : HttpRequest) (k v : Str) (h : r.wf) :
    (r.SetHeader k v).wf :=
  ⟨h.1, (map_sorted_assign str_lt_strictTotal k v _ h.2).1⟩

theorem request_wf_RemoveHeader (r : HttpRequest) (k : Str) (h : r.wf) :
    (r.RemoveHeader k).wf :=
  ⟨h.1, (map_sorted_erase k _ h.2).1⟩

theorem request_wf_ClearHeader (r : HttpRequest) (h : r.wf) : r.ClearHeader.wf :=
  ⟨h.1, List.Pairwise.nil⟩

theorem request_wf_SetContent (r : HttpRequest) (c : Str) (h : r.wf) :
    (r.SetContent c).wf :=
  ⟨h.1, (map_sorted_assign str_lt_strictTotal _ _ _ h.2).1⟩

theorem request_wf_ClearContent (r : HttpRequest) (c : Str) (h : r.wf) :
    (r.ClearContent c).wf :=
  ⟨h.1, (map_sorted_assign str_lt_strictTotal _ _ _ h.2).1⟩

theorem request_wf_SetMethod (r : HttpRequest) (m : HttpMethod) (h : r.wf) :
    (r.SetMethod m).wf := h

theorem request_wf_SetUri (r : HttpRequest) (u : Uri) (h : r.wf) : (r.SetUri u).wf := h

theorem hello_response_wf : hello_response.wf :=
  response_wf_SetContent _ _ (response_wf_SetHeader _ _ _ (response_wf_ofStatus _))

theorem test_request_wf : test_request.wf :=
  request_wf_SetContent _ _ (request_wf_SetHeader _ _ _
    (request_wf_SetUri _ _ (request_wf_SetMethod _ _ request_wf_default)))

/-- C11: the encoding of a response with its content is `HTTP/1.1`, the status
code in decimal, the reason phrase and CRLF, then the line `key: value` CRLF of
every header, the keys strictly ascending, then CRLF, then the content.  A
response without header and content encodes to its status line and one empty
line; the 200 response of `say_hello` begins with `HTTP/1.1 200 OK`, holds
`Content-Length: 13` and ends with its body. -/
theorem response_to_string_format (r : HttpResponse) (hwf : r.wf) :
    r.to_string true =
      "HTTP/1.1 ".toList ++ decimal r.status_code.toNat ++ " ".toList ++
        r.status_code.to_string ++ "\r\n".toList ++
        (r.headers.map header_line).flatten ++ "\r\n".toList ++ r.content ∧
    r.headers.Pairwise (fun a b => str_lt a.1 b.1 = true) ∧
    (∀ s : HttpStatusCode,
      (HttpResponse.ofStatus s).to_string true =
        "HTTP/1.1 ".toList ++ decimal s.toNat ++ " ".toList ++ s.to_string ++
          "\r\n".toList ++ "\r\n".toList) ∧
    (HttpResponse.default.SetStatusCode .InternalServerError).to_string true =
      "HTTP/1.1 500 Internal Server Error\r\n\r\n".toList ∧
    hello_response.to_string true =
      ("HTTP/1.1 200 OK\r\n".toList ++ "Content-Length: 13\r\n".toList ++
        "Content-Type: text/plain\r\n".toList ++ "\r\n".toList) ++
        "Hello, world\n".toList ∧
    "HTTP/1.1 200 OK\r\n".toList.isPrefixOf (hello_response.to_string true) = true ∧
    find (hello_response.to_string true) "Content-Length: 13\r\n".toList 0 = some 17 ∧
    "Hello, world\n".toList.isSuffixOf (hello_response.to_string true) = true := by
  refine ⟨?_, hwf.2, ?_, by decide, by decide, by decide, by decide, by decide⟩
  · simp only [HttpResponse.to_string, HttpResponse.version, hwf.1, HttpVersion.to_string,
      header_block_eq, if_true]
    simp only [List.append_assoc]
    rfl
  · intro s
    simp only [HttpResponse.to_string, HttpResponse.version, HttpResponse.ofStatus,
      HttpVersion.to_string, header_block, HttpResponse.headers, HttpResponse.content,
      HttpResponse.status_code, if_true, List.append_nil]
    simp only [List.append_assoc]
    rfl

theorem response_to_string_format_witness :
    hello_response.wf ∧
    hello_response.to_string true =
      "HTTP/1.1 ".toList ++ decimal hello_response.status_code.toNat ++ " ".toList ++
        hello_response.status_code.to_string ++ "\r\n".toList ++
        (hello_response.headers.map header_line).flatten ++ "\r\n".toList ++
        hello_response.content :=
  ⟨hello_response_wf, (response_to_string_format hello_response hello_response_wf).1⟩

/-- C12: the encoding of a request is the method name, a space, the path, a
space, `HTTP/1.1` and CRLF, then the line `key: value` CRLF of every header,
the keys strictly ascending and the Content-Length that `SetContent` sets
among them, then CRLF, then the content. -/
theorem request_to_string_format (r : HttpRequest) (hwf : r.wf) :
    r.to_string =
      r.method.to_string ++ " ".toList ++ r.uri.path ++ " HTTP/1.1".toList ++ "\r\n".toList ++
        (r.headers.map header_line).flatten ++ "\r\n".toList ++ r.content ∧
    r.headers.Pairwise (fun a b => str_lt a.1 b.1 = true) ∧
    (∀ (r0 : HttpRequest) (c : Str),
      ("Content-Length".toList, decimal c.length) ∈ (r0.SetContent c).headers ∧
      (r0.SetContent c).header "Content-Length".toList = decimal c.length) ∧
    test_request.to_string =
      "GET / HTTP/1.1\r\n".toList ++ "Connection: Keep-Alive\r\n".toList ++
        "Content-Length: 13\r\n\r\n".toList ++ "hello, world\n".toList := by
  refine ⟨?_, hwf.2, ?_, by decide⟩
  · simp only [HttpRequest.to_string, HttpRequest.version, hwf.1, HttpVersion.to_string,
      header_block_eq]
    simp only [List.append_assoc]
    rfl
  · intro r0 c
    refine ⟨mem_map_assign_self str_lt_strictTotal _ _ _, ?_⟩
    simp only [HttpRequest.header, HttpRequest.SetContent, HttpRequest.SetContentLength,
      HttpRequest.SetHeader]
    rw [map_find_assign str_lt_strictTotal, if_pos rfl]
    rfl

theorem request_to_string_format_witness :
    test_request.wf ∧
    test_request.to_string =
      test_request.method.to_string ++ " ".toList ++ test_request.uri.path ++
        " HTTP/1.1".toList ++ "\r\n".toList ++
        (test_request.headers.map header_line).flatten ++ "\r\n".toList ++
        test_request.content :=
  ⟨test_request_wf, (request_to_string_format test_request test_request_wf).1⟩

/-! ## Response decoding, which is not there -/

/-- C13, as the code has it: `string_to_response` is not implemented; on every
string, the encoding of any response included, it throws
`std::logic_error("Method not implemented")` and returns no response, so
there is no response round trip. -/
theorem string_to_response_not_implemented (r : HttpResponse) (send_content : Bool) :
    string_to_response (r.to_string send_content) =
      .error (.logic_error "Method not implemented".toList) ∧
    ∀ s : Str, string_to_response s = .error (.logic_error "Method not implemented".toList) :=
  ⟨rfl, fun _ => rfl⟩

/-- C13 fails as stated: decoding the encoding of the response of `say_hello`
yields no response at all. -/
theorem response_round_trip_throws :
    string_to_response (hello_response.to_string true) =
      .error (.logic_error "Method not implemented".toList) ∧
    ¬ ∃ r : HttpResponse, string_to_response (hello_response.to_string true) = .ok r :=
  ⟨rfl, fun ⟨_, h⟩ => by cases h⟩

/-! ## The body of a request without header lines -/

/-- C14 fails on the code: the empty line is searched from behind the CRLF of
the start line on, so in a text without header lines it is not found and the
body is dropped: `POST / HTTP/1.1`, CRLF, CRLF, `body` decodes to a request
with empty content.  With one header line in between the content is the
body. -/
theorem body_without_header_lines_is_dropped :
    string_to_request "POST / HTTP/1.1\r\n\r\nbody".toList =
      .ok (((HttpRequest.default.SetMethod .POST).SetUri (Uri.ofPath "/".toList)).SetContent
        []) ∧
    (((HttpRequest.default.SetMethod .POST).SetUri (Uri.ofPath "/".toList)).SetContent
        []).content = [] ∧
    string_to_request ("POST / HTTP/1.1\r\nA: b\r\n\r\n".toList ++ "body".toList) =
      .ok ((((HttpRequest.default.SetMethod .POST).SetUri (Uri.ofPath "/".toList)).SetHeader
        "A".toList "b".toList).SetContent "body".toList) :=
  ⟨by decide, rfl, string_to_request_post _⟩

/-! ## Lowercase paths -/

theorem tolower_eq_counterpart (c : Char) : tolower c = lowercase_counterpart c := by
  unfold tolower
  by_cases h : 65 ≤ c.toNat ∧ c.toNat ≤ 90
  · rw [if_pos h]
    obtain ⟨h1, h2⟩ := h
    have hc : c = Char.ofNat c.toNat := (Char.ofNat_toNat c).symm
    generalize hn : c.toNat = n at h1 h2 hc
    subst hc
    interval_cases n <;> decide
  · rw [if_neg h]
    unfold lowercase_counterpart
    have hnone : ("ABCDEFGHIJKLMNOPQRSTUVWXYZ".toList.zip
        "abcdefghijklmnopqrstuvwxyz".toList).lookup c = none := by
      rw [List.lookup_eq_none_iff]
      intro p hp
      have hq : 65 ≤ p.1.toNat ∧ p.1.toNat ≤ 90 := by
        revert p
        decide
      rw [bne_iff_ne]
      intro hpc
      rw [hpc] at h
      exact h hq
    rw [hnone]
    rfl

theorem tolower_idem (c : Char) : tolower (tolower c) = tolower c := by
  unfold tolower
  by_cases h : 65 ≤ c.toNat ∧ c.toNat ≤ 90
  · rw [if_pos h]
    obtain ⟨h1, h2⟩ := h
    have hc : c = Char.ofNat c.toNat := (Char.ofNat_toNat c).symm
    generalize hn : c.toNat = n at h1 h2 hc
    subst hc
    interval_cases n <;> decide
  · rw [if_neg h, if_neg h]


/-- C17: the path of `Uri(p)`, and the path after `SetPath(p)`, is `p` with
every uppercase ASCII letter replaced by its lowercase counterpart and every
other character, those of the query part too, as it is; so the path is as
long as `p` and normalising it again changes nothing. -/
theorem uri_path_lowercase (p : Str) (u : Uri) :
    (Uri.ofPath p).path = p.map lowercase_counterpart ∧
    (u.SetPath p).path = p.map lowercase_counterpart ∧
    (Uri.ofPath p).path.length = p.length ∧
    Uri.ofPath (Uri.ofPath p).path = Uri.ofPath p ∧
    (∀ c : Char, c ∉ "ABCDEFGHIJKLMNOPQRSTUVWXYZ".toList → lowercase_counterpart c = c) ∧
    "ABCDEFGHIJKLMNOPQRSTUVWXYZ".toList.map lowercase_counterpart =
      "abcdefghijklmnopqrstuvwxyz".toList ∧
    (Uri.ofPath "/SayHello.html?name=abc&message=welcome".toList).path =
      "/sayhello.html?name=abc&message=welcome".toList ∧
    (Uri.ofPath "/SayHello.html?name=abc&message=welcome".toList).path =
      (Uri.ofPath "/SayHello.HTML?name=abc&message=welcome".toList).path := by
  have hmap : p.map tolower = p.map lowercase_counterpart :=
    List.map_congr_left (fun c _ => tolower_eq_counterpart c)
  refine ⟨hmap, hmap, ?_, ?_, ?_, by decide, by decide, by decide⟩
  · simp [Uri.ofPath, Uri.SetPathToLowercase, Uri.path]
  · simp only [Uri.ofPath, Uri.SetPathToLowercase, Uri.path, List.map_map]
    congr 1
    exact List.map_congr_left (fun c _ => tolower_idem c)
  · intro c hc
    unfold lowercase_counterpart
    have hnone : ("ABCDEFGHIJKLMNOPQRSTUVWXYZ".toList.zip
        "abcdefghijklmnopqrstuvwxyz".toList).lookup c = none := by
      rw [List.lookup_eq_none_iff]
      intro q hq
      rw [bne_iff_ne]
      intro hcq
      apply hc
      rw [hcq]
      exact (List.of_mem_zip hq).1
    rw [hnone]
    rfl

/-! ## Methods, versions and reason phrases -/

/-- C18: `string_to_method` succeeds exactly on the strings whose uppercase form
is one of the nine method names, and returns the method with that name, so it
undoes `to_string` whatever the letter case; on every other string it throws
`std::invalid_argument`. -/
theorem string_to_method_inverse (s : Str) :
    (s.map toupper ∈ method_names →
      ∃ m, string_to_method s = .ok m ∧ m.to_string = s.map toupper) ∧
    (s.map toupper ∉ method_names →
      string_to_method s = .error (.invalid_argument "Unexpected HTTP method".toList)) ∧
    (∀ m : HttpMethod, string_to_method m.to_string = .ok m) ∧
    string_to_method "post".toList = .ok .POST ∧
    string_to_method "GET".toList = .ok .GET ∧
    HttpMethod.GET.to_string = "GET".toList ∧
    method_names.length = 9 := by
  refine ⟨?_, string_to_method_unknown s, ?_, by decide, by decide, rfl, rfl⟩
  · intro h
    unfold string_to_method
    simp only []
    split_ifs with h1 h2 h3 h4 h5 h6 h7 h8 h9
    · exact ⟨_, rfl, h1.symm⟩
    · exact ⟨_, rfl, h2.symm⟩
    · exact ⟨_, rfl, h3.symm⟩
    · exact ⟨_, rfl, h4.symm⟩
    · exact ⟨_, rfl, h5.symm⟩
    · exact ⟨_, rfl, h6.symm⟩
    · exact ⟨_, rfl, h7.symm⟩
    · exact ⟨_, rfl, h8.symm⟩
    · exact ⟨_, rfl, h9.symm⟩
    · exfalso
      simp only [method_names, List.map, HttpMethod.to_string, List.mem_cons,
        List.mem_singleton, List.not_mem_nil, or_false] at h
      tauto
  · intro m
    cases m <;> decide

theorem string_to_method_inverse_witness :
    "pAtCh".toList.map toupper ∈ method_names ∧
    "FOO".toList.map toupper ∉ method_names ∧
    (∃ m, string_to_method "pAtCh".toList = .ok m ∧
      m.to_string = "pAtCh".toList.map toupper) ∧
    string_to_method "FOO".toList =
      .error (.invalid_argument "Unexpected HTTP method".toList) :=
  ⟨by decide, by decide, (string_to_method_inverse "pAtCh".toList).1 (by decide),
    (string_to_method_inverse "FOO".toList).2.1 (by decide)⟩

/-- C19: `string_to_version` undoes `to_string` on each of the four versions,
`to_string(HTTP_1_1)` is `HTTP/1.1`, and `string_to_version` throws
`std::invalid_argument` on every string whose uppercase form is none of
`HTTP/0.9`, `HTTP/1.0`, `HTTP/1.1`, `HTTP/2`, `HTTP/2.0`. -/
theorem string_to_version_inverse (s : Str) :
    (∀ v : HttpVersion, string_to_version v.to_string = .ok v) ∧
    HttpVersion.HTTP_1_1.to_string = "HTTP/1.1".toList ∧
    string_to_version "HTTP/1.1".toList = .ok .HTTP_1_1 ∧
    (s.map toupper ∉ version_names →
      string_to_version s = .error (.invalid_argument "Unexpected HTTP version".toList)) := by
  refine ⟨?_, rfl, by decide, ?_⟩
  · intro v
    cases v <;> decide
  · intro h
    apply string_to_version_unknown
    simp only [version_names, other_version_names, List.mem_cons, List.mem_singleton,
      List.not_mem_nil, or_false, not_or] at h ⊢
    tauto

theorem string_to_version_inverse_witness :
    "HTTP/3.0".toList.map toupper ∉ version_names ∧
    string_to_version "HTTP/3.0".toList =
      .error (.invalid_argument "Unexpected HTTP version".toList) :=
  ⟨by decide, (string_to_version_inverse "HTTP/3.0".toList).2.2.2 (by decide)⟩

/-- C20: `to_string(HttpStatusCode)` is the reason phrase for the thirteen codes
100, 200, 202, 301, 302, 400, 403, 404, 405, 418, 500, 501 and 502, none of
them empty, and the empty string for every other value of the enumeration,
`NoContent` (204) and `HttpVersionNotSupported` (505) among them. -/
theorem status_code_to_string_table (s : HttpStatusCode) :
    s.to_string = (reason_phrases.lookup s.toNat).getD [] ∧
    (s.toNat ∉ reason_phrases.map Prod.fst → s.to_string = []) ∧
    reason_phrases.map Prod.fst =
      [100, 200, 202, 301, 302, 400, 403, 404, 405, 418, 500, 501, 502] ∧
    (∀ p ∈ reason_phrases, p.2 ≠ []) ∧
    HttpStatusCode.ImATeapot.to_string = "I'm a Teapot".toList ∧
    HttpStatusCode.NoContent.to_string = [] ∧
    HttpStatusCode.HttpVersionNotSupported.to_string = [] := by
  refine ⟨?_, ?_, rfl, by decide, rfl, rfl, rfl⟩
  · cases s <;> decide
  · cases s <;> decide

theorem status_code_to_string_table_witness :
    HttpStatusCode.GatewayTimeout.toNat ∉ reason_phrases.map Prod.fst ∧
    HttpStatusCode.GatewayTimeout.to_string = [] :=
  ⟨by decide, (status_code_to_string_table .GatewayTimeout).2.1 (by decide)⟩

/-! ## The tokens of the start line -/

/-- The stream `s` is either good and holds `b`, or it is not good any more and
`b` is empty. -/
theorem extract_tracks (s : istringstream) (b : Str)
    (h : (s.good = true ∧ s.buf = b) ∨ (s.good = false ∧ b = [])) :
    (s.extract []).2 = first_token b ∧
    (((s.extract []).1.good = true ∧ (s.extract []).1.buf = skip_token b) ∨
      ((s.extract []).1.good = false ∧ skip_token b = [])) := by
  rcases h with ⟨hg, hb⟩ | ⟨hg, hb⟩
  · subst hb
    unfold istringstream.extract first_token skip_token
    simp only [hg, Bool.not_true, Bool.false_eq_true, if_false]
    cases hd : s.buf.dropWhile isspace with
    | nil => exact ⟨rfl, Or.inr ⟨rfl, rfl⟩⟩
    | cons c cs =>
      refine ⟨rfl, ?_⟩
      simp only [istringstream.good]
      cases hr : List.dropWhile (fun x => !isspace x) (c :: cs) with
      | nil =>
        right
        simp
      | cons d ds =>
        left
        simp
  · subst hb
    unfold istringstream.extract
    simp only [hg, Bool.not_false, if_true]
    refine ⟨rfl, Or.inr ⟨?_, rfl⟩⟩
    simp [istringstream.good]

theorem read_start_line_tokens (start_line : Str) :
    (read_start_line start_line).2.1 = nth_token 0 start_line ∧
    (read_start_line start_line).2.2.1 = nth_token 1 start_line ∧
    (read_start_line start_line).2.2.2 = nth_token 2 start_line := by
  have h1 := extract_tracks (istringstream.str start_line) start_line (Or.inl ⟨rfl, rfl⟩)
  have h2 := extract_tracks _ _ h1.2
  have h3 := extract_tracks _ _ h2.2
  exact ⟨h1.1, h2.1, h3.1⟩

/-- The decoder on a text with a CRLF, in terms of the first three tokens of
the start line. -/
theorem string_to_request_tokens (text : Str) (rpos : Nat)
    (h : find text "\r\n".toList 0 = some rpos) :
    string_to_request text =
      match string_to_method (nth_token 0 (text.take rpos)) with
      | .error e => .error e
      | .ok m =>
        match string_to_version (nth_token 2 (text.take rpos)) with
        | .error e => .error e
        | .ok v =>
          if v ≠ HttpVersion.HTTP_1_1 then
            .error (.logic_error "HTTP version not supported".toList)
          else
            .ok ((parse_header_lines
              ((HttpRequest.default.SetMethod m).SetUri
                (Uri.ofPath (nth_token 1 (text.take rpos))))
              [] [] (getlines (split_header_body text (rpos + 2)).1)).SetContent
              (split_header_body text (rpos + 2)).2) := by
  have hsub : substr text 0 rpos = text.take rpos := by simp [substr]
  obtain ⟨h0, h1, h2⟩ := read_start_line_tokens (text.take rpos)
  rw [string_to_request_crlf text rpos h, hsub, h0, h1, h2]

/-- C15, as the code has it: a text without CRLF, and a text whose start line
(the text before the first CRLF) has fewer than three white-space separated
tokens, fails with `std::invalid_argument`.  The tokens behind the third are
never read: the result is decided by the first three. -/
theorem string_to_request_start_line (text : Str) :
    (find text "\r\n".toList 0 = none →
      string_to_request text =
        .error (.invalid_argument "Could not find request start line".toList)) ∧
    (∀ rpos, find text "\r\n".toList 0 = some rpos →
      nth_token 2 (text.take rpos) = [] →
      string_to_request text =
          .error (.invalid_argument "Unexpected HTTP method".toList) ∨
        string_to_request text =
          .error (.invalid_argument "Unexpected HTTP version".toList)) ∧
    (∀ rpos, find text "\r\n".toList 0 = some rpos →
      string_to_request text =
        match string_to_method (nth_token 0 (text.take rpos)) with
        | .error e => .error e
        | .ok m =>
          match string_to_version (nth_token 2 (text.take rpos)) with
          | .error e => .error e
          | .ok v =>
            if v ≠ HttpVersion.HTTP_1_1 then
              .error (.logic_error "HTTP version not supported".toList)
            else
              .ok ((parse_header_lines
                ((HttpRequest.default.SetMethod m).SetUri
                  (Uri.ofPath (nth_token 1 (text.take rpos))))
                [] [] (getlines (split_header_body text (rpos + 2)).1)).SetContent
                (split_header_body text (rpos + 2)).2)) := by
  refine ⟨string_to_request_no_crlf text, ?_, string_to_request_tokens text⟩
  intro rpos hf h3
  rw [string_to_request_tokens text rpos hf, h3]
  cases hm : string_to_method (nth_token 0 (text.take rpos)) with
  | error e =>
    left
    rw [string_to_method_error _ _ hm]
  | ok m =>
    right
    rfl

theorem string_to_request_start_line_witness :
    find "GET /".toList "\r\n".toList 0 = none ∧
    string_to_request "GET /".toList =
      .error (.invalid_argument "Could not find request start line".toList) ∧
    find "GET /\r\n\r\n".toList "\r\n".toList 0 = some 5 ∧
    nth_token 2 ("GET /\r\n\r\n".toList.take 5) = [] ∧
    (string_to_request "GET /\r\n\r\n".toList =
        .error (.invalid_argument "Unexpected HTTP method".toList) ∨
      string_to_request "GET /\r\n\r\n".toList =
        .error (.invalid_argument "Unexpected HTTP version".toList)) :=
  ⟨by decide, (string_to_request_start_line "GET /".toList).1 (by decide),
    by decide, by decide,
    (string_to_request_start_line "GET /\r\n\r\n".toList).2.1 5 (by decide) (by decide)⟩

/-- C15 fails as stated: the start line `GET / HTTP/1.1 extra` has four tokens,
yet the text is decoded, to the request `GET /`. -/
theorem start_line_with_four_tokens_is_accepted :
    find "GET / HTTP/1.1 extra\r\n\r\n".toList "\r\n".toList 0 = some 20 ∧
    nth_token 3 ("GET / HTTP/1.1 extra\r\n\r\n".toList.take 20) = "extra".toList ∧
    nth_token 4 ("GET / HTTP/1.1 extra\r\n\r\n".toList.take 20) = [] ∧
    string_to_request "GET / HTTP/1.1 extra\r\n\r\n".toList =
      .ok (((HttpRequest.default.SetMethod .GET).SetUri (Uri.ofPath "/".toList)).SetContent
        []) :=
  ⟨by decide, by decide, by decide, by decide⟩

/-! ## The read step and the last write step of a connection -/

theorem lookup_replace {β : Type} (l : List (Int × β)) (fd : Int) (v : β) (q : Int) :
    (l.map (fun e => if e.1 = fd then (fd, v) else e)).lookup q =
      if q = fd then (l.lookup fd).map (fun _ => v) else l.lookup q := by
  induction l with
  | nil => simp
  | cons e rest ih =>
    obtain ⟨a, b⟩ := e
    rw [List.map_cons]
    by_cases ha : a = fd
    · subst ha
      rw [if_pos rfl, List.lookup_cons, ih]
      by_cases hq : q = a
      · subst hq
        simp
      · have hq' : (q == a) = false := by simpa using hq
        simp [List.lookup_cons, hq', hq]
    · rw [if_neg ha, List.lookup_cons, ih]
      by_cases hq : q = a
      · subst hq
        simp [ha]
      · have hq' : (q == a) = false := by simpa using hq
        by_cases hqf : q = fd
        · subst hqf
          simp [List.lookup_cons, hq']
        · simp [List.lookup_cons, hq', hqf]

/-- On a registered descriptor `EPOLL_CTL_MOD` succeeds: it replaces the
registration of this descriptor and touches nothing else. -/
theorem control_epoll_event_mod (k : Kernel) (fd : Int) (events : Nat)
    (data : Option EventData) (hreg : (k.lookup fd).isSome = true) :
    ∃ k', control_epoll_event k .EPOLL_CTL_MOD fd events data = .ok k' ∧
      k'.lookup fd = some (events, data) ∧
      (∀ fd', fd' ≠ fd → k'.lookup fd' = k.lookup fd') ∧
      k'.closed = k.closed := by
  refine ⟨{ k with
    interest := k.interest.map (fun e => if e.1 = fd then (fd, events, data) else e) },
    ?_, ?_, ?_, rfl⟩
  · simp [control_epoll_event, epoll_ctl, hreg]
  · have hreg' : (k.interest.lookup fd).isSome = true := hreg
    simp only [Kernel.lookup]
    rw [lookup_replace, if_pos rfl]
    cases hl : k.interest.lookup fd with
    | none => rw [hl] at hreg'; cases hreg'
    | some x => rfl
  · intro fd' hne
    simp only [Kernel.lookup]
    rw [lookup_replace, if_neg hne]

theorem first_registered_mem {σ : Type} (uri : Uri) (m : HttpMethod)
    (regs : List (Registration σ)) (cb : HttpRequestHandler_t σ)
    (h : first_registered uri m regs = some cb) : ∃ r ∈ regs, r.callback = cb := by
  induction regs with
  | nil => simp [first_registered] at h
  | cons r rs ih =>
    simp only [first_registered] at h
    split_ifs at h with hc
    · exact ⟨r, List.mem_cons_self _ _, Option.some.inj h⟩
    · obtain ⟨r', hr', hcb⟩ := ih h
      exact ⟨r', List.mem_cons_of_mem _ hr', hcb⟩

/-- When no registered handler throws an object that is not a
`std::exception`, the `try` statement of `HandleHttpData` always ends with a
response. -/
theorem HandleHttpData_try_returns {σ : Type} (regs : List (Registration σ)) (text : Str)
    (w : σ)
    (hstd : ∀ r ∈ regs, ∀ (req : HttpRequest) (w0 : σ), (r.callback req w0).1 ≠ .error .other) :
    ∃ http_request http_response w',
      HandleHttpData_try (register_all regs []) text w =
        (.ok (http_request, http_response), w') := by
  cases hd : string_to_request text with
  | error e =>
    have ht := HandleHttpData_try_decode_error (register_all regs []) text w e hd
    rcases string_to_request_error text e hd with rfl | rfl | rfl | rfl <;>
      exact ⟨_, _, _, ht⟩
  | ok request =>
    cases hr : HandleHttpRequest (register_all regs []) request w with
    | mk result w' =>
      cases result with
      | ok r => exact ⟨_, _, _, HandleHttpData_try_routed _ text w w' request r hd hr⟩
      | error e =>
        have ht := HandleHttpData_try_thrown _ text w w' request e hd hr
        cases e with
        | invalid_argument what => exact ⟨_, _, _, ht⟩
        | logic_error what => exact ⟨_, _, _, ht⟩
        | exception what => exact ⟨_, _, _, ht⟩
        | other =>
          exfalso
          rw [HandleHttpRequest_register_all] at hr
          cases hf : first_registered request.uri request.method regs with
          | none =>
            rw [hf] at hr
            simp only [] at hr
            split_ifs at hr <;> cases hr
          | some cb =>
            rw [hf] at hr
            obtain ⟨r, hrmem, hcb⟩ := first_registered_mem _ _ _ _ hf
            apply hstd r hrmem request w
            rw [hcb]
            simp only [] at hr
            rw [hr]

/-- The read step where the handlers keep to `std::exception`: when bytes
arrive on a registered connection, and no registered handler throws an object
that is not a `std::exception`, the read step of
`HandleEpollEvent` ends without exception, closes nothing and leaves the
descriptor registered for `EPOLLOUT` with a write context on the same
descriptor whose cursor is 0 and whose length is that of the encoded response,
be the bytes a request that is served, malformed or unroutable.  And whenever
`send` takes all that is left of a response, the write step leaves the
descriptor registered for `EPOLLIN` with a fresh read context: zeroed buffer,
cursor 0, length 0, same descriptor. -/
theorem HandleEpollEvent_read_then_written {σ : Type} (regs : List (Registration σ))
    (behind_request behind_response : Str) (k : Kernel) (request : EventData)
    (data : Str) (send_result : SendResult) (w : σ)
    (hdata : data ≠ [])
    (hreg : (k.lookup request.fd).isSome = true)
    (hstd : ∀ r ∈ regs, ∀ (req : HttpRequest) (w0 : σ),
      (r.callback req w0).1 ≠ .error .other) :
    (∃ http_request http_response w' k',
      HandleHttpData_try (register_all regs [])
          (c_string ((recv_into request data).1.buffer ++ behind_request)) w =
        (.ok (http_request, http_response), w') ∧
      HandleEpollEvent (register_all regs []) behind_request behind_response k request
          EPOLLIN (.count data) send_result w = (.ok (), k', w') ∧
      k'.lookup request.fd =
        some (EPOLLOUT, some (write_response { EventData.default with fd := request.fd }
          behind_response (HandleHttpData_response_string http_request http_response))) ∧
      (write_response { EventData.default with fd := request.fd }
        behind_response (HandleHttpData_response_string http_request http_response)).fd =
        request.fd ∧
      (write_response { EventData.default with fd := request.fd }
        behind_response (HandleHttpData_response_string http_request http_response)).cursor =
        0 ∧
      (write_response { EventData.default with fd := request.fd }
        behind_response (HandleHttpData_response_string http_request http_response)).length =
        (HandleHttpData_response_string http_request http_response).length ∧
      (∀ fd', fd' ≠ request.fd → k'.lookup fd' = k.lookup fd') ∧
      k'.closed = k.closed) ∧
    (∀ (k2 : Kernel) (response : EventData) (byte_count : Nat) (recv_result : RecvResult)
        (w2 : σ),
      (k2.lookup response.fd).isSome = true →
      response.length ≤ byte_count →
      ∃ k3,
        HandleEpollEvent (register_all regs []) behind_request behind_response k2 response
          EPOLLOUT recv_result (.sent byte_count) w2 = (.ok (), k3, w2) ∧
        k3.lookup response.fd =
          some (EPOLLIN, some { EventData.default with fd := response.fd }) ∧
        ({ EventData.default with fd := response.fd } : EventData).buffer =
          List.replicate kMaxBufferSize NUL ∧
        ({ EventData.default with fd := response.fd } : EventData).cursor = 0 ∧
        ({ EventData.default with fd := response.fd } : EventData).length = 0 ∧
        (∀ fd', fd' ≠ response.fd → k3.lookup fd' = k2.lookup fd') ∧
        k3.closed = k2.closed) := by
  constructor
  · obtain ⟨http_request, http_response, w', htry⟩ :=
      HandleHttpData_try_returns regs
        (c_string ((recv_into request data).1.buffer ++ behind_request)) w hstd
    have hdata' := HandleHttpData_of_try (register_all regs []) behind_request
      behind_response (recv_into request data).1 { EventData.default with fd := request.fd }
      w w' http_request http_response htry
    obtain ⟨k', hk', hl, hothers, hclosed⟩ := control_epoll_event_mod k request.fd EPOLLOUT
      (some (write_response { EventData.default with fd := request.fd }
        behind_response (HandleHttpData_response_string http_request http_response))) hreg
    refine ⟨http_request, http_response, w', k', htry, ?_, hl, rfl, rfl, rfl, hothers,
      hclosed⟩
    cases data with
    | nil => exact absurd rfl hdata
    | cons b bs =>
      unfold HandleEpollEvent
      simp only [if_true, hdata']
      unfold HandleHttpData_response_string at hk'
      simp only [hk']
  · intro k2 response byte_count recv_result w2 hreg2 hfull
    obtain ⟨k3, hk3, hl, hothers, hclosed⟩ := control_epoll_event_mod k2 response.fd EPOLLIN
      (some { EventData.default with fd := response.fd }) hreg2
    refine ⟨k3, ?_, hl, rfl, rfl, rfl, hothers, hclosed⟩
    unfold HandleEpollEvent
    have hne : ¬ (EPOLLOUT = EPOLLIN) := by decide
    have hnlt : ¬ (byte_count < response.length) := by omega
    simp only [hne, if_false, hnlt, hk3]

theorem HandleEpollEvent_read_then_written_witness :
    "FOO / HTTP/1.1\r\n\r\n".toList ≠ [] ∧
    (({ interest := [(7, EPOLLIN, some { EventData.default with fd := 7 })], closed := [] } :
      Kernel).lookup ({ EventData.default with fd := 7 } : EventData).fd).isSome = true ∧
    (∀ r ∈ main_registrations Unit, ∀ (req : HttpRequest) (w0 : Unit),
      (r.callback req w0).1 ≠ .error .other) ∧
    ∃ k' : Kernel,
      HandleEpollEvent (register_all (main_registrations Unit) []) [] []
          { interest := [(7, EPOLLIN, some { EventData.default with fd := 7 })], closed := [] }
          { EventData.default with fd := 7 } EPOLLIN
          (.count "FOO / HTTP/1.1\r\n\r\n".toList) .would_block () = (.ok (), k', ()) ∧
      k'.closed = [] :=
  have hstd : ∀ r ∈ main_registrations Unit, ∀ (req : HttpRequest) (w0 : Unit),
      (r.callback req w0).1 ≠ .error .other := by
    intro r hr req w0
    simp only [main_registrations, List.mem_cons, List.mem_singleton, List.not_mem_nil,
      or_false] at hr
    rcases hr with rfl | rfl | rfl | rfl <;> intro h <;> cases h
  ⟨by decide, by decide, hstd,
    match (HandleEpollEvent_read_then_written (main_registrations Unit) [] []
      { interest := [(7, EPOLLIN, some { EventData.default with fd := 7 })], closed := [] }
      { EventData.default with fd := 7 } "FOO / HTTP/1.1\r\n\r\n".toList .would_block ()
      (by decide) (by decide) hstd).1 with
    | ⟨_, _, _, k', _, hk, _, _, _, _, _, hc⟩ => ⟨k', hk, hc⟩⟩

/-- C16 fails on the code: the bytes of `GET /` arrive on the descriptor 7,
registered for reading, and the request is routed to a handler that throws an
object that is no `std::exception`.  None of the catch clauses of
`HandleHttpData` takes it, so it leaves `HandleHttpData` and
`HandleEpollEvent`: no write context is installed, and the descriptor is
still registered for `EPOLLIN` with the read context. -/
theorem read_step_ends_by_exception :
    HandleEpollEvent (register_all [⟨"/".toList, .GET, throwing .other⟩] []) [] []
        { interest := [(7, EPOLLIN, some { EventData.default with fd := 7 })], closed := [] }
        { EventData.default with fd := 7 } EPOLLIN
        (.count "GET / HTTP/1.1\r\n\r\n".toList) .would_block () =
      (.error .other,
        { interest := [(7, EPOLLIN, some { EventData.default with fd := 7 })], closed := [] },
        ()) ∧
    HandleHttpData (register_all [⟨"/".toList, .GET, throwing .other⟩] []) [] []
        (recv_into { EventData.default with fd := 7 } "GET / HTTP/1.1\r\n\r\n".toList).1
        { EventData.default with fd := 7 } () =
      (.error .other, ()) :=
  ⟨by rfl, by rfl⟩

/-! ## `SetContent`, and the headers of a decoded request -/

theorem request_SetContent_header (r0 : HttpRequest) (c : Str) (key : Str) :
    (r0.SetContent c).header key =
      if key = "Content-Length".toList then decimal c.length else r0.header key := by
  simp only [HttpRequest.header, HttpRequest.SetContent, HttpRequest.SetContentLength,
    HttpRequest.SetHeader]
  rw [map_find_assign str_lt_strictTotal]
  by_cases hk : key = "Content-Length".toList
  · rw [if_pos hk, if_pos hk]
    rfl
  · rw [if_neg hk, if_neg hk]

theorem response_SetContent_header_at (r0 : HttpResponse) (c : Str) (key : Str) :
    (r0.SetContent c).header key =
      if key = "Content-Length".toList then decimal c.length else r0.header key := by
  simp only [HttpResponse.header, HttpResponse.SetContent, HttpResponse.SetContentLength,
    HttpResponse.SetHeader]
  rw [map_find_assign str_lt_strictTotal]
  by_cases hk : key = "Content-Length".toList
  · rw [if_pos hk, if_pos hk]
    rfl
  · rw [if_neg hk, if_neg hk]

/-- C21: after `SetContent(c)` on a request or a response, `content()` is `c`,
`content_length()` is the length of `c`, `header("Content-Length")` is that
length in decimal, and every other header reads as before; the method, the
uri and the status code are not touched. -/
theorem SetContent_frame (c : Str) (request : HttpRequest) (response : HttpResponse) :
    ((request.SetContent c).content = c ∧
      (request.SetContent c).content_length = c.length ∧
      (request.SetContent c).header "Content-Length".toList = decimal c.length ∧
      (∀ key : Str, key ≠ "Content-Length".toList →
        (request.SetContent c).header key = request.header key ∧
        map_find str_lt (request.SetContent c).headers key =
          map_find str_lt request.headers key) ∧
      (request.SetContent c).method = request.method ∧
      (request.SetContent c).uri = request.uri ∧
      (request.SetContent c).version = request.version) ∧
    ((response.SetContent c).content = c ∧
      (response.SetContent c).content_length = c.length ∧
      (response.SetContent c).header "Content-Length".toList = decimal c.length ∧
      (∀ key : Str, key ≠ "Content-Length".toList →
        (response.SetContent c).header key = response.header key ∧
        map_find str_lt (response.SetContent c).headers key =
          map_find str_lt response.headers key) ∧
      (response.SetContent c).status_code = response.status_code ∧
      (response.SetContent c).version = response.version) ∧
    decimal c.length = (toString c.length).toList := by
  refine ⟨⟨rfl, rfl, ?_, ?_, rfl, rfl, rfl⟩, ⟨rfl, rfl, ?_, ?_, rfl, rfl⟩, rfl⟩
  · rw [request_SetContent_header, if_pos rfl]
  · intro key hk
    refine ⟨by rw [request_SetContent_header, if_neg hk], ?_⟩
    show map_find str_lt (map_assign str_lt _ _ request.headers_) key = _
    rw [map_find_assign str_lt_strictTotal, if_neg hk]
    rfl
  · rw [response_SetContent_header_at, if_pos rfl]
  · intro key hk
    refine ⟨by rw [response_SetContent_header_at, if_neg hk], ?_⟩
    show map_find str_lt (map_assign str_lt _ _ response.headers_) key = _
    rw [map_find_assign str_lt_strictTotal, if_neg hk]
    rfl

theorem SetContent_frame_witness :
    "Connection".toList ≠ "Content-Length".toList ∧
    (test_request.SetContent "abc".toList).header "Connection".toList =
      "Keep-Alive".toList ∧
    (test_request.SetContent "abc".toList).header "Content-Length".toList = "3".toList :=
  ⟨by decide,
    (((SetContent_frame "abc".toList test_request hello_response).1.2.2.2.1
      "Connection".toList (by decide)).1).trans (by decide),
    ((SetContent_frame "abc".toList test_request hello_response).1.2.2.1).trans (by decide)⟩

/-- The shape of every request that `string_to_request` returns. -/
theorem string_to_request_ok (text : Str) (r : HttpRequest)
    (h : string_to_request text = .ok r) :
    ∃ rpos m,
      find text "\r\n".toList 0 = some rpos ∧
      string_to_method (nth_token 0 (text.take rpos)) = .ok m ∧
      string_to_version (nth_token 2 (text.take rpos)) = .ok .HTTP_1_1 ∧
      r = (parse_header_lines
        ((HttpRequest.default.SetMethod m).SetUri
          (Uri.ofPath (nth_token 1 (text.take rpos))))
        [] [] (getlines (split_header_body text (rpos + 2)).1)).SetContent
        (split_header_body text (rpos + 2)).2 := by
  cases hf : find text "\r\n".toList 0 with
  | none =>
    rw [string_to_request_no_crlf text hf] at h
    cases h
  | some rpos =>
    rw [string_to_request_tokens text rpos hf] at h
    cases hm : string_to_method (nth_token 0 (text.take rpos)) with
    | error e =>
      rw [hm] at h
      cases h
    | ok m =>
      rw [hm] at h
      cases hv : string_to_version (nth_token 2 (text.take rpos)) with
      | error e =>
        rw [hv] at h
        cases h
      | ok v =>
        rw [hv] at h
        simp only [] at h
        split_ifs at h with hne
        have hv1 : v = .HTTP_1_1 := not_not.1 hne
        subst hv1
        exact ⟨rpos, m, rfl, hm, hv, (Except.ok.inj h).symm⟩

/-- C27: in every request that `string_to_request` returns, the header
Content-Length is the length, in decimal, of the content, which is the body
that was parsed: `SetContent` runs after the header lines are stored, so it
overrides a Content-Length that the text carries. -/
theorem string_to_request_content_length (text : Str) (r : HttpRequest)
    (h : string_to_request text = .ok r) :
    r.header "Content-Length".toList = decimal r.content.length ∧
    r.content_length = r.content.length ∧
    (∃ rpos, find text "\r\n".toList 0 = some rpos ∧
      r.content = (split_header_body text (rpos + 2)).2) ∧
    (string_to_request "POST / HTTP/1.1\r\nContent-Length: 999\r\n\r\nabc".toList).toOption.map
      (fun q => (q.header "Content-Length".toList, q.content)) =
      some ("3".toList, "abc".toList) := by
  obtain ⟨rpos, m, hf, _, _, hr⟩ := string_to_request_ok text r h
  subst hr
  refine ⟨?_, rfl, ⟨rpos, hf, rfl⟩, by decide⟩
  rw [request_SetContent_header, if_pos rfl]
  rfl

theorem string_to_request_content_length_witness :
    string_to_request "POST / HTTP/1.1\r\nContent-Length: 999\r\n\r\nabc".toList =
      .ok ((((HttpRequest.default.SetMethod .POST).SetUri (Uri.ofPath "/".toList)).SetHeader
        "Content-Length".toList "999".toList).SetContent "abc".toList) ∧
    ((((HttpRequest.default.SetMethod .POST).SetUri (Uri.ofPath "/".toList)).SetHeader
        "Content-Length".toList "999".toList).SetContent "abc".toList).header
        "Content-Length".toList = "3".toList :=
  ⟨by decide,
    ((string_to_request_content_length
      "POST / HTTP/1.1\r\nContent-Length: 999\r\n\r\nabc".toList _ (by decide)).1).trans
      (by decide)⟩

theorem no_space_filter (s : Str) : no_space (s.filter (fun c => !isspace c)) := by
  intro c hc
  have := (List.mem_filter.1 hc).2
  simpa using this

theorem digitChar_no_space (d : Nat) (h : d < 10) : isspace (Nat.digitChar d) = false := by
  interval_cases d <;> decide

theorem toDigitsCore_no_space (fuel n : Nat) (ds : List Char) (h : no_space ds) :
    no_space (Nat.toDigitsCore 10 fuel n ds) := by
  induction fuel generalizing n ds with
  | zero => exact h
  | succ fuel ih =>
    have hd : no_space (Nat.digitChar (n % 10) :: ds) := by
      intro c hc
      rcases List.mem_cons.1 hc with rfl | hc
      · exact digitChar_no_space _ (Nat.mod_lt _ (by decide))
      · exact h c hc
    simp only [Nat.toDigitsCore]
    split_ifs
    · exact hd
    · exact ih _ _ hd

theorem decimal_no_space (n : Nat) : no_space (decimal n) :=
  toDigitsCore_no_space _ _ _ (fun _ hc => by cases hc)

theorem mem_map_assign_key {κ ν : Type} {lt : κ → κ → Bool} (k : κ) (v : ν)
    (m : List (κ × ν)) :
    ∀ e ∈ map_assign lt k v m, e ∈ m ∨ (e.2 = v ∧ (e.1 = k ∨ ∃ e' ∈ m, e'.1 = e.1)) := by
  induction m with
  | nil =>
    intro e he
    simp only [map_assign, List.mem_singleton] at he
    subst he
    exact Or.inr ⟨rfl, Or.inl rfl⟩
  | cons a rest ih =>
    obtain ⟨k', v'⟩ := a
    simp only [map_assign]
    intro e he
    split_ifs at he with h1 h2
    · rcases List.mem_cons.1 he with rfl | he
      · exact Or.inr ⟨rfl, Or.inl rfl⟩
      · exact Or.inl he
    · rcases List.mem_cons.1 he with rfl | he
      · exact Or.inl (List.mem_cons_self _ _)
      · rcases ih e he with he | ⟨hv, hk | ⟨e', he', hk⟩⟩
        · exact Or.inl (List.mem_cons_of_mem _ he)
        · exact Or.inr ⟨hv, Or.inl hk⟩
        · exact Or.inr ⟨hv, Or.inr ⟨e', List.mem_cons_of_mem _ he', hk⟩⟩
    · rcases List.mem_cons.1 he with rfl | he
      · exact Or.inr ⟨rfl, Or.inr ⟨(k', v'), List.mem_cons_self _ _, rfl⟩⟩
      · exact Or.inl (List.mem_cons_of_mem _ he)

/-- Every header key and value is free of white space. -/
theorem headers_no_space_assign (m : List (Str × Str)) (k v : Str)
    (hm : ∀ e ∈ m, no_space e.1 ∧ no_space e.2) (hk : no_space k) (hv : no_space v) :
    ∀ e ∈ map_assign str_lt k v m, no_space e.1 ∧ no_space e.2 := by
  intro e he
  rcases mem_map_assign_key k v m e he with he | ⟨hev, hek | ⟨e', he', hek⟩⟩
  · exact hm e he
  · exact ⟨by rw [hek]; exact hk, by rw [hev]; exact hv⟩
  · exact ⟨by rw [← hek]; exact (hm e' he').1, by rw [hev]; exact hv⟩

theorem parse_header_lines_no_space (lines : List Str) (request : HttpRequest)
    (key value : Str) (hm : ∀ e ∈ request.headers_, no_space e.1 ∧ no_space e.2) :
    ∀ e ∈ (parse_header_lines request key value lines).headers_,
      no_space e.1 ∧ no_space e.2 := by
  induction lines generalizing request key value with
  | nil => exact hm
  | cons line lines ih =>
    simp only [parse_header_lines, parse_header_line]
    apply ih
    exact headers_no_space_assign _ _ _ hm (no_space_filter _) (no_space_filter _)

/-- C26: in every request that `string_to_request` returns, no header key and
no header value holds a white-space character: the parser deletes white space
from both, inside a value as well, so the line `User-Agent: a b` gives the
value `ab`. -/
theorem string_to_request_headers_no_space (text : Str) (r : HttpRequest)
    (h : string_to_request text = .ok r) :
    (∀ e ∈ r.headers, (∀ c ∈ e.1, isspace c = false) ∧ (∀ c ∈ e.2, isspace c = false)) ∧
    (string_to_request "GET / HTTP/1.1\r\nUser-Agent: a b\r\n\r\n".toList).toOption.map
      (fun q => q.header "User-Agent".toList) = some "ab".toList := by
  obtain ⟨rpos, m, _, _, _, hr⟩ := string_to_request_ok text r h
  subst hr
  refine ⟨?_, by decide⟩
  apply headers_no_space_assign
  · apply parse_header_lines_no_space
    intro e he
    cases he
  · intro c hc
    revert c
    decide
  · exact decimal_no_space _

theorem string_to_request_headers_no_space_witness :
    string_to_request "GET / HTTP/1.1\r\nUser-Agent: a b\r\n\r\n".toList =
      .ok ((((HttpRequest.default.SetMethod .GET).SetUri (Uri.ofPath "/".toList)).SetHeader
        "User-Agent".toList "ab".toList).SetContent []) ∧
    ∀ e ∈ ((((HttpRequest.default.SetMethod .GET).SetUri (Uri.ofPath "/".toList)).SetHeader
        "User-Agent".toList "ab".toList).SetContent []).headers,
      (∀ c ∈ e.1, isspace c = false) ∧ (∀ c ∈ e.2, isspace c = false) :=
  ⟨by decide,
    (string_to_request_headers_no_space
      "GET / HTTP/1.1\r\nUser-Agent: a b\r\n\r\n".toList _ (by decide)).1⟩

/-! ## Writable events: would-block and partial writes -/

/-- On a registered descriptor `EPOLL_CTL_ADD` fails, and `control_epoll_event`
throws. -/
theorem control_epoll_event_add_registered (k : Kernel) (fd : Int) (events : Nat)
    (data : Option EventData) (hreg : (k.lookup fd).isSome = true) :
    control_epoll_event k .EPOLL_CTL_ADD fd events data =
      .error (.exception "Failed to add file descriptor".toList) := by
  simp [control_epoll_event, epoll_ctl, hreg]

theorem HandleEpollEvent_write_would_block {σ : Type} (handlers : RequestHandlers σ)
    (behind_request behind_response : Str) (k : Kernel) (response : EventData)
    (recv_result : RecvResult) (w : σ) (hreg : (k.lookup response.fd).isSome = true) :
    HandleEpollEvent handlers behind_request behind_response k response EPOLLOUT
        recv_result .would_block w =
      (.error (.exception "Failed to add file descriptor".toList), k, w) := by
  unfold HandleEpollEvent
  have hne : ¬ (EPOLLOUT = EPOLLIN) := by decide
  simp only [hne, if_false, control_epoll_event_add_registered k _ _ _ hreg]

/-- C24 fails on the code: the descriptor 7 is registered for writing and `send`
reports that it would block; the write branch answers with `EPOLL_CTL_ADD`,
which fails on a registered descriptor, and `HandleEpollEvent` ends with the
`std::runtime_error` of `control_epoll_event`.  The read branch uses
`EPOLL_CTL_MOD` in the same situation and ends normally. -/
theorem write_would_block_throws :
    writing_kernel.lookup 7 =
      some (EPOLLOUT, some (write_response { EventData.default with fd := 7 } []
        (hello_response.to_string true))) ∧
    HandleEpollEvent (register_all (main_registrations Unit) []) [] [] writing_kernel
        (write_response { EventData.default with fd := 7 } [] (hello_response.to_string true))
        EPOLLOUT .would_block .would_block () =
      (.error (.exception "Failed to add file descriptor".toList), writing_kernel, ()) ∧
    HandleEpollEvent (register_all (main_registrations Unit) []) [] []
        { interest := [(7, EPOLLIN, some { EventData.default with fd := 7 })], closed := [] }
        { EventData.default with fd := 7 } EPOLLIN .would_block .would_block () =
      (.ok (),
        { interest := [(7, EPOLLIN, some { EventData.default with fd := 7 })], closed := [] },
        ()) :=
  ⟨rfl, HandleEpollEvent_write_would_block _ _ _ _ _ _ _ rfl, by rfl⟩

theorem HandleEpollEvent_write_short {σ : Type} (handlers : RequestHandlers σ)
    (behind_request behind_response : Str) (k : Kernel) (response : EventData)
    (byte_count : Nat) (recv_result : RecvResult) (w : σ)
    (hreg : (k.lookup response.fd).isSome = true)
    (hshort : byte_count < response.length) :
    ∃ k',
      HandleEpollEvent handlers behind_request behind_response k response EPOLLOUT
          recv_result (.sent byte_count) w = (.ok (), k', w) ∧
      k'.lookup response.fd =
        some (EPOLLOUT, some { response with
          cursor := response.cursor + byte_count
          length := response.length - byte_count }) ∧
      (∀ fd', fd' ≠ response.fd → k'.lookup fd' = k.lookup fd') ∧
      k'.closed = k.closed := by
  obtain ⟨k', hk', hl, hothers, hclosed⟩ := control_epoll_event_mod k response.fd EPOLLOUT
    (some { response with
      cursor := response.cursor + byte_count
      length := response.length - byte_count }) hreg
  refine ⟨k', ?_, hl, hothers, hclosed⟩
  unfold HandleEpollEvent
  have hne : ¬ (EPOLLOUT = EPOLLIN) := by decide
  simp only [hne, if_false, hshort, if_true, hk']

theorem HandleEpollEvent_write_full {σ : Type} (handlers : RequestHandlers σ)
    (behind_request behind_response : Str) (k : Kernel) (response : EventData)
    (byte_count : Nat) (recv_result : RecvResult) (w : σ)
    (hreg : (k.lookup response.fd).isSome = true)
    (hfull : response.length ≤ byte_count) :
    ∃ k',
      HandleEpollEvent handlers behind_request behind_response k response EPOLLOUT
          recv_result (.sent byte_count) w = (.ok (), k', w) ∧
      k'.lookup response.fd =
        some (EPOLLIN, some { EventData.default with fd := response.fd }) ∧
      (∀ fd', fd' ≠ response.fd → k'.lookup fd' = k.lookup fd') ∧
      k'.closed = k.closed := by
  obtain ⟨k', hk', hl, hothers, hclosed⟩ := control_epoll_event_mod k response.fd EPOLLIN
    (some { EventData.default with fd := response.fd }) hreg
  refine ⟨k', ?_, hl, hothers, hclosed⟩
  unfold HandleEpollEvent
  have hne : ¬ (EPOLLOUT = EPOLLIN) := by decide
  have hnlt : ¬ (byte_count < response.length) := by omega
  simp only [hne, if_false, hnlt, hk']

theorem send_window_step (behind_buffer : Str) (response : EventData) (n s : Nat)
    (h : n + s ≤ response.length) :
    sent_bytes behind_buffer response n ++
        (send_window behind_buffer { response with
          cursor := response.cursor + n
          length := response.length - n }).take s =
      (send_window behind_buffer response).take (n + s) := by
  simp only [sent_bytes, send_window, List.take_take]
  rw [Nat.min_eq_left (by omega), Nat.min_eq_left (by omega), Nat.min_eq_left (by omega),
    List.take_add, ← List.drop_drop]

/-- When the memory from `buffer + cursor` on holds `length` bytes, `send` is
given that many, and a call that returns `n` has taken `n` bytes. -/
theorem sent_bytes_length (behind_buffer : Str) (response : EventData) (n : Nat)
    (haddr : response.cursor + response.length ≤
      response.buffer.length + behind_buffer.length)
    (hn : n ≤ response.length) :
    (send_window behind_buffer response).length = response.length ∧
    (sent_bytes behind_buffer response n).length = n := by
  have hw : (send_window behind_buffer response).length = response.length := by
    simp only [send_window, List.length_take, List.length_drop, List.length_append]
    omega
  refine ⟨hw, ?_⟩
  simp only [sent_bytes, List.length_take, hw]
  omega

/-- Inside the array the memory behind it plays no part. -/
theorem send_window_inside (behind_buffer : Str) (response : EventData)
    (h : response.cursor + response.length ≤ response.buffer.length) :
    send_window behind_buffer response =
      (response.buffer.drop response.cursor).take response.length := by
  unfold send_window
  rw [List.drop_append_of_le_length (by omega), List.take_append_of_le_length]
  rw [List.length_drop]
  omega

/-- A run of partial writes: the chunks taken are the first bytes of the
window, each as long as `send` returned, and the context is still registered
for writing, advanced by their number. -/
theorem writable_events_short {σ : Type} (handlers : RequestHandlers σ)
    (behind_request behind_response behind_buffer : Str) (counts : List Nat) :
    ∀ (k : Kernel) (response : EventData) (w : σ),
      k.lookup response.fd = some (EPOLLOUT, some response) →
      counts.sum < response.length →
      (writable_events handlers behind_request behind_response behind_buffer response.fd
        counts k w).1.flatten = (send_window behind_buffer response).take counts.sum ∧
      (writable_events handlers behind_request behind_response behind_buffer response.fd
        counts k w).2.1.lookup response.fd =
        some (EPOLLOUT, some { response with
          cursor := response.cursor + counts.sum
          length := response.length - counts.sum }) ∧
      (writable_events handlers behind_request behind_response behind_buffer response.fd
        counts k w).2.1.closed = k.closed ∧
      (writable_events handlers behind_request behind_response behind_buffer response.fd
        counts k w).2.2 = w ∧
      (response.cursor + response.length ≤ response.buffer.length + behind_buffer.length →
        (writable_events handlers behind_request behind_response behind_buffer response.fd
          counts k w).1.map List.length = counts) := by
  induction counts with
  | nil =>
    intro k response w hl _
    refine ⟨by simp [writable_events], ?_, rfl, rfl, fun _ => rfl⟩
    simpa [writable_events] using hl
  | cons n rest ih =>
    intro k response w hl hsum
    rw [List.sum_cons] at hsum
    obtain ⟨k', hstep, hl', _, hclosed⟩ := HandleEpollEvent_write_short handlers
      behind_request behind_response k response n .would_block w (by rw [hl]; rfl)
      (by omega)
    obtain ⟨h1, h2, h3, h4, h5⟩ := ih k' { response with
      cursor := response.cursor + n
      length := response.length - n } w hl' (by show rest.sum < response.length - n; omega)
    simp only [writable_events, hl, hstep]
    refine ⟨?_, ?_, ?_, ?_, ?_⟩
    · rw [List.flatten_cons, List.sum_cons]
      show sent_bytes behind_buffer response n ++ _ = _
      rw [h1]
      exact send_window_step behind_buffer response n rest.sum (by omega)
    · show (writable_events handlers behind_request behind_response behind_buffer
        response.fd rest k' w).2.1.lookup response.fd = _
      rw [h2, List.sum_cons]
      simp only [Nat.add_assoc, Nat.sub_sub]
    · show (writable_events handlers behind_request behind_response behind_buffer
        response.fd rest k' w).2.1.closed = _
      rw [h3, hclosed]
    · exact h4
    · intro haddr
      rw [List.map_cons]
      show (sent_bytes behind_buffer response n).length ::
        (writable_events handlers behind_request behind_response behind_buffer
          response.fd rest k' w).1.map List.length = _
      rw [(sent_bytes_length behind_buffer response n haddr (by omega)).2]
      congr 1
      apply h5
      show response.cursor + n + (response.length - n) ≤
        response.buffer.length + behind_buffer.length
      omega

/-- A run of partial writes followed by the write that takes what is left: the
chunks taken are the window of the first context, in order, and the
connection is back on a fresh read context. -/
theorem writable_events_complete {σ : Type} (handlers : RequestHandlers σ)
    (behind_request behind_response behind_buffer : Str) (counts : List Nat) :
    ∀ (k : Kernel) (response : EventData) (w : σ),
      k.lookup response.fd = some (EPOLLOUT, some response) →
      counts.sum < response.length →
      (writable_events handlers behind_request behind_response behind_buffer response.fd
        (counts ++ [response.length - counts.sum]) k w).1.flatten =
        send_window behind_buffer response ∧
      (writable_events handlers behind_request behind_response behind_buffer response.fd
        (counts ++ [response.length - counts.sum]) k w).2.1.lookup response.fd =
        some (EPOLLIN, some { EventData.default with fd := response.fd }) := by
  induction counts with
  | nil =>
    intro k response w hl _
    obtain ⟨k', hstep, hl', _, _⟩ := HandleEpollEvent_write_full handlers
      behind_request behind_response k response (response.length - 0) .would_block w
      (by rw [hl]; rfl) (by omega)
    simp only [List.sum_nil, List.nil_append, writable_events, hl, hstep]
    refine ⟨?_, hl'⟩
    simp only [List.flatten_cons, List.flatten_nil, List.append_nil, sent_bytes]
    apply List.take_of_length_le
    simp only [send_window, List.length_take]
    omega
  | cons n rest ih =>
    intro k response w hl hsum
    rw [List.sum_cons] at hsum
    obtain ⟨k', hstep, hl', _, _⟩ := HandleEpollEvent_write_short handlers
      behind_request behind_response k response n .would_block w (by rw [hl]; rfl)
      (by omega)
    obtain ⟨h1, h2⟩ := ih k' { response with
      cursor := response.cursor + n
      length := response.length - n } w hl' (by show rest.sum < response.length - n; omega)
    have hlast : response.length - (n :: rest).sum = response.length - n - rest.sum := by
      rw [List.sum_cons, Nat.sub_sub]
    have h1' : (writable_events handlers behind_request behind_response behind_buffer
        response.fd (rest ++ [response.length - n - rest.sum]) k' w).1.flatten =
        send_window behind_buffer { response with
          cursor := response.cursor + n
          length := response.length - n } := h1
    have h2' : (writable_events handlers behind_request behind_response behind_buffer
        response.fd (rest ++ [response.length - n - rest.sum]) k' w).2.1.lookup response.fd =
        some (EPOLLIN, some { EventData.default with fd := response.fd }) := h2
    rw [hlast]
    simp only [List.cons_append, writable_events, hl, hstep]
    refine ⟨?_, h2'⟩
    rw [List.flatten_cons]
    show sent_bytes behind_buffer response n ++ (writable_events handlers behind_request
      behind_response behind_buffer response.fd (rest ++ [response.length - n - rest.sum])
      k' w).1.flatten = _
    rw [h1']
    have hstep2 := send_window_step behind_buffer response n (response.length - n) (by omega)
    rw [List.take_of_length_le (by simp only [send_window, List.length_take]; omega),
      List.take_of_length_le (by simp only [send_window, List.length_take]; omega)] at hstep2
    exact hstep2

/-- C23: a `send` that takes `byte_count` bytes, fewer than are left, of a
registered write context leaves that context registered for `EPOLLOUT` with
the cursor advanced and the length reduced by `byte_count`, the buffer and the
descriptor as they were; so `cursor + length` is the same after any run of
partial writes.  `send` is given `length` bytes of memory from
`buffer + cursor` on, be they inside the array or behind it: each call that
returns a count has taken that many bytes, and the bytes taken over a run of
partial writes and the write that ends it are, in order, the `length` bytes
from `buffer + cursor` of the first context; they are `buffer[0 .. length)`
when the cursor is 0 and the length within the array. -/
theorem HandleEpollEvent_partial_write_accounting {σ : Type} (handlers : RequestHandlers σ)
    (behind_request behind_response behind_buffer : Str) (k : Kernel) (response : EventData)
    (byte_count : Nat) (recv_result : RecvResult) (w : σ)
    (hreg : (k.lookup response.fd).isSome = true)
    (hshort : byte_count < response.length) :
    (∃ k',
      HandleEpollEvent handlers behind_request behind_response k response EPOLLOUT
          recv_result (.sent byte_count) w = (.ok (), k', w) ∧
      k'.lookup response.fd =
        some (EPOLLOUT, some { response with
          cursor := response.cursor + byte_count
          length := response.length - byte_count }) ∧
      (∀ fd', fd' ≠ response.fd → k'.lookup fd' = k.lookup fd') ∧
      k'.closed = k.closed) ∧
    ({ response with
        cursor := response.cursor + byte_count
        length := response.length - byte_count } : EventData).buffer = response.buffer ∧
    ({ response with
        cursor := response.cursor + byte_count
        length := response.length - byte_count } : EventData).fd = response.fd ∧
    (response.cursor + byte_count) + (response.length - byte_count) =
      response.cursor + response.length ∧
    (∀ (counts : List Nat) (k0 : Kernel) (w0 : σ),
      k0.lookup response.fd = some (EPOLLOUT, some response) →
      counts.sum < response.length →
      response.cursor + response.length ≤ response.buffer.length + behind_buffer.length →
      (writable_events handlers behind_request behind_response behind_buffer response.fd
        counts k0 w0).2.1.lookup response.fd =
        some (EPOLLOUT, some { response with
          cursor := response.cursor + counts.sum
          length := response.length - counts.sum }) ∧
      (response.cursor + counts.sum) + (response.length - counts.sum) =
        response.cursor + response.length ∧
      (writable_events handlers behind_request behind_response behind_buffer response.fd
        counts k0 w0).1.map List.length = counts ∧
      (writable_events handlers behind_request behind_response behind_buffer response.fd
        counts k0 w0).1.flatten = (send_window behind_buffer response).take counts.sum ∧
      (writable_events handlers behind_request behind_response behind_buffer response.fd
        (counts ++ [response.length - counts.sum]) k0 w0).1.flatten =
        send_window behind_buffer response ∧
      send_window behind_buffer response =
        ((response.buffer ++ behind_buffer).drop response.cursor).take response.length ∧
      (send_window behind_buffer response).length = response.length ∧
      (response.cursor = 0 → response.length ≤ response.buffer.length →
        send_window behind_buffer response = response.buffer.take response.length)) := by
  refine ⟨HandleEpollEvent_write_short handlers behind_request behind_response k response
    byte_count recv_result w hreg hshort, rfl, rfl, by omega, ?_⟩
  intro counts k0 w0 hl hsum haddr
  obtain ⟨h1, h2, _, _, h5⟩ := writable_events_short handlers behind_request behind_response
    behind_buffer counts k0 response w0 hl hsum
  refine ⟨h2, by omega, h5 haddr, h1,
    (writable_events_complete handlers behind_request behind_response behind_buffer counts k0
      response w0 hl hsum).1, rfl,
    (sent_bytes_length behind_buffer response 0 haddr (Nat.zero_le _)).1, ?_⟩
  intro hc hle
  rw [send_window_inside behind_buffer response (by omega), hc, List.drop_zero]

theorem HandleEpollEvent_partial_write_accounting_witness :
    (writing_kernel.lookup (write_response { EventData.default with fd := 7 } []
      (hello_response.to_string true)).fd).isSome = true ∧
    10 < (write_response { EventData.default with fd := 7 } []
      (hello_response.to_string true)).length ∧
    (∃ k' : Kernel,
      HandleEpollEvent (register_all (main_registrations Unit) []) [] [] writing_kernel
          (write_response { EventData.default with fd := 7 } []
            (hello_response.to_string true))
          EPOLLOUT .would_block (.sent 10) () = (.ok (), k', ()) ∧
      k'.closed = []) ∧
    (writable_events (register_all (main_registrations Unit) []) [] [] [] 7
      [10, 20] writing_kernel ()).1.map List.length = [10, 20] :=
  have h := HandleEpollEvent_partial_write_accounting
    (register_all (main_registrations Unit) []) [] [] [] writing_kernel
    (write_response { EventData.default with fd := 7 } [] (hello_response.to_string true))
    10 .would_block () rfl (by decide)
  ⟨rfl, by decide,
    match h.1 with
    | ⟨k', hk, _, _, hc⟩ => ⟨k', hk, hc⟩,
    (h.2.2.2.2 [10, 20] writing_kernel () rfl (by decide)
      (by rw [write_response_buffer_length]; decide)).2.2.1⟩

/-! ## `Listen`: round-robin distribution -/

/-- On a descriptor that is not registered `EPOLL_CTL_ADD` succeeds: it
registers this descriptor and touches nothing else. -/
theorem control_epoll_event_add (k : Kernel) (fd : Int) (events : Nat)
    (data : Option EventData) (hfree : k.lookup fd = none) :
    ∃ k', control_epoll_event k .EPOLL_CTL_ADD fd events data = .ok k' ∧
      k'.lookup fd = some (events, data) ∧
      (∀ fd', fd' ≠ fd → k'.lookup fd' = k.lookup fd') ∧
      k'.closed = k.closed := by
  refine ⟨{ k with interest := (fd, events, data) :: k.interest }, ?_, ?_, ?_, rfl⟩
  · simp [control_epoll_event, epoll_ctl, hfree]
  · simp [Kernel.lookup, List.lookup_cons]
  · intro fd' hne
    have hb : (fd' == fd) = false := by simpa using hne
    simp [Kernel.lookup, List.lookup_cons, hb]

theorem accepted_append (pre post : List ListenEvent) :
    accepted (pre ++ post) = accepted pre ++ accepted post := by
  induction pre with
  | nil => rfl
  | cons e pre ih =>
    cases e with
    | accept4 client_fd =>
      by_cases h : client_fd < 0
      · simp only [List.cons_append, accepted, h, if_true]
        exact ih
      · simp only [List.cons_append, accepted, h, if_false]
        exact congrArg (List.cons client_fd) ih
    | worker worker_id k =>
      simp only [List.cons_append, accepted]
      exact ih

/-- One turn of `Listen` in which `accept4` fails: only `active` changes. -/
theorem Listen_turn_failed (s : ListenState) (client_fd : Int) (h : client_fd < 0) :
    Listen_turn s client_fd = (.ok (), { s with active := false }) := by
  simp only [Listen_turn, h, if_true]

/-- One turn of `Listen` in which `accept4` returns a descriptor that is not in
the interest list of the current worker: the descriptor is registered there,
for reading and with a fresh context, and the cursor moves on. -/
theorem Listen_turn_accepted (s : ListenState) (client_fd : Int) (h : ¬ client_fd < 0)
    (hfree : (s.worker_epoll_fd_ s.current_worker).lookup client_fd = none)
    (hcw : s.current_worker < kThreadPoolSize) :
    ∃ s',
      Listen_turn s client_fd = (.ok (), s') ∧
      s'.current_worker = (s.current_worker + 1) % kThreadPoolSize ∧
      (s'.worker_epoll_fd_ s.current_worker).lookup client_fd =
        some (EPOLLIN, some { EventData.default with fd := client_fd }) ∧
      (∀ fd', fd' ≠ client_fd →
        (s'.worker_epoll_fd_ s.current_worker).lookup fd' =
          (s.worker_epoll_fd_ s.current_worker).lookup fd') ∧
      (s'.worker_epoll_fd_ s.current_worker).closed =
        (s.worker_epoll_fd_ s.current_worker).closed ∧
      (∀ j, j ≠ s.current_worker → s'.worker_epoll_fd_ j = s.worker_epoll_fd_ j) := by
  obtain ⟨k', hk', hl, hothers, hclosed⟩ := control_epoll_event_add
    (s.worker_epoll_fd_ s.current_worker) client_fd EPOLLIN
    (some { EventData.default with fd := client_fd }) hfree
  have hk5 : kThreadPoolSize = 5 := rfl
  refine ⟨{ worker_epoll_fd_ := Function.update s.worker_epoll_fd_ s.current_worker k'
            current_worker := if s.current_worker + 1 = kThreadPoolSize then 0
              else s.current_worker + 1
            active := true }, ?_, ?_, ?_, ?_, ?_, ?_⟩
  · simp only [Listen_turn, h, if_false, hk']
  · show (if s.current_worker + 1 = kThreadPoolSize then 0 else s.current_worker + 1) = _
    split_ifs with h5
    · rw [h5, Nat.mod_self]
    · rw [Nat.mod_eq_of_lt (by omega)]
  · show (Function.update s.worker_epoll_fd_ s.current_worker k' s.current_worker).lookup
      client_fd = _
    rw [Function.update_same]
    exact hl
  · intro fd' hne
    show (Function.update s.worker_epoll_fd_ s.current_worker k' s.current_worker).lookup
      fd' = _
    rw [Function.update_same]
    exact hothers fd' hne
  · show (Function.update s.worker_epoll_fd_ s.current_worker k' s.current_worker).closed = _
    rw [Function.update_same]
    exact hclosed
  · intro j hj
    show Function.update s.worker_epoll_fd_ s.current_worker k' j = _
    rw [Function.update_noteq hj]

/-- The loop of `Listen` over the first events of a run: it reaches their end
without exception, with the cursor advanced by the number of connections
accepted, and goes on from there. -/
theorem Listen_loop_prefix (pre : List ListenEvent) :
    ∀ (post : List ListenEvent) (s : ListenState),
      s.current_worker < kThreadPoolSize →
      accept4_fresh (pre ++ post) s →
      ∃ s0,
        Listen_loop pre s = (.ok (), s0) ∧
        s0.current_worker = (s.current_worker + (accepted pre).length) % kThreadPoolSize ∧
        accept4_fresh post s0 ∧
        ∀ rest, Listen_loop (pre ++ rest) s = Listen_loop rest s0 := by
  induction pre with
  | nil =>
    intro post s hcw hfresh
    exact ⟨s, rfl, by simp [accepted, Nat.mod_eq_of_lt hcw], hfresh, fun _ => rfl⟩
  | cons e pre ih =>
    intro post s hcw hfresh
    cases e with
    | accept4 client_fd =>
      obtain ⟨hnew, hrest⟩ := hfresh
      by_cases h : client_fd < 0
      · rw [Listen_turn_failed s client_fd h] at hrest
        obtain ⟨s0, h0, hcur, hpost, hgo⟩ := ih post { s with active := false } hcw hrest
        refine ⟨s0, ?_, ?_, hpost, ?_⟩
        · simp only [Listen_loop, Listen_turn_failed s client_fd h]
          exact h0
        · simp only [accepted, h, if_true]
          exact hcur
        · intro rest
          simp only [List.cons_append, Listen_loop, Listen_turn_failed s client_fd h]
          exact hgo rest
      · obtain ⟨s1, h1, hcur1, _⟩ := Listen_turn_accepted s client_fd h
          (hnew (by omega) s.current_worker) hcw
        rw [h1] at hrest
        obtain ⟨s0, h0, hcur, hpost, hgo⟩ := ih post s1
          (by rw [hcur1]; exact Nat.mod_lt _ (by decide)) hrest
        refine ⟨s0, ?_, ?_, hpost, ?_⟩
        · simp only [Listen_loop, h1]
          exact h0
        · simp only [accepted, h, if_false, List.length_cons]
          rw [hcur, hcur1, Nat.mod_add_mod]
          congr 1
          omega
        · intro rest
          simp only [List.cons_append, Listen_loop, h1]
          exact hgo rest
    | worker worker_id k =>
      obtain ⟨s0, h0, hcur, hpost, hgo⟩ := ih post
        { s with worker_epoll_fd_ := Function.update s.worker_epoll_fd_ worker_id k } hcw
        hfresh
      refine ⟨s0, ?_, ?_, hpost, ?_⟩
      · simp only [Listen_loop]
        exact h0
      · simp only [accepted]
        exact hcur
      · intro rest
        simp only [List.cons_append, Listen_loop]
        exact hgo rest

/-- C22: `Listen` hands the accepted connections to the workers in turn, while
the workers run, register and close descriptors at the same time.  Given that
`accept4` returns descriptors that are new when it returns them, `Listen`
ends without exception with `current_worker` the number of accepted
connections modulo 5; and at every attempt of `accept4` that `i` accepted
connections precede, `current_worker` is `i mod 5`: an attempt that fails
leaves the cursor and the epoll instances as they are, and an accepted
descriptor, the connection number `i` counted from 0, is registered with the
worker `i mod 5` for `EPOLLIN` with a fresh read context, the other
registrations of that worker and the other workers left as they are, and
the cursor moves to `(i + 1) mod 5`. -/
theorem Listen_round_robin (worker_epoll_fd_ : Nat → Kernel) (events : List ListenEvent)
    (hfresh : accept4_fresh events
      { worker_epoll_fd_ := worker_epoll_fd_, current_worker := 0, active := true }) :
    kThreadPoolSize = 5 ∧
    (∃ s',
      Listen worker_epoll_fd_ events = (.ok (), s') ∧
      s'.current_worker = (accepted events).length % kThreadPoolSize) ∧
    (∀ (pre post : List ListenEvent) (client_fd : Int),
      events = pre ++ .accept4 client_fd :: post →
      ∃ s0,
        Listen worker_epoll_fd_ pre = (.ok (), s0) ∧
        s0.current_worker = (accepted pre).length % kThreadPoolSize ∧
        (client_fd < 0 →
          ∃ s1,
            Listen worker_epoll_fd_ (pre ++ [.accept4 client_fd]) = (.ok (), s1) ∧
            s1.current_worker = s0.current_worker ∧
            s1.worker_epoll_fd_ = s0.worker_epoll_fd_) ∧
        (0 ≤ client_fd →
          (accepted (pre ++ [.accept4 client_fd]))[(accepted pre).length]? = some client_fd ∧
          ∃ s1,
            Listen worker_epoll_fd_ (pre ++ [.accept4 client_fd]) = (.ok (), s1) ∧
            (s1.worker_epoll_fd_ ((accepted pre).length % kThreadPoolSize)).lookup client_fd =
              some (EPOLLIN, some { EventData.default with fd := client_fd }) ∧
            ({ EventData.default with fd := client_fd } : EventData).buffer =
              List.replicate kMaxBufferSize NUL ∧
            ({ EventData.default with fd := client_fd } : EventData).cursor = 0 ∧
            ({ EventData.default with fd := client_fd } : EventData).length = 0 ∧
            (∀ fd', fd' ≠ client_fd →
              (s1.worker_epoll_fd_ ((accepted pre).length % kThreadPoolSize)).lookup fd' =
                (s0.worker_epoll_fd_ ((accepted pre).length % kThreadPoolSize)).lookup fd') ∧
            (∀ j, j ≠ (accepted pre).length % kThreadPoolSize →
              s1.worker_epoll_fd_ j = s0.worker_epoll_fd_ j ∧
              (s1.worker_epoll_fd_ j).lookup client_fd = none) ∧
            s1.current_worker = ((accepted pre).length + 1) % kThreadPoolSize)) := by
  have h0lt : (0 : Nat) < kThreadPoolSize := by decide
  refine ⟨rfl, ?_, ?_⟩
  · obtain ⟨s', hs', hcur, _, _⟩ := Listen_loop_prefix events []
      { worker_epoll_fd_ := worker_epoll_fd_, current_worker := 0, active := true } h0lt
      (by rw [List.append_nil]; exact hfresh)
    refine ⟨s', hs', ?_⟩
    rw [hcur]
    show (0 + (accepted events).length) % kThreadPoolSize = _
    rw [Nat.zero_add]
  · intro pre post client_fd hev
    subst hev
    obtain ⟨s0, hs0, hcur, hpost, hgo⟩ := Listen_loop_prefix pre (.accept4 client_fd :: post)
      { worker_epoll_fd_ := worker_epoll_fd_, current_worker := 0, active := true } h0lt
      hfresh
    have hcur0 : s0.current_worker = (accepted pre).length % kThreadPoolSize := by
      rw [hcur]
      show (0 + (accepted pre).length) % kThreadPoolSize = _
      rw [Nat.zero_add]
    obtain ⟨hnew, _⟩ := hpost
    refine ⟨s0, hs0, hcur0, ?_, ?_⟩
    · intro hneg
      refine ⟨{ s0 with active := false }, ?_, rfl, rfl⟩
      show Listen_loop (pre ++ [.accept4 client_fd]) _ = _
      rw [hgo]
      simp only [Listen_loop, Listen_turn_failed s0 client_fd hneg]
    · intro hpos
      have hnn : ¬ client_fd < 0 := by omega
      obtain ⟨s1, h1, hcur1, hl, hothers, _, hworkers⟩ := Listen_turn_accepted s0 client_fd
        hnn (hnew hpos s0.current_worker)
        (by rw [hcur0]; exact Nat.mod_lt _ h0lt)
      rw [hcur0] at hl hothers hworkers hcur1
      refine ⟨?_, s1, ?_, hl, rfl, rfl, rfl, hothers, ?_, ?_⟩
      · rw [accepted_append]
        simp only [accepted, hnn, if_false]
        rw [List.getElem?_append_right (Nat.le_refl _), Nat.sub_self]
        rfl
      · show Listen_loop (pre ++ [.accept4 client_fd]) _ = _
        rw [hgo]
        simp only [Listen_loop, h1]
      · intro j hj
        refine ⟨hworkers j hj, ?_⟩
        rw [hworkers j hj]
        exact hnew hpos j
      · rw [hcur1, Nat.mod_add_mod]

theorem Listen_round_robin_witness :
    accept4_fresh
      [.accept4 10, .accept4 (-1), .accept4 11, .accept4 12, .accept4 13, .accept4 14,
        .worker 0 ((fresh_workers 0).close 10), .accept4 10]
      { worker_epoll_fd_ := fresh_workers, current_worker := 0, active := true } ∧
    ∃ s' : ListenState,
      Listen fresh_workers
        [.accept4 10, .accept4 (-1), .accept4 11, .accept4 12, .accept4 13, .accept4 14,
          .worker 0 ((fresh_workers 0).close 10), .accept4 10] = (.ok (), s') ∧
      (s'.worker_epoll_fd_ 0).lookup 10 =
        some (EPOLLIN, some { EventData.default with fd := 10 }) ∧
      s'.current_worker = 1 :=
  have hfresh : accept4_fresh
      [.accept4 10, .accept4 (-1), .accept4 11, .accept4 12, .accept4 13, .accept4 14,
        .worker 0 ((fresh_workers 0).close 10), .accept4 10]
      { worker_epoll_fd_ := fresh_workers, current_worker := 0, active := true } := by
    simp [accept4_fresh, Listen_turn, control_epoll_event, epoll_ctl, Kernel.lookup,
      Kernel.close, fresh_workers, Function.update_apply, kThreadPoolSize]
    repeat' apply And.intro
    all_goals
      intro j a e d
      split_ifs <;> simp <;> omega
  ⟨hfresh,
    match (Listen_round_robin fresh_workers _ hfresh).2.2
      [.accept4 10, .accept4 (-1), .accept4 11, .accept4 12, .accept4 13, .accept4 14,
        .worker 0 ((fresh_workers 0).close 10)] [] 10 rfl with
    | ⟨_, _, _, _, haccepted⟩ =>
      match haccepted (by decide) with
      | ⟨_, s1, hs, hl, _, _, _, _, _, hcur⟩ => ⟨s1, hs, hl, hcur.trans (by decide)⟩⟩

/-! ## The request round trip: finding the lines -/

theorem find_at_skip (needle : Str) (c0 : Char) (pre s : Str) (i : Nat) (h : c0 ∉ pre) :
    find_at (c0 :: needle) (pre ++ s) i = find_at (c0 :: needle) s (i + pre.length) := by
  induction pre generalizing i with
  | nil => rfl
  | cons x pre ih =>
    have hx : (c0 == x) = false := by
      have : c0 ≠ x := fun hc => h (hc ▸ List.mem_cons_self _ _)
      simpa using this
    have hp : (c0 :: needle).isPrefixOf (x :: (pre ++ s)) = false := by
      simp [List.isPrefixOf, hx]
    show (if (c0 :: needle).isPrefixOf (x :: (pre ++ s)) = true then some i
      else find_at (c0 :: needle) (pre ++ s) (i + 1)) = _
    rw [hp, if_neg (by simp), ih (i + 1) (fun hc => h (List.mem_cons_of_mem _ hc))]
    rw [List.length_cons]
    congr 1
    omega

theorem find_at_here (c0 : Char) (needle post : Str) (i : Nat) :
    find_at (c0 :: needle) ((c0 :: needle) ++ post) i = some i := by
  have hp : (c0 :: needle).isPrefixOf (c0 :: (needle ++ post)) = true :=
    List.isPrefixOf_iff_prefix.2 (List.prefix_append (c0 :: needle) post)
  show (if (c0 :: needle).isPrefixOf (c0 :: (needle ++ post)) = true then some i
    else find_at (c0 :: needle) (needle ++ post) (i + 1)) = _
  rw [if_pos hp]

/-- The first CRLF of a text that starts with a line without `\r`. -/
theorem find_crlf_first (line post : Str) (h : '\r' ∉ line) :
    find (line ++ "\r\n".toList ++ post) "\r\n".toList 0 = some line.length := by
  unfold find
  rw [if_neg (by omega), List.drop_zero, List.append_assoc,
    show "\r\n".toList = '\r' :: ['\n'] from rfl, find_at_skip _ _ _ _ _ h, find_at_here,
    Nat.zero_add]

theorem no_space_not_mem (s : Str) (c : Char) (hs : no_space s) (hc : isspace c = true) :
    c ∉ s := by
  intro hmem
  rw [hs c hmem] at hc
  cases hc

theorem first_token_append (tok rest : Str) (c : Char) (hne : tok ≠ []) (hs : no_space tok)
    (hc : isspace c = true) :
    first_token (tok ++ c :: rest) = tok ∧ skip_token (tok ++ c :: rest) = c :: rest := by
  obtain ⟨x, xs, rfl⟩ := List.exists_cons_of_ne_nil hne
  have hx : isspace x = false := hs x (List.mem_cons_self _ _)
  have hd : List.dropWhile isspace ((x :: xs) ++ c :: rest) = (x :: xs) ++ c :: rest := by
    simp [List.dropWhile_cons, hx]
  have hall : ∀ a ∈ x :: xs, (fun y => !isspace y) a = true := by
    intro a ha
    simp [hs a ha]
  unfold first_token skip_token
  rw [hd]
  constructor
  · rw [List.takeWhile_append_of_pos hall]
    simp [List.takeWhile_cons, hc]
  · rw [List.dropWhile_append_of_pos hall]
    simp [List.dropWhile_cons, hc]

theorem first_token_last (tok : Str) (hne : tok ≠ []) (hs : no_space tok) :
    first_token tok = tok := by
  obtain ⟨x, xs, rfl⟩ := List.exists_cons_of_ne_nil hne
  have hx : isspace x = false := hs x (List.mem_cons_self _ _)
  have hd : List.dropWhile isspace (x :: xs) = x :: xs := by
    simp [List.dropWhile_cons, hx]
  unfold first_token
  rw [hd, List.takeWhile_eq_self_iff]
  intro a ha
  simp [hs a ha]

theorem first_token_space (c : Char) (s : Str) (hc : isspace c = true) :
    first_token (c :: s) = first_token s ∧ skip_token (c :: s) = skip_token s := by
  unfold first_token skip_token
  simp [List.dropWhile_cons, hc]

/-- The three tokens of an encoded start line. -/
theorem nth_token_start_line (method path version : Str)
    (hm : method ≠ []) (hms : no_space method)
    (hp : path ≠ []) (hps : no_space path)
    (hv : version ≠ []) (hvs : no_space version) :
    nth_token 0 (method ++ ' ' :: (path ++ ' ' :: version)) = method ∧
    nth_token 1 (method ++ ' ' :: (path ++ ' ' :: version)) = path ∧
    nth_token 2 (method ++ ' ' :: (path ++ ' ' :: version)) = version := by
  have hsp : isspace ' ' = true := by decide
  obtain ⟨h1, h2⟩ := first_token_append method (path ++ ' ' :: version) ' ' hm hms hsp
  obtain ⟨h3, h4⟩ := first_token_space ' ' (path ++ ' ' :: version) hsp
  obtain ⟨h5, h6⟩ := first_token_append path version ' ' hp hps hsp
  obtain ⟨h7, h8⟩ := first_token_space ' ' version hsp
  refine ⟨h1, ?_, ?_⟩
  · show first_token (skip_token _) = _
    rw [h2, h3, h5]
  · show first_token (skip_token (skip_token _)) = _
    rw [h2, h4, h6, h7, first_token_last version hv hvs]

theorem header_block_lines (hs : List (Str × Str)) (hne : hs ≠ []) :
    header_block hs = header_lines_text hs ++ "\r\n".toList := by
  induction hs with
  | nil => exact absurd rfl hne
  | cons p rest ih =>
    cases rest with
    | nil => simp [header_block, header_lines_text, header_text]
    | cons q rest =>
      rw [header_block, ih (by simp)]
      simp [header_lines_text, header_text]

theorem header_text_no_line_end (p : Str × Str) (h1 : no_space p.1) (h2 : no_space p.2) :
    '\r' ∉ header_text p ∧ '\n' ∉ header_text p := by
  have hr : isspace '\r' = true := by decide
  have hn : isspace '\n' = true := by decide
  have hr1 := no_space_not_mem _ _ h1 hr
  have hr2 := no_space_not_mem _ _ h2 hr
  have hn1 := no_space_not_mem _ _ h1 hn
  have hn2 := no_space_not_mem _ _ h2 hn
  constructor
  · simp only [header_text, List.mem_append, List.mem_cons, not_or]
    exact ⟨hr1, by decide, by decide, hr2⟩
  · simp only [header_text, List.mem_append, List.mem_cons, not_or]
    exact ⟨hn1, by decide, by decide, hn2⟩

theorem header_text_head (p : Str × Str) (h1 : no_space p.1) :
    ∃ x xs, header_text p = x :: xs ∧ x ≠ '\r' := by
  unfold header_text
  cases hk : p.1 with
  | nil => exact ⟨':', _, rfl, by decide⟩
  | cons x xs =>
    refine ⟨x, _, rfl, ?_⟩
    intro hx
    have := h1 x (by rw [hk]; exact List.mem_cons_self _ _)
    rw [hx] at this
    revert this
    decide

theorem header_lines_text_head (hs : List (Str × Str)) (hne : hs ≠ [])
    (hc : clean_headers hs) : ∃ x xs, header_lines_text hs = x :: xs ∧ x ≠ '\r' := by
  cases hs with
  | nil => exact absurd rfl hne
  | cons p rest =>
    obtain ⟨x, xs, hx, hxr⟩ := header_text_head p (hc p (List.mem_cons_self _ _)).1
    cases rest with
    | nil => exact ⟨x, xs, hx, hxr⟩
    | cons q rest =>
      refine ⟨x, xs ++ '\r' :: '\n' :: header_lines_text (q :: rest), ?_, hxr⟩
      simp only [header_lines_text, hx, List.cons_append]

theorem find_at_line_end (x : Char) (xs : Str) (i : Nat) (hx : x ≠ '\r') :
    find_at "\r\n\r\n".toList ('\r' :: '\n' :: x :: xs) i =
      find_at "\r\n\r\n".toList (x :: xs) (i + 2) := by
  have hb : ('\r' == x) = false := by
    have : '\r' ≠ x := fun hc => hx hc.symm
    simpa using this
  have h1 : "\r\n\r\n".toList.isPrefixOf ('\r' :: '\n' :: x :: xs) = false := by
    show ('\r' :: '\n' :: '\r' :: ['\n']).isPrefixOf ('\r' :: '\n' :: x :: xs) = false
    simp [List.isPrefixOf, hb]
  have h2 : "\r\n\r\n".toList.isPrefixOf ('\n' :: x :: xs) = false := by
    show ('\r' :: '\n' :: '\r' :: ['\n']).isPrefixOf ('\n' :: x :: xs) = false
    simp [List.isPrefixOf]
  rw [find_at, h1, if_neg (by simp), find_at, h2, if_neg (by simp)]

/-- The empty line of an encoded message is found right behind its header
lines. -/
theorem find_at_empty_line (hs : List (Str × Str)) (content : Str) :
    ∀ i, hs ≠ [] → clean_headers hs →
      find_at "\r\n\r\n".toList (header_lines_text hs ++ "\r\n\r\n".toList ++ content) i =
        some (i + (header_lines_text hs).length) := by
  induction hs with
  | nil => exact fun _ hne _ => absurd rfl hne
  | cons p rest ih =>
    intro i _ hc
    have hp := hc p (List.mem_cons_self _ _)
    have hnr := (header_text_no_line_end p hp.1 hp.2.1).1
    cases rest with
    | nil =>
      show find_at "\r\n\r\n".toList (header_text p ++ "\r\n\r\n".toList ++ content) i = _
      rw [List.append_assoc, show "\r\n\r\n".toList = '\r' :: ['\n', '\r', '\n'] from rfl,
        find_at_skip _ _ _ _ _ hnr, find_at_here]
      rfl
    | cons q rest =>
      have hc' : clean_headers (q :: rest) := fun e he => hc e (List.mem_cons_of_mem _ he)
      obtain ⟨x, xs, hx, hxr⟩ := header_lines_text_head (q :: rest) (by simp) hc'
      have ih' := ih (i + (header_text p).length + 2) (by simp) hc'
      show find_at "\r\n\r\n".toList
        ((header_text p ++ '\r' :: '\n' :: header_lines_text (q :: rest)) ++
          "\r\n\r\n".toList ++ content) i = _
      have hshape : (header_text p ++ '\r' :: '\n' :: header_lines_text (q :: rest)) ++
          "\r\n\r\n".toList ++ content =
          header_text p ++ ('\r' :: '\n' :: x :: (xs ++ "\r\n\r\n".toList ++ content)) := by
        rw [hx]
        simp
      have hshape2 : header_lines_text (q :: rest) ++ "\r\n\r\n".toList ++ content =
          x :: (xs ++ "\r\n\r\n".toList ++ content) := by
        rw [hx]
        simp
      rw [hshape]
      rw [show "\r\n\r\n".toList = '\r' :: ['\n', '\r', '\n'] from rfl] at ih' ⊢
      rw [find_at_skip _ _ _ _ _ hnr]
      rw [show ('\r' :: ['\n', '\r', '\n'] : Str) = "\r\n\r\n".toList from rfl] at ih' ⊢
      rw [find_at_line_end _ _ _ hxr, ← hshape2, ih']
      simp only [header_lines_text, List.length_append, List.length_cons]
      congr 1
      omega

/-! ## The request round trip: reading the header lines back -/

theorem getlines_line (l s : Str) (h : '\n' ∉ l) :
    getlines (l ++ '\n' :: s) = l :: getlines s := by
  induction l with
  | nil => simp [getlines]
  | cons c l ih =>
    have hc : c ≠ '\n' := fun hc => h (hc ▸ List.mem_cons_self _ _)
    have ih' := ih (fun hm => h (List.mem_cons_of_mem _ hm))
    show getlines (c :: (l ++ '\n' :: s)) = _
    rw [getlines, if_neg hc, ih']

theorem getlines_last (l : Str) (hne : l ≠ []) (h : '\n' ∉ l) : getlines l = [l] := by
  induction l with
  | nil => exact absurd rfl hne
  | cons c l ih =>
    have hc : c ≠ '\n' := fun hc => h (hc ▸ List.mem_cons_self _ _)
    rw [getlines, if_neg hc]
    cases l with
    | nil => rfl
    | cons d l =>
      rw [ih (by simp) (fun hm => h (List.mem_cons_of_mem _ hm))]

theorem getlines_header_lines_text (hs : List (Str × Str)) (hc : clean_headers hs) :
    getlines (header_lines_text hs) = header_getlines hs := by
  induction hs with
  | nil => rfl
  | cons p rest ih =>
    have hp := hc p (List.mem_cons_self _ _)
    obtain ⟨hnr, hnn⟩ := header_text_no_line_end p hp.1 hp.2.1
    cases rest with
    | nil =>
      obtain ⟨x, xs, hx, _⟩ := header_text_head p hp.1
      show getlines (header_text p) = [header_text p]
      exact getlines_last _ (by rw [hx]; simp) hnn
    | cons q rest =>
      have hc' : clean_headers (q :: rest) := fun e he => hc e (List.mem_cons_of_mem _ he)
      show getlines (header_text p ++ '\r' :: '\n' :: header_lines_text (q :: rest)) = _
      have hsplit : header_text p ++ '\r' :: '\n' :: header_lines_text (q :: rest) =
          (header_text p ++ ['\r']) ++ '\n' :: header_lines_text (q :: rest) := by simp
      rw [hsplit, getlines_line _ _ (by
        simp only [List.mem_append, List.mem_singleton, not_or]
        exact ⟨hnn, by decide⟩), ih hc']
      rfl

theorem filter_no_space (s : Str) (h : no_space s) :
    s.filter (fun c => !isspace c) = s := by
  rw [List.filter_eq_self]
  intro a ha
  simp [h a ha]

/-- The round of the header loop on the line of one header, with or without
its `\r`. -/
theorem parse_header_line_text (request : HttpRequest) (key value : Str) (p : Str × Str)
    (t : Str) (h1 : no_space p.1) (h2 : no_space p.2) (h3 : ':' ∉ p.1)
    (ht : t = [] ∨ t = ['\r']) :
    parse_header_line request key value (header_text p ++ t) =
      (request.SetHeader p.1 p.2, p.1, p.2) := by
  have hline : header_text p ++ t = p.1 ++ ':' :: (' ' :: (p.2 ++ t)) := by
    simp [header_text]
  have hkey : ∀ a ∈ p.1, (fun x => x != ':') a = true := by
    intro a ha
    have : a ≠ ':' := fun hc => h3 (hc ▸ ha)
    simpa using this
  have htake : (p.1 ++ ':' :: (' ' :: (p.2 ++ t))).takeWhile (fun x => x != ':') = p.1 := by
    rw [List.takeWhile_append_of_pos hkey]
    simp [List.takeWhile_cons]
  have hdrop : (p.1 ++ ':' :: (' ' :: (p.2 ++ t))).dropWhile (fun x => x != ':') =
      ':' :: (' ' :: (p.2 ++ t)) := by
    rw [List.dropWhile_append_of_pos hkey]
    simp [List.dropWhile_cons]
  have hnl : ∀ a ∈ ' ' :: (p.2 ++ t), (fun x => x != '\n') a = true := by
    intro a ha
    have hne : a ≠ '\n' := by
      rintro rfl
      rcases List.mem_cons.1 ha with hc | hc
      · revert hc
        decide
      · rcases List.mem_append.1 hc with hc | hc
        · exact no_space_not_mem _ _ h2 (by decide) hc
        · rcases ht with rfl | rfl
          · cases hc
          · revert hc
            decide
    simpa using hne
  have htake2 : (' ' :: (p.2 ++ t)).takeWhile (fun x => x != '\n') = ' ' :: (p.2 ++ t) :=
    List.takeWhile_eq_self_iff.2 hnl
  have hdrop2 : (' ' :: (p.2 ++ t)).dropWhile (fun x => x != '\n') = [] :=
    List.dropWhile_eq_nil_iff.2 hnl
  have hfv : (' ' :: (p.2 ++ t)).filter (fun c => !isspace c) = p.2 := by
    have hsp : isspace ' ' = true := by decide
    rw [List.filter_cons, hsp, List.filter_append, filter_no_space _ h2]
    rcases ht with rfl | rfl
    · simp
    · have hcr : isspace '\r' = true := by decide
      simp [List.filter_cons, hcr]
  rw [hline]
  simp only [parse_header_line, istringstream.getline, istringstream.str,
    istringstream.good, Bool.not_false, Bool.and_self, Bool.not_true, Bool.false_eq_true,
    if_false, htake, hdrop, htake2, hdrop2, hfv, filter_no_space _ h1]

theorem parse_header_lines_text (hs : List (Str × Str)) (hc : clean_headers hs) :
    ∀ (request : HttpRequest) (key value : Str),
      parse_header_lines request key value (header_getlines hs) =
        hs.foldl (fun q p => q.SetHeader p.1 p.2) request := by
  induction hs with
  | nil => exact fun _ _ _ => rfl
  | cons p rest ih =>
    intro request key value
    have hp := hc p (List.mem_cons_self _ _)
    cases rest with
    | nil =>
      have h := parse_header_line_text request key value p [] hp.1 hp.2.1 hp.2.2 (Or.inl rfl)
      rw [List.append_nil] at h
      simp only [header_getlines, parse_header_lines, h, List.foldl]
    | cons q rest =>
      have hc' : clean_headers (q :: rest) := fun e he => hc e (List.mem_cons_of_mem _ he)
      have h := parse_header_line_text request key value p ['\r'] hp.1 hp.2.1 hp.2.2
        (Or.inr rfl)
      rw [header_getlines, parse_header_lines, h]
      simp only []
      rw [ih hc']
      rfl

theorem lt_asymm_of_strictTotal {κ : Type} {lt : κ → κ → Bool} (h : StrictTotal lt)
    (a b : κ) (hab : lt a b = true) : lt b a = false := by
  rcases Bool.eq_false_or_eq_true (lt b a) with hba | hba
  · have := h.trans a b a hab hba
    rw [h.irrefl] at this
    cases this
  · exact hba

theorem map_assign_last {κ ν : Type} {lt : κ → κ → Bool} (h : StrictTotal lt)
    (k : κ) (v : ν) (acc : List (κ × ν)) (hacc : ∀ a ∈ acc, lt a.1 k = true) :
    map_assign lt k v acc = acc ++ [(k, v)] := by
  induction acc with
  | nil => rfl
  | cons a rest ih =>
    obtain ⟨k', v'⟩ := a
    have h1 : lt k' k = true := hacc (k', v') (List.mem_cons_self _ _)
    have h2 : lt k k' = false := lt_asymm_of_strictTotal h _ _ h1
    simp only [map_assign, h1, h2, if_true, Bool.false_eq_true, if_false, List.cons_append]
    rw [ih (fun a ha => hacc a (List.mem_cons_of_mem _ ha))]

theorem foldl_assign_sorted {κ ν : Type} {lt : κ → κ → Bool} (h : StrictTotal lt)
    (hs : List (κ × ν)) :
    ∀ acc : List (κ × ν), map_sorted lt (acc ++ hs) →
      hs.foldl (fun m p => map_assign lt p.1 p.2 m) acc = acc ++ hs := by
  induction hs with
  | nil => exact fun acc _ => (List.append_nil acc).symm
  | cons p rest ih =>
    intro acc hsorted
    have hacc : ∀ a ∈ acc, lt a.1 p.1 = true := by
      intro a ha
      exact (List.pairwise_append.1 hsorted).2.2 a ha p (List.mem_cons_self _ _)
    rw [List.foldl_cons, map_assign_last h p.1 p.2 acc hacc, ih]
    · simp
    · simpa using hsorted

theorem map_assign_of_mem {κ ν : Type} {lt : κ → κ → Bool} (h : StrictTotal lt)
    (k : κ) (v : ν) (m : List (κ × ν)) (hs : map_sorted lt m) (hm : (k, v) ∈ m) :
    map_assign lt k v m = m := by
  induction m with
  | nil => cases hm
  | cons a rest ih =>
    obtain ⟨k', v'⟩ := a
    have hs' := List.pairwise_cons.1 hs
    rcases List.mem_cons.1 hm with heq | hmem
    · have hk : k = k' := congrArg Prod.fst heq
      have hv : v = v' := congrArg Prod.snd heq
      subst hk
      subst hv
      simp only [map_assign, h.irrefl, Bool.false_eq_true, if_false]
    · have h1 : lt k' k = true := hs'.1 (k, v) hmem
      have h2 : lt k k' = false := lt_asymm_of_strictTotal h _ _ h1
      simp only [map_assign, h1, h2, if_true, Bool.false_eq_true, if_false]
      rw [ih hs'.2 hmem]

theorem foldl_SetHeader (hs : List (Str × Str)) :
    ∀ request : HttpRequest,
      hs.foldl (fun q p => q.SetHeader p.1 p.2) request =
        { request with
          headers_ := hs.foldl (fun m p => map_assign str_lt p.1 p.2 m) request.headers_ } := by
  induction hs with
  | nil => exact fun _ => rfl
  | cons p rest ih =>
    intro request
    rw [List.foldl_cons, ih]
    rfl

/-! ## The request round trip -/

theorem method_to_string_token (m : HttpMethod) :
    m.to_string ≠ [] ∧ no_space m.to_string ∧ '\r' ∉ m.to_string ∧
      string_to_method m.to_string = .ok m := by
  cases m <;> refine ⟨by decide, ?_, by decide, by decide⟩ <;> unfold no_space <;> decide

/-- The two cuts `string_to_request` makes in the encoding of a message with
at least one header. -/
theorem split_encoded (start_line : Str) (hs : List (Str × Str)) (content : Str)
    (hsl : '\r' ∉ start_line) (hne : hs ≠ []) (hc : clean_headers hs) :
    find (start_line ++ "\r\n".toList ++
        (header_lines_text hs ++ "\r\n\r\n".toList ++ content)) "\r\n".toList 0 =
      some start_line.length ∧
    (start_line ++ "\r\n".toList ++
        (header_lines_text hs ++ "\r\n\r\n".toList ++ content)).take start_line.length =
      start_line ∧
    split_header_body (start_line ++ "\r\n".toList ++
        (header_lines_text hs ++ "\r\n\r\n".toList ++ content)) (start_line.length + 2) =
      (header_lines_text hs, content) := by
  have hlen2 : (start_line ++ "\r\n".toList).length = start_line.length + 2 := by
    rw [List.length_append]
    rfl
  have hdrop : (start_line ++ "\r\n".toList ++
      (header_lines_text hs ++ "\r\n\r\n".toList ++ content)).drop (start_line.length + 2) =
      header_lines_text hs ++ "\r\n\r\n".toList ++ content := by
    rw [← hlen2, List.drop_left]
  have hlen : (start_line ++ "\r\n".toList ++
      (header_lines_text hs ++ "\r\n\r\n".toList ++ content)).length =
      start_line.length + 2 + ((header_lines_text hs).length + 4 + content.length) := by
    rw [List.length_append, hlen2, List.length_append, List.length_append]
    rfl
  refine ⟨find_crlf_first _ _ hsl, ?_, ?_⟩
  · rw [List.append_assoc, List.take_left]
  · have hfind : find (start_line ++ "\r\n".toList ++
        (header_lines_text hs ++ "\r\n\r\n".toList ++ content)) "\r\n\r\n".toList
        (start_line.length + 2) =
        some (start_line.length + 2 + (header_lines_text hs).length) := by
      unfold find
      rw [if_neg (by rw [hlen]; omega), hdrop]
      exact find_at_empty_line hs content _ hne hc
    unfold split_header_body
    simp only [hfind]
    have hheader : substr (start_line ++ "\r\n".toList ++
        (header_lines_text hs ++ "\r\n\r\n".toList ++ content)) (start_line.length + 2)
        (start_line.length + 2 + (header_lines_text hs).length - (start_line.length + 2)) =
        header_lines_text hs := by
      unfold substr
      rw [hdrop, Nat.add_sub_cancel_left, List.append_assoc, List.take_left]
    have hdrop2 : (start_line ++ "\r\n".toList ++
        (header_lines_text hs ++ "\r\n\r\n".toList ++ content)).drop
        (start_line.length + 2 + (header_lines_text hs).length + 4) = content := by
      have hl : (start_line ++ "\r\n".toList ++ (header_lines_text hs ++
          "\r\n\r\n".toList)).length =
          start_line.length + 2 + (header_lines_text hs).length + 4 := by
        rw [List.length_append, hlen2, List.length_append]
        rfl
      have hassoc : start_line ++ "\r\n".toList ++
          (header_lines_text hs ++ "\r\n\r\n".toList ++ content) =
          (start_line ++ "\r\n".toList ++ (header_lines_text hs ++ "\r\n\r\n".toList)) ++
            content := by
        simp only [List.append_assoc]
      rw [hassoc, ← hl, List.drop_left]
    have hbody : (if start_line.length + 2 + (header_lines_text hs).length + 4 <
          (start_line ++ "\r\n".toList ++
            (header_lines_text hs ++ "\r\n\r\n".toList ++ content)).length then
        substr (start_line ++ "\r\n".toList ++
          (header_lines_text hs ++ "\r\n\r\n".toList ++ content))
          (start_line.length + 2 + (header_lines_text hs).length + 4)
          ((start_line ++ "\r\n".toList ++
            (header_lines_text hs ++ "\r\n\r\n".toList ++ content)).length -
            (start_line.length + 2 + (header_lines_text hs).length + 4))
        else []) = content := by
      unfold substr
      rw [hdrop2, hlen]
      split_ifs with hlt
      · apply List.take_of_length_le
        omega
      · have h0 : content.length = 0 := by omega
        exact (List.length_eq_zero.1 h0).symm
    rw [hheader, hbody]

/-- C25: a request that satisfies the invariants of the class (version
HTTP/1.1, headers a `std::map`, path in lowercase), whose content was set with
`SetContent`, so that its Content-Length header is the length of the content
in decimal, whose path is not empty and has no white space (CR and LF are
white space), and whose header keys and values have no white space, the keys
no colon, is decoded from its own encoding: `string_to_request(to_string(r))`
returns `r`, with its method, path, header map and content. -/
theorem request_round_trip (r : HttpRequest) (hwf : r.wf)
    (hlower : r.uri.path.map tolower = r.uri.path)
    (hpath : r.uri.path ≠ []) (hpath_space : no_space r.uri.path)
    (hclean : clean_headers r.headers)
    (hlength : ("Content-Length".toList, decimal r.content.length) ∈ r.headers) :
    string_to_request r.to_string = .ok r ∧
    ∃ decoded, string_to_request r.to_string = .ok decoded ∧
      decoded.method = r.method ∧ decoded.uri.path = r.uri.path ∧
      decoded.headers = r.headers ∧ decoded.content = r.content := by
  suffices h : string_to_request r.to_string = .ok r from ⟨h, r, h, rfl, rfl, rfl, rfl⟩
  obtain ⟨version, hs, content, m, ⟨path⟩⟩ := r
  obtain ⟨hversion, hsorted⟩ := hwf
  simp only [HttpRequest.uri, Uri.path] at hlower hpath hpath_space
  simp only [HttpRequest.headers, HttpRequest.content] at hclean hlength hsorted
  simp only at hversion hsorted
  subst hversion
  have hne : hs ≠ [] := List.ne_nil_of_mem hlength
  obtain ⟨hm1, hm2, hm3, hm4⟩ := method_to_string_token m
  have hv1 : "HTTP/1.1".toList ≠ [] := by decide
  have hv2 : no_space "HTTP/1.1".toList := by
    unfold no_space
    decide
  have hsl : '\r' ∉ m.to_string ++ ' ' :: (path ++ ' ' :: "HTTP/1.1".toList) := by
    simp only [List.mem_append, List.mem_cons, not_or]
    exact ⟨hm3, by decide, no_space_not_mem _ _ hpath_space (by decide), by decide,
      by decide⟩
  have htext : HttpRequest.to_string
      { version_ := .HTTP_1_1, headers_ := hs, content_ := content, method_ := m,
        uri_ := { path_ := path } } =
      (m.to_string ++ ' ' :: (path ++ ' ' :: "HTTP/1.1".toList)) ++ "\r\n".toList ++
        (header_lines_text hs ++ "\r\n\r\n".toList ++ content) := by
    simp only [HttpRequest.to_string, HttpRequest.method, HttpRequest.uri, Uri.path,
      HttpRequest.version, HttpVersion.to_string, HttpRequest.headers, HttpRequest.content,
      header_block_lines hs hne]
    simp only [List.append_assoc, List.singleton_append, List.cons_append]
    rfl
  obtain ⟨hf, htake, hsplit⟩ := split_encoded _ hs content hsl hne hclean
  obtain ⟨ht0, ht1, ht2⟩ := nth_token_start_line m.to_string path "HTTP/1.1".toList
    hm1 hm2 hpath hpath_space hv1 hv2
  have hver : string_to_version "HTTP/1.1".toList = .ok .HTTP_1_1 := by decide
  have huri : Uri.ofPath path = { path_ := path } := by
    simp only [Uri.ofPath, Uri.SetPathToLowercase, hlower]
  rw [htext, string_to_request_tokens _ _ hf, htake, ht0, ht1, ht2, hm4]
  simp only [hver, ne_eq, not_true_eq_false, if_false, hsplit, huri]
  rw [getlines_header_lines_text hs hclean, parse_header_lines_text hs hclean,
    foldl_SetHeader]
  have hfold : hs.foldl (fun m p => map_assign str_lt p.1 p.2 m) [] = hs := by
    have := foldl_assign_sorted str_lt_strictTotal hs [] (by simpa using hsorted)
    simpa using this
  have hassign : map_assign str_lt "Content-Length".toList (decimal content.length) hs = hs :=
    map_assign_of_mem str_lt_strictTotal _ _ hs hsorted hlength
  simp only [HttpRequest.SetContent, HttpRequest.SetContentLength, HttpRequest.SetHeader,
    HttpRequest.SetUri, HttpRequest.SetMethod, HttpRequest.default, hfold, hassign]

theorem request_round_trip_witness :
    test_request.wf ∧
    test_request.uri.path.map tolower = test_request.uri.path ∧
    test_request.uri.path ≠ [] ∧
    no_space test_request.uri.path ∧
    clean_headers test_request.headers ∧
    ("Content-Length".toList, decimal test_request.content.length) ∈ test_request.headers ∧
    string_to_request test_request.to_string = .ok test_request :=
  have h1 : no_space test_request.uri.path := by
    unfold no_space
    decide
  have h2 : clean_headers test_request.headers := by
    unfold clean_headers no_space
    decide
  ⟨test_request_wf, by decide, by decide, h1, h2, by decide,
    (request_round_trip test_request test_request_wf (by decide) (by decide) h1 h2
      (by decide)).1⟩

end simple_http_server
